import Mathlib

/-!
Catalog, page tree and named destinations (xpdf/Catalog.cc)

A shallow embedding of `Catalog::Catalog`, `Catalog::readPageTree`,
`Catalog::findPage`, `Catalog::findDest` and `NameTree` as found in
`xpdf/xpdf/Catalog.cc`, followed by theorems about them.

Conventions of the embedding

* C `int` values are `Int`; the page and reference arrays are lists whose
  length is the allocated number of slots; a slot index is `Int.toNat` of the
  C index after the index has been checked to be non-negative.
* Recursion through indirect references need not terminate in the C code
  (the object graph may be cyclic), so the recursive descents take a `fuel`
  argument and stop with `Fault.outOfFuel` when it is used up.
* A store outside the allocated slots ends the run with a `Fault`; nothing is
  said about the state after such an event.  What the allocator does with a
  negative number of slots is not visible in `Catalog.cc`; both behaviours,
  ending the run and handing out no storage, are covered (`Env`).
* `error(-1, ...)` appends one `ErrMsg` to the `log` of the catalog.
-/

namespace Xpdf

/-! ## Objects (`Object.h`) -/

/-- The tag of an object (`ObjType` in `Object.h`). -/
inductive ObjType where
  | objBool | objInt | objReal | objString | objName | objNull | objArray
  | objDict | objStream | objRef | objCmd | objError | objEOF | objNone
  deriving DecidableEq, Repr

/-- An object as stored in a PDF file.  An array element or dictionary value
may be an indirect reference `objRef num gen`; it is resolved only when it is
fetched.  An integer object holds a C `int`.  A real object holds a C
`double`: the number `sig * 2 ^ exp` with a significand `sig` below `2 ^ 53`,
negated when `neg` is set.  Which `double` the reader of the file makes of the
digits written there is not part of `Catalog.cc`. -/
inductive Obj where
  | objBool (b : Bool)
  | objInt (n : Int)
  | objReal (neg : Bool) (sig : Fin 9007199254740992) (exp : Int)
  | objString (s : String)
  | objName (s : String)
  | objNull
  | objArray (elems : List Obj)
  | objDict (entries : List (String × Obj))
  | objStream (entries : List (String × Obj)) (data : List Nat)
  | objRef (num : Int) (gen : Int)
  | objCmd (s : String)
  | objError
  | objEOF
  | objNone

/-- The entries of a dictionary, in file order (`Dict.h`). -/
abbrev Dict := List (String × Obj)

namespace Obj

def getType : Obj → ObjType
  | objBool _ => .objBool
  | objInt _ => .objInt
  | objReal _ _ _ => .objReal
  | objString _ => .objString
  | objName _ => .objName
  | objNull => .objNull
  | objArray _ => .objArray
  | objDict _ => .objDict
  | objStream _ _ => .objStream
  | objRef _ _ => .objRef
  | objCmd _ => .objCmd
  | objError => .objError
  | objEOF => .objEOF
  | objNone => .objNone

def isDict : Obj → Bool
  | objDict _ => true
  | _ => false

def isArray : Obj → Bool
  | objArray _ => true
  | _ => false

def isNull : Obj → Bool
  | objNull => true
  | _ => false

def isRef : Obj → Bool
  | objRef _ _ => true
  | _ => false

def isString : Obj → Bool
  | objString _ => true
  | _ => false

def isName : Obj → Bool
  | objName _ => true
  | _ => false

/-- Both integers and reals are numbers (`isNum`). -/
def isNum : Obj → Bool
  | objInt _ => true
  | objReal _ _ _ => true
  | _ => false

/-- The value of `isName(nameA)`: a name object with exactly this name. -/
def isNameOf (nameA : String) : Obj → Bool
  | objName s => decide (s = nameA)
  | _ => false

/-- The least value of a C `int` (32 bits). -/
def intMin : Int := -2147483648

/-- The greatest value of a C `int` (32 bits). -/
def intMax : Int := 2147483647

/-- The `double` `sig * 2 ^ exp`, negated when `neg` is set, with its
fractional part discarded: the magnitude is rounded down and the sign is
kept. -/
def realTrunc (neg : Bool) (sig : Nat) (exp : Int) : Int :=
  if neg then
    -(((if 0 ≤ exp then sig * 2 ^ exp.toNat else sig / 2 ^ (-exp).toNat : Nat)) : Int)
  else (((if 0 ≤ exp then sig * 2 ^ exp.toNat else sig / 2 ^ (-exp).toNat : Nat)) : Int)

/-- The value of `(int)obj.getNum()`: an integer is taken as it is (the
conversion to `double` and back is exact), a real is converted by discarding
its fractional part when the result is a value of `int`.  When it is not, the
conversion is not defined by the language; the value taken here is the one the
conversion instruction of the usual targets gives, the least `int`.  Other
objects are never asked (the caller checks `isNum` first); they give 0
here. -/
def getNumAsInt : Obj → Int
  | objInt n => n
  | objReal neg sig exp =>
    if intMin ≤ realTrunc neg sig exp ∧ realTrunc neg sig exp ≤ intMax then
      realTrunc neg sig exp
    else intMin
  | _ => 0

def getDict : Obj → Dict
  | objDict d => d
  | _ => []

def getArray : Obj → List Obj
  | objArray a => a
  | _ => []

end Obj

/-! ## Object resolution (`XRef.h`), an external collaborator

The cross-reference table is taken as given: a function from an object
number and generation to the stored object (`objNull` when there is none),
and the reference of the root catalog. -/

structure XRef where
  fetchObj : Int → Int → Obj
  rootNum : Int
  rootGen : Int

/-- The behaviour of `Object::fetch`: an indirect reference is replaced by the
object it names (one step, the result is not resolved again); any other object
is copied. -/
def Obj.fetch (xref : XRef) : Obj → Obj
  | .objRef num gen => xref.fetchObj num gen
  | o => o

/-- The root catalog object (`XRef::getCatalog`). -/
def XRef.getCatalog (xref : XRef) : Obj :=
  xref.fetchObj xref.rootNum xref.rootGen

/-- The first entry with the given key (`Dict::find`). -/
def Dict.find (d : Dict) (key : String) : Option Obj :=
  match d with
  | [] => none
  | (k, v) :: rest => if k = key then some v else Dict.find rest key

/-- The entry for a key without resolving it, `objNull` when the key is
absent (`Dict::lookupNF`). -/
def Dict.lookupNF (d : Dict) (key : String) : Obj :=
  match Dict.find d key with
  | some v => v
  | none => .objNull

/-- The entry for a key, resolved, `objNull` when the key is absent
(`Dict::lookup`). -/
def Dict.lookup (xref : XRef) (d : Dict) (key : String) : Obj :=
  match Dict.find d key with
  | some v => v.fetch xref
  | none => .objNull

/-- The value of `Dict::is`: the dictionary has a `Type` entry that is,
unresolved, the given name. -/
def Dict.is (d : Dict) (type : String) : Bool :=
  match Dict.find d "Type" with
  | some v => v.isNameOf type
  | none => false

/-- The value of `obj.dictLookup(key, &res)` on any object; only dictionaries
are ever asked, other objects give `objNull` here. -/
def Obj.dictLookup (xref : XRef) (o : Obj) (key : String) : Obj :=
  Dict.lookup xref o.getDict key

/-- The value of `isDict(dictType)`: a dictionary whose `Type` is the given
name. -/
def Obj.isDictOf (dictType : String) : Obj → Bool
  | .objDict d => Dict.is d dictType
  | _ => false

/-! ## Page attributes and pages (`Page.h`) -/

/-- Modelled from the spec: `PageAttrs` (its source, `Page.cc`, is not part of
the sources at hand).  The inheritable keys MediaBox, CropBox, Resources and
Rotate, each holding the value in effect at a node of the page tree. -/
structure PageAttrs where
  mediaBox : Obj
  cropBox : Obj
  resources : Obj
  rotate : Obj

/-- Modelled from the spec: the document defaults used at the root of the
page tree, MediaBox = Letter size and Rotate = 0; the spec names no default
for the other two keys, they are `objNull` here. -/
def PageAttrs.defaults : PageAttrs :=
  { mediaBox := .objArray [.objInt 0, .objInt 0, .objInt 612, .objInt 792]
    cropBox := .objNull
    resources := .objNull
    rotate := .objInt 0 }

/-- Modelled from the spec: the value of one inheritable key at a node, the
value of the node dictionary when it has one, else the inherited value. -/
def PageAttrs.pick (xref : XRef) (inherited : Obj) (dict : Dict) (key : String) : Obj :=
  if (Dict.lookup xref dict key).isNull then inherited else Dict.lookup xref dict key

/-- Modelled from the spec: `merge(parentOrNone, nodeDict)`, the constructor
`PageAttrs(attrs, dict)`.  The parent is not changed. -/
def PageAttrs.merge (xref : XRef) (attrs : Option PageAttrs) (dict : Dict) : PageAttrs :=
  let base := attrs.getD PageAttrs.defaults
  { mediaBox := PageAttrs.pick xref base.mediaBox dict "MediaBox"
    cropBox := PageAttrs.pick xref base.cropBox dict "CropBox"
    resources := PageAttrs.pick xref base.resources dict "Resources"
    rotate := PageAttrs.pick xref base.rotate dict "Rotate" }

/-- What `new Page(xref, num, pageDict, attrs)` is given. -/
structure Page where
  num : Int
  pageDict : Dict
  attrs : PageAttrs

/-- An indirect reference (`Ref` in `Object.h`). -/
structure Ref where
  num : Int
  gen : Int
  deriving DecidableEq, Repr

/-- The value both arrays are initialised with: no page, reference (-1, -1). -/
def Ref.unset : Ref := { num := -1, gen := -1 }

/-! ## Diagnostics and faults -/

/-- One call of `error(-1, ...)`. -/
inductive ErrMsg where
  | catalogWrongType (t : ObjType)
  | topPagesWrongType (t : ObjType)
  | pageCountWrongType (t : ObjType)
  | pageCountIncorrect
  | kidsWrongType (page : Int) (t : ObjType)
  | kidWrongType (page : Int) (t : ObjType)
  | badNamedDest
  | invalidPageTree
  | lookupFailed (name : String)
  deriving DecidableEq, Repr

/-- Ways a run ends without a result. -/
inductive Fault where
  | outOfFuel
  | bogusAlloc
  | outOfBounds
  deriving DecidableEq, Repr

/-! ## Name tree (`NameTree` in `Catalog.h`) -/

/-- One entry of a name tree: its name and its value, unresolved. -/
structure NameTree.Entry where
  name : String
  value : Obj

/-- The flat sequence of entries; `size` is the allocated number of slots and
the C field `length` is `entries.length`. -/
structure NameTree where
  size : Nat
  entries : List NameTree.Entry

/-- Page mode of the catalog (`Catalog::PageMode`). -/
inductive PageMode where
  | UseNone | UseOutlines | UseThumbs | FullScreen | UseOC
  deriving DecidableEq, Repr

/-- A destination built from an array (`LinkDest(Array *)`, `Link.h`). -/
structure LinkDest where
  a : List Obj

/-! ## The catalog -/

/-- The members of `Catalog`, together with the messages given to `error`. -/
structure Catalog where
  xref : XRef
  pages : List (Option Page)
  pageRefs : List Ref
  numPages : Int
  pagesSize : Int
  dests : Obj
  destNameTree : NameTree
  baseURI : Option String
  pageMode : PageMode
  metadata : Obj
  structTreeRoot : Obj
  outline : Obj
  acroForm : Obj
  ok : Bool
  log : List ErrMsg

/-- What the code takes from collaborators that are not modelled: whether a
constructed page is valid (`Page::isOk`), whether a destination built from an
array is valid (`LinkDest::isOk`), the contents of freshly allocated memory,
what the allocator (`gmem.h`) does with a negative number of slots: it ends
the run (`true`) or it hands out no storage (`false`), and what
`Array::getNF` does with an index past the end of the array: the object it
leaves and whether it reports success. -/
structure Env where
  pageIsOk : Page → Bool
  linkDestIsOk : List Obj → Bool
  junkPage : Nat → Option Page
  junkRef : Nat → Ref
  negAllocAborts : Bool
  getNFPastEnd : Obj × Bool

/-- The behaviour of `gmallocn` and `greallocn` (`gmem.h`): a block of `n`
slots that keeps the old contents as far as they go; the other slots hold
whatever was in memory.  With a negative count the run ends when `aborts`
is set, else there are no slots. -/
def greallocn {α : Type} (aborts : Bool) (junk : Nat → α) (old : List α) (n : Int) :
    Except Fault (List α) :=
  if n < 0 ∧ aborts = true then .error .bogusAlloc
  else .ok ((List.range n.toNat).map fun j => (old[j]?).getD (junk j))

/-- The assignment `xs[i] = v`. -/
def store {α : Type} (xs : List α) (i : Int) (v : α) : Except Fault (List α) :=
  if 0 ≤ i ∧ i.toNat < xs.length then .ok (xs.set i.toNat v) else .error .outOfBounds

/-- The loop `for (j = ...; j < pagesSize; ++j) { pages[j] = NULL;
pageRefs[j].num = -1; pageRefs[j].gen = -1; }`, with `k` iterations left. -/
def Catalog.clearSlots (c : Catalog) (j : Int) : Nat → Except Fault Catalog
  | 0 => .ok c
  | k + 1 =>
    match store c.pages j none with
    | .error f => .error f
    | .ok pages =>
      match store c.pageRefs j Ref.unset with
      | .error f => .error f
      | .ok pageRefs =>
        Catalog.clearSlots { c with pages := pages, pageRefs := pageRefs } (j + 1) k

/-- The block of `readPageTree` run when `start >= pagesSize`: 32 more slots,
each initialised. -/
def Catalog.grow (env : Env) (c : Catalog) : Except Fault Catalog :=
  match greallocn env.negAllocAborts env.junkPage c.pages (c.pagesSize + 32) with
  | .error f => .error f
  | .ok pages =>
    match greallocn env.negAllocAborts env.junkRef c.pageRefs (c.pagesSize + 32) with
    | .error f => .error f
    | .ok pageRefs =>
      Catalog.clearSlots
        { c with pagesSize := c.pagesSize + 32, pages := pages, pageRefs := pageRefs }
        (c.pagesSize + 32 - 32) 32

/-- The statements of `readPageTree` that put a valid page into slot `start`:
growth when `start >= pagesSize`, `pages[start] = page`, and the reference of
the kid when the array element is an indirect reference. -/
def Catalog.storePage (env : Env) (c : Catalog) (start : Int) (page : Page) (kidRef : Obj) :
    Except Fault Catalog :=
  match (if start ≥ c.pagesSize then Catalog.grow env c else .ok c) with
  | .error f => .error f
  | .ok c1 =>
    match store c1.pages start (some page) with
    | .error f => .error f
    | .ok pages =>
      match kidRef with
      | .objRef num gen =>
        match store c1.pageRefs start { num := num, gen := gen } with
        | .error f => .error f
        | .ok pageRefs => .ok { c1 with pages := pages, pageRefs := pageRefs }
      | _ => .ok { c1 with pages := pages }

/-- The loop over the kids of `readPageTree`, from the element `kidRef` on.
`recurse` is the recursive call of `readPageTree`.  The result is `some start`
when the loop ran to its end and `none` when it left through one of the
labels `err3`, `err2`. -/
def readKids (env : Env) (xref : XRef)
    (recurse : Dict → PageAttrs → Int → Catalog → Except Fault (Int × Catalog))
    (attrs1 : PageAttrs) : List Obj → Int → Catalog → Except Fault (Option Int × Catalog)
  | [], start, c => .ok (some start, c)
  | kidRef :: rest, start, c =>
    if (kidRef.fetch xref).isDictOf "Page" then
      if env.pageIsOk
          { num := start + 1, pageDict := (kidRef.fetch xref).getDict,
            attrs := PageAttrs.merge xref (some attrs1) (kidRef.fetch xref).getDict } then
        match Catalog.storePage env c start
            { num := start + 1, pageDict := (kidRef.fetch xref).getDict,
              attrs := PageAttrs.merge xref (some attrs1) (kidRef.fetch xref).getDict } kidRef with
        | .error f => .error f
        | .ok c1 => readKids env xref recurse attrs1 rest (start + 1) c1
      else .ok (none, c)
    else if (kidRef.fetch xref).isDict then
      match recurse (kidRef.fetch xref).getDict attrs1 start c with
      | .error f => .error f
      | .ok (start1, c1) =>
        if start1 < 0 then .ok (none, c1)
        else readKids env xref recurse attrs1 rest start1 c1
    else
      readKids env xref recurse attrs1 rest start
        { c with log := c.log ++ [.kidWrongType (start + 1) (kidRef.fetch xref).getType] }

/-- The function `Catalog::readPageTree`.  The result is the returned `int`
and the catalog afterwards. -/
def readPageTree (env : Env) (xref : XRef) :
    Nat → Dict → Option PageAttrs → Int → Catalog → Except Fault (Int × Catalog)
  | 0, _, _, _, _ => .error .outOfFuel
  | fuel + 1, pagesDict, attrs, start, c =>
    if (Dict.lookup xref pagesDict "Kids").isArray then
      match readKids env xref (fun d a s c1 => readPageTree env xref fuel d (some a) s c1)
          (PageAttrs.merge xref attrs pagesDict)
          (Dict.lookup xref pagesDict "Kids").getArray start c with
      | .error f => .error f
      | .ok (some start1, c1) => .ok (start1, c1)
      | .ok (none, c1) => .ok (-1, { c1 with ok := false })
    else
      .ok (-1, { c with
        log := c.log ++ [.kidsWrongType (start + 1) (Dict.lookup xref pagesDict "Kids").getType]
        ok := false })

/-! ## Name tree construction and lookup -/

/-- Modelled from the spec: the order of names, `UGString::cmp` (its source is
not part of the sources at hand): the difference of the first pair of
characters that differ, else the difference of the lengths. -/
def UGString.cmpChars : List Char → List Char → Int
  | c :: cs, d :: ds =>
    if (c.toNat : Int) - (d.toNat : Int) ≠ 0 then (c.toNat : Int) - (d.toNat : Int)
    else UGString.cmpChars cs ds
  | cs, ds => (cs.length : Int) - (ds.length : Int)

/-- Modelled from the spec: `key->cmp(other)` on names. -/
def UGString.cmp (key other : String) : Int :=
  UGString.cmpChars key.data other.data

/-- The function `NameTree::Entry::cmp`. -/
def NameTree.Entry.cmp (key : String) (entry : NameTree.Entry) : Int :=
  UGString.cmp key entry.name

/-- The constructor `NameTree::NameTree`. -/
def NameTree.empty : NameTree := { size := 0, entries := [] }

/-- The constructor `NameTree::Entry::Entry(array, index)`, given the element
at `index` and the element at `index + 1` when there is one.  The call
`array->getString(index, &n)` succeeds when the element is, unresolved, a
string, which is then the name.  When it fails the error is logged, the name
is empty and, `getNF` not being called, the value stays the object a fresh
`Object` is.  Otherwise `array->getNF(index + 1, &value)` puts the unresolved
element into the value; past the end of the array it does what `Env` says,
and the error is logged when it reports failure. -/
def NameTree.Entry.new (env : Env) (nameObj : Obj) (valueObj : Option Obj) :
    NameTree.Entry × List ErrMsg :=
  match nameObj with
  | .objString n =>
    match valueObj with
    | some v => ({ name := n, value := v }, [])
    | none =>
      ({ name := n, value := env.getNFPastEnd.1 },
        if env.getNFPastEnd.2 = true then [] else [.invalidPageTree])
  | _ => ({ name := "", value := .objNone }, [.invalidPageTree])

/-- The function `NameTree::addEntry`. -/
def NameTree.addEntry (t : NameTree) (entry : NameTree.Entry) : NameTree :=
  { size := if t.entries.length = t.size then (if t.entries.length = 0 then 8 else t.size * 2)
            else t.size
    entries := t.entries ++ [entry] }

/-- The loop `for (i = 0; i < names.arrayGetLength(); i += 2)` of
`NameTree::parse`, from index `i` on, given the elements from `i` on. -/
def NameTree.parseNames (env : Env) :
    List Obj → NameTree × List ErrMsg → NameTree × List ErrMsg
  | [], s => s
  | [n], s =>
    ((s.1.addEntry (NameTree.Entry.new env n none).1), s.2 ++ (NameTree.Entry.new env n none).2)
  | n :: v :: rest, s =>
    NameTree.parseNames env rest
      ((s.1.addEntry (NameTree.Entry.new env n (some v)).1),
        s.2 ++ (NameTree.Entry.new env n (some v)).2)

/-- The loop over the kids of `NameTree::parse`; `recurse` is the recursive
call. -/
def NameTree.parseKids (xref : XRef)
    (recurse : Obj → NameTree × List ErrMsg → Except Fault (NameTree × List ErrMsg)) :
    List Obj → NameTree × List ErrMsg → Except Fault (NameTree × List ErrMsg)
  | [], s => .ok s
  | kid :: rest, s =>
    if (kid.fetch xref).isDict then
      match recurse (kid.fetch xref) s with
      | .error f => .error f
      | .ok s1 => NameTree.parseKids xref recurse rest s1
    else NameTree.parseKids xref recurse rest s

/-- The function `NameTree::parse`, on the tree built so far and the messages
logged so far. -/
def NameTree.parse (env : Env) (xref : XRef) :
    Nat → Obj → NameTree × List ErrMsg → Except Fault (NameTree × List ErrMsg)
  | 0, _, _ => .error .outOfFuel
  | fuel + 1, tree, s =>
    if tree.isDict then
      if (tree.dictLookup xref "Kids").isArray then
        NameTree.parseKids xref (NameTree.parse env xref fuel)
          (tree.dictLookup xref "Kids").getArray
          (if (tree.dictLookup xref "Names").isArray then
            NameTree.parseNames env (tree.dictLookup xref "Names").getArray s
           else s)
      else
        .ok (if (tree.dictLookup xref "Names").isArray then
            NameTree.parseNames env (tree.dictLookup xref "Names").getArray s
           else s)
    else .ok s

/-- The C library function `bsearch` on the slots `l .. u - 1` of `base`, as
the usual loop: compare with the middle element, continue in the lower or
upper half.  `fuel` bounds the number of iterations; `u - l + 1` is enough. -/
def bsearchLoop {α : Type} (compar : α → Int) (base : List α) : Nat → Nat → Nat → Option α
  | 0, _, _ => none
  | fuel + 1, l, u =>
    if l < u then
      match base[(l + u) / 2]? with
      | none => none
      | some p =>
        if compar p < 0 then bsearchLoop compar base fuel l ((l + u) / 2)
        else if compar p > 0 then bsearchLoop compar base fuel ((l + u) / 2 + 1) u
        else some p
    else none

/-- The call `bsearch(key, base, nmemb, size, compar)`. -/
def bsearch {α : Type} (compar : α → Int) (base : List α) : Option α :=
  bsearchLoop compar base (base.length + 1) 0 base.length

/-- The function `NameTree::lookup`: whether the name was found, the object
put into `obj`, and the messages logged.  The entries are never null
pointers, so the second failure branch of the C code is not reached. -/
def NameTree.lookup (xref : XRef) (t : NameTree) (name : String) : Bool × Obj × List ErrMsg :=
  match bsearch (NameTree.Entry.cmp name) t.entries with
  | some entry => (true, entry.value.fetch xref, [])
  | none => (false, .objNull, [.lookupFailed name])

/-! ## Queries -/

/-- The loop of `Catalog::findPage` at index `i` with `k` iterations left.
The result is `none` when the loop reads outside the reference array. -/
def Catalog.findPageFrom (c : Catalog) (num gen : Int) : Nat → Nat → Option Int
  | 0, _ => some 0
  | k + 1, i =>
    match c.pageRefs[i]? with
    | none => none
    | some r =>
      if r.num = num ∧ r.gen = gen then some ((i : Int) + 1)
      else Catalog.findPageFrom c num gen k (i + 1)

/-- The function `Catalog::findPage`. -/
def Catalog.findPage (c : Catalog) (num gen : Int) : Option Int :=
  Catalog.findPageFrom c num gen c.numPages.toNat 0

/-- The first half of `Catalog::findDest`: the object found for the name, in
the destination dictionary or else in the name tree, and the messages
logged. -/
def Catalog.findDestObj (c : Catalog) (name : String) : Option Obj × List ErrMsg :=
  if c.dests.isDict ∧ (c.dests.dictLookup c.xref name).isNull = false then
    (some (c.dests.dictLookup c.xref name), [])
  else
    match NameTree.lookup c.xref c.destNameTree name with
    | (true, obj1, msgs) => (some obj1, msgs)
    | (false, _, msgs) => (none, msgs)

/-- The second half of `Catalog::findDest`, before the validity check: the
destination built from the object found, and the messages logged. -/
def Catalog.buildDest (xref : XRef) (obj1 : Obj) : Option LinkDest × List ErrMsg :=
  if obj1.isArray then (some { a := obj1.getArray }, [])
  else if obj1.isDict then
    if (obj1.dictLookup xref "D").isArray then
      (some { a := (obj1.dictLookup xref "D").getArray }, [])
    else (none, [.badNamedDest])
  else (none, [.badNamedDest])

/-- The end of `Catalog::findDest`: a destination that is not valid is
dropped. -/
def Catalog.checkDest (env : Env) : Option LinkDest → Option LinkDest
  | some dest => if env.linkDestIsOk dest.a then some dest else none
  | none => none

/-- The function `Catalog::findDest`: the destination returned (`none` for
`NULL`) and the messages logged. -/
def Catalog.findDest (env : Env) (c : Catalog) (name : String) : Option LinkDest × List ErrMsg :=
  match Catalog.findDestObj c name with
  | (none, msgs) => (none, msgs)
  | (some obj1, msgs) =>
    (Catalog.checkDest env (Catalog.buildDest c.xref obj1).1,
      msgs ++ (Catalog.buildDest c.xref obj1).2)

/-! ## Construction -/

/-- The members as set at the start of `Catalog::Catalog`. -/
def Catalog.initial (xrefA : XRef) : Catalog :=
  { xref := xrefA, pages := [], pageRefs := [], numPages := 0, pagesSize := 0
    dests := .objNone, destNameTree := NameTree.empty, baseURI := none
    pageMode := .UseNone, metadata := .objNone, structTreeRoot := .objNone
    outline := .objNone, acroForm := .objNone, ok := true, log := [] }

/-- The exit through the labels `err3`, `err2`, `err1` of `Catalog::Catalog`,
after the message `msg`. -/
def Catalog.failEarly (xrefA : XRef) (msg : ErrMsg) : Catalog :=
  { Catalog.initial xrefA with log := [msg], dests := .objNull, ok := false }

/-- The statement that reads the page mode: the mode named by the `PageMode`
entry `obj`, given the mode `cur` the member holds before.  A name outside
the table leaves the member as it is; an object that is not a name sets
`UseNone`. -/
def Catalog.readPageMode (cur : PageMode) (obj : Obj) : PageMode :=
  match obj with
  | .objName s =>
    if s = "UseNone" then .UseNone
    else if s = "UseOutlines" then .UseOutlines
    else if s = "UseThumbs" then .UseThumbs
    else if s = "FullScreen" then .FullScreen
    else if s = "UseOC" then .UseOC
    else cur
  | _ => .UseNone

/-- The statement that reads the base URI: the `Base` string of the `URI`
dictionary, given the value `cur` the member holds before, which stays when
there is no such string. -/
def Catalog.readBaseURI (xref : XRef) (cur : Option String) (catDict : Obj) : Option String :=
  if (catDict.dictLookup xref "URI").isDict then
    match (catDict.dictLookup xref "URI").dictLookup xref "Base" with
    | .objString s => some s
    | _ => cur
  else cur

/-- The part of `Catalog::Catalog` after the page tree was read: the
auxiliary entries of the catalog dictionary. -/
def Catalog.readAux (env : Env) (fuel : Nat) (catDict : Obj) (c : Catalog) :
    Except Fault Catalog :=
  match (if (catDict.dictLookup c.xref "Names").isDict then
          NameTree.parse env c.xref fuel
            ((catDict.dictLookup c.xref "Names").dictLookup c.xref "Dests")
            (c.destNameTree, c.log)
         else .ok (c.destNameTree, c.log)) with
  | .error f => .error f
  | .ok (tree, log) =>
    .ok { c with
      dests := catDict.dictLookup c.xref "Dests"
      destNameTree := tree
      log := log
      baseURI := Catalog.readBaseURI c.xref c.baseURI catDict
      pageMode := Catalog.readPageMode c.pageMode (catDict.dictLookup c.xref "PageMode")
      metadata := catDict.dictLookup c.xref "Metadata"
      structTreeRoot := catDict.dictLookup c.xref "StructTreeRoot"
      outline := catDict.dictLookup c.xref "Outlines"
      acroForm := catDict.dictLookup c.xref "AcroForm" }

/-- The local variable `pagesDict` of `Catalog::Catalog`: the `Pages` entry of
the root catalog. -/
def XRef.pagesDict (xref : XRef) : Obj :=
  xref.getCatalog.dictLookup xref "Pages"

/-- The `Count` entry of the top-level pages object. -/
def XRef.countObj (xref : XRef) : Obj :=
  xref.pagesDict.dictLookup xref "Count"

/-- The allocation of the two arrays with `numPages0` slots each and the loop
that initialises every slot (`Catalog::Catalog`). -/
def Catalog.allocPages (env : Env) (xrefA : XRef) (numPages0 : Int) : Except Fault Catalog :=
  match greallocn env.negAllocAborts env.junkPage [] numPages0 with
  | .error f => .error f
  | .ok pages =>
    match greallocn env.negAllocAborts env.junkRef [] numPages0 with
    | .error f => .error f
    | .ok pageRefs =>
      Catalog.clearSlots
        { Catalog.initial xrefA with
          pagesSize := numPages0, pages := pages, pageRefs := pageRefs }
        0 numPages0.toNat

/-- The constructor `Catalog::Catalog(xrefA)`. -/
def Catalog.new (env : Env) (fuel : Nat) (xrefA : XRef) : Except Fault Catalog :=
  if xrefA.getCatalog.isDict = false then
    .ok (Catalog.failEarly xrefA (.catalogWrongType xrefA.getCatalog.getType))
  else if xrefA.pagesDict.isDict = false then
    .ok (Catalog.failEarly xrefA (.topPagesWrongType xrefA.pagesDict.getType))
  else if xrefA.countObj.isNum = false then
    .ok (Catalog.failEarly xrefA (.pageCountWrongType xrefA.countObj.getType))
  else
    match Catalog.allocPages env xrefA xrefA.countObj.getNumAsInt with
    | .error f => .error f
    | .ok c1 =>
      match readPageTree env xrefA fuel xrefA.pagesDict.getDict none 0 c1 with
      | .error f => .error f
      | .ok (n, c2) =>
        Catalog.readAux env fuel xrefA.getCatalog
          { c2 with
            numPages := n
            log := if n ≠ xrefA.countObj.getNumAsInt then c2.log ++ [.pageCountIncorrect]
                   else c2.log }

/-- The function `Catalog::isOk`. -/
def Catalog.isOk (c : Catalog) : Bool := c.ok

/-- The function `Catalog::getNumPages`. -/
def Catalog.getNumPages (c : Catalog) : Int := c.numPages

/-- The function `Catalog::getPageMode`. -/
def Catalog.getPageMode (c : Catalog) : PageMode := c.pageMode

/-- The function `Catalog::getBaseURI`. -/
def Catalog.getBaseURI (c : Catalog) : Option String := c.baseURI

/-- The reference found in the reference array for a kid that is a page: the
reference of the array element when it is an indirect reference, else the
initial value of the slot. -/
def Obj.kidRefOf : Obj → Ref
  | .objRef num gen => { num := num, gen := gen }
  | _ => Ref.unset

/-! ## Predicates used in the statements -/

/-- The members that `readPageTree` does not touch are the same in both
catalogs. -/
structure Catalog.SameAux (c c1 : Catalog) : Prop where
  xref : c1.xref = c.xref
  numPages : c1.numPages = c.numPages
  dests : c1.dests = c.dests
  destNameTree : c1.destNameTree = c.destNameTree
  baseURI : c1.baseURI = c.baseURI
  pageMode : c1.pageMode = c.pageMode
  metadata : c1.metadata = c.metadata
  structTreeRoot : c1.structTreeRoot = c.structTreeRoot
  outline : c1.outline = c.outline
  acroForm : c1.acroForm = c.acroForm

/-- The state of the two arrays when the next page goes to slot `start`:
both have `pagesSize` slots, `start` is within `0 .. pagesSize`, and the slots
from `start` on hold the initial values. -/
structure Catalog.MemInv (c : Catalog) (start : Int) : Prop where
  start_nonneg : 0 ≤ start
  start_le : start ≤ c.pagesSize
  pages_len : (c.pages.length : Int) = c.pagesSize
  refs_len : (c.pageRefs.length : Int) = c.pagesSize
  clean : ∀ i : Nat, start ≤ (i : Int) → (i : Int) < c.pagesSize →
    c.pages[i]? = some none ∧ c.pageRefs[i]? = some Ref.unset

/-- The messages `readPageTree` can log: a kid of the wrong type, or a Kids
entry of the wrong type. -/
def ErrMsg.isTreeMsg (m : ErrMsg) : Prop :=
  (∃ p t, m = .kidWrongType p t) ∨ (∃ p t, m = .kidsWrongType p t)

/-- What a run of the loop `readKids` from slot `start` on catalog `c` that
ended with `res` and catalog `c1` has done to the members other than the
arrays. -/
structure KidsFlow (c : Catalog) (start : Int) (res : Option Int) (c1 : Catalog)
    (extra : List ErrMsg) : Prop where
  aux : Catalog.SameAux c c1
  log : c1.log = c.log ++ extra
  msgs : ∀ m ∈ extra, m.isTreeMsg
  done : ∀ r, res = some r →
    start ≤ r ∧ c1.ok = c.ok ∧ ∀ m ∈ extra, ∃ p t, m = .kidWrongType p t

/-- What a call of `readPageTree` from slot `start` on catalog `c` that
returned `r` and catalog `c1` has done to the members other than the arrays:
either it failed, returning -1 with `ok` false, or it returned a slot not
below `start`, left `ok` as it was and logged skipped kids only. -/
structure TreeFlow (c : Catalog) (start : Int) (r : Int) (c1 : Catalog)
    (extra : List ErrMsg) : Prop where
  aux : Catalog.SameAux c c1
  log : c1.log = c.log ++ extra
  msgs : ∀ m ∈ extra, m.isTreeMsg
  result : (r = -1 ∧ c1.ok = false) ∨
    (start ≤ r ∧ c1.ok = c.ok ∧ ∀ m ∈ extra, ∃ p t, m = .kidWrongType p t)

/-- What a run of `readPageTree` or of its loop from slot `start` on catalog
`c` has done to the two arrays when it ended with catalog `c1`: pages were
stored in the slots `start .. s1 - 1`, the next free slot is `s1`, the slots
below `start` are as before and the arrays did not shrink. -/
structure TreeMem (c : Catalog) (start : Int) (c1 : Catalog) (s1 : Int) : Prop where
  le : start ≤ s1
  inv : Catalog.MemInv c1 s1
  grows : c.pagesSize ≤ c1.pagesSize
  frame : ∀ i : Nat, (i : Int) < start →
    c1.pages[i]? = c.pages[i]? ∧ c1.pageRefs[i]? = c.pageRefs[i]?
  filled : ∀ i : Nat, start ≤ (i : Int) → (i : Int) < s1 → ∃ p, c1.pages[i]? = some (some p)

/-- The name tree of the document is finite and is read within `fuel` levels
of recursion: `NameTree::parse` on the `Dests` entry of the `Names`
dictionary returns. -/
def NameTree.Readable (env : Env) (xref : XRef) (fuel : Nat) : Prop :=
  (xref.getCatalog.dictLookup xref "Names").isDict = true →
    ∃ s, NameTree.parse env xref fuel
      ((xref.getCatalog.dictLookup xref "Names").dictLookup xref "Dests")
      (NameTree.empty, []) = .ok s

/-- The catalog without the messages logged. -/
def Catalog.noLog (c : Catalog) : Catalog := { c with log := [] }

/-- The catalog with the given messages as its log. -/
def Catalog.withLog (log : List ErrMsg) (c : Catalog) : Catalog := { c with log := log }

/-- The outcome of a run without the messages logged: the value returned and
all members of the catalog but the log, or the fault. -/
def dropLog {α : Type} : Except Fault (α × Catalog) → Except Fault (α × Catalog)
  | .ok (a, c) => .ok (a, c.noLog)
  | .error f => .error f

/-! ## The page tree as the specification describes it -/

/-- A leaf of the page tree: the element of the Kids array that led to it, its
dictionary, and the attributes in effect at it. -/
structure Leaf where
  kidRef : Obj
  pageDict : Dict
  attrs : PageAttrs

/-- The page built from a leaf that is the leaf number `i`, counted from 0:
its page number is `i + 1`. -/
def Leaf.toPage (l : Leaf) (i : Int) : Page :=
  { num := i + 1, pageDict := l.pageDict, attrs := l.attrs }

/-- The leaves below the kids of one Pages node, kid by kid in array order;
`recurse` gives the leaves below a nested Pages node.  A kid that is not a
dictionary has no leaves.  The result is `none` when some node below has no
leaves list. -/
def kidsLeaves (xref : XRef) (recurse : Dict → PageAttrs → Option (List Leaf))
    (attrs1 : PageAttrs) : List Obj → Option (List Leaf)
  | [] => some []
  | kidRef :: rest =>
    if (kidRef.fetch xref).isDictOf "Page" then
      match kidsLeaves xref recurse attrs1 rest with
      | some ls =>
        some ({ kidRef := kidRef, pageDict := (kidRef.fetch xref).getDict,
                attrs := PageAttrs.merge xref (some attrs1) (kidRef.fetch xref).getDict } :: ls)
      | none => none
    else if (kidRef.fetch xref).isDict then
      match recurse (kidRef.fetch xref).getDict attrs1, kidsLeaves xref recurse attrs1 rest with
      | some below, some ls => some (below ++ ls)
      | _, _ => none
    else kidsLeaves xref recurse attrs1 rest

/-- The leaves of the page tree below a Pages node in depth-first,
left-to-right order.  The result is `some` exactly when the tree below the
node is at most `fuel` levels deep and every Pages node in it has a Kids
array. -/
def pageLeaves (xref : XRef) : Nat → Dict → Option PageAttrs → Option (List Leaf)
  | 0, _, _ => none
  | fuel + 1, pagesDict, attrs =>
    if (Dict.lookup xref pagesDict "Kids").isArray then
      kidsLeaves xref (fun d a => pageLeaves xref fuel d (some a))
        (PageAttrs.merge xref attrs pagesDict) (Dict.lookup xref pagesDict "Kids").getArray
    else none

/-- Every leaf of the list gives a valid page when the first leaf is the leaf
number `start`. -/
def LeavesValid (env : Env) (start : Int) (ls : List Leaf) : Prop :=
  ∀ (i : Nat) (l : Leaf), ls[i]? = some l → env.pageIsOk (l.toPage (start + i)) = true

/-- The slots from `start` on hold the pages of the leaves, in order, and the
references of their kids. -/
def LeavesStored (c : Catalog) (start : Int) (ls : List Leaf) : Prop :=
  ∀ (i : Nat) (l : Leaf), ls[i]? = some l →
    c.pages[(start + i).toNat]? = some (some (l.toPage (start + i))) ∧
    c.pageRefs[(start + i).toNat]? = some l.kidRef.kidRefOf

/-! ## Inherited attributes as the specification describes them -/

/-- A leaf of the page tree with the dictionaries of the Pages nodes above it,
the top node first and its parent last. -/
structure PathLeaf where
  chain : List Dict
  kidRef : Obj
  pageDict : Dict

/-- The overlay handed down after the Pages nodes of a chain, top node first,
starting from `base`: each node merges its dictionary over what it was
given. -/
def overlayChain (xref : XRef) : Option PageAttrs → List Dict → Option PageAttrs
  | base, [] => base
  | base, d :: ds => overlayChain xref (some (PageAttrs.merge xref base d)) ds

/-- The leaf with the attributes its chain gives: the dictionary of the page
merged over the overlay of the chain. -/
def PathLeaf.toLeaf (xref : XRef) (pl : PathLeaf) : Leaf :=
  { kidRef := pl.kidRef, pageDict := pl.pageDict
    attrs := PageAttrs.merge xref (overlayChain xref none pl.chain) pl.pageDict }

/-- The leaves below the kids of the Pages node at the end of `chain`, each
with its chain. -/
def pathKids (xref : XRef) (recurse : Dict → Option (List PathLeaf)) (chain : List Dict) :
    List Obj → Option (List PathLeaf)
  | [] => some []
  | kidRef :: rest =>
    if (kidRef.fetch xref).isDictOf "Page" then
      match pathKids xref recurse chain rest with
      | some ls =>
        some ({ chain := chain, kidRef := kidRef, pageDict := (kidRef.fetch xref).getDict } :: ls)
      | none => none
    else if (kidRef.fetch xref).isDict then
      match recurse (kidRef.fetch xref).getDict, pathKids xref recurse chain rest with
      | some below, some ls => some (below ++ ls)
      | _, _ => none
    else pathKids xref recurse chain rest

/-- The leaves below a Pages node in reading order, each with the chain of
Pages nodes from the top node to its parent; `above` is the chain above the
node. -/
def pathLeaves (xref : XRef) : Nat → List Dict → Dict → Option (List PathLeaf)
  | 0, _, _ => none
  | fuel + 1, above, pagesDict =>
    if (Dict.lookup xref pagesDict "Kids").isArray then
      pathKids xref (fun d => pathLeaves xref fuel (above ++ [pagesDict]) d)
        (above ++ [pagesDict]) (Dict.lookup xref pagesDict "Kids").getArray
    else none

/-- The value of a key at a node given the dictionaries from the node upward,
nearest first: the value of the first dictionary that has one, else the
default. -/
def nearestDef (xref : XRef) (key : String) : List Dict → Obj → Obj
  | [], dflt => dflt
  | d :: ds, dflt =>
    if (Dict.lookup xref d key).isNull then nearestDef xref key ds dflt
    else Dict.lookup xref d key

/-! ## The name tree as the specification describes it -/

/-- The entries of one `Names` array: one entry for each name/value pair, in
array order. -/
def namePairs (env : Env) : List Obj → List NameTree.Entry
  | [] => []
  | [n] => [(NameTree.Entry.new env n none).1]
  | n :: v :: rest => (NameTree.Entry.new env n (some v)).1 :: namePairs env rest

/-- The entries below the kids of one node, kid by kid in array order;
`recurse` gives the entries of a kid that is a dictionary, a kid that is not a
dictionary has none. -/
def kidsEntries (xref : XRef) (recurse : Obj → Option (List NameTree.Entry)) :
    List Obj → Option (List NameTree.Entry)
  | [] => some []
  | kid :: rest =>
    if (kid.fetch xref).isDict then
      match recurse (kid.fetch xref), kidsEntries xref recurse rest with
      | some below, some es => some (below ++ es)
      | _, _ => none
    else kidsEntries xref recurse rest

/-- The entries of a name tree in pre-order: the pairs of the `Names` array of
the node, then the entries of its kids.  A node that is not a dictionary has
no entries.  The result is `none` when the tree is more than `fuel` levels
deep. -/
def nameEntries (env : Env) (xref : XRef) : Nat → Obj → Option (List NameTree.Entry)
  | 0, _ => none
  | fuel + 1, tree =>
    if tree.isDict then
      if (tree.dictLookup xref "Kids").isArray then
        match kidsEntries xref (nameEntries env xref fuel)
            (tree.dictLookup xref "Kids").getArray with
        | some es =>
          some ((if (tree.dictLookup xref "Names").isArray then
                  namePairs env (tree.dictLookup xref "Names").getArray else []) ++ es)
        | none => none
      else
        some (if (tree.dictLookup xref "Names").isArray then
                namePairs env (tree.dictLookup xref "Names").getArray else [])
    else some []

/-! ## The walk over the page tree as the specification describes it -/

/-- How a walk over the page tree ends: it visited every kid, or it stopped at
a Pages node whose `Kids` entry is not an array, or it stopped at a page that
is not valid. -/
inductive WalkEnd where
  | done | badKids | badPage
  deriving DecidableEq, Repr

/-- What flattening returns after a walk from index `start` that visited `n`
leaves: the next index when the walk visited every kid, else -1. -/
def WalkEnd.value : WalkEnd → Int → Nat → Int
  | .done, start, n => start + n
  | .badKids, _, _ => -1
  | .badPage, _, _ => -1

/-- The walk over the kids of one Pages node from index `start`: the leaves
visited before the walk ended, in order, and how it ended.  A page is visited
when it is valid as the page number `start + 1`; the walk stops at the first
page that is not valid and at the first nested node whose walk did not visit
every kid.  A kid that is not a dictionary is passed over.  `recurse` is the
walk below a nested node; the result is `none` when a walk below has none. -/
def kidsWalk (env : Env) (xref : XRef)
    (recurse : Dict → PageAttrs → Int → Option (List Leaf × WalkEnd))
    (attrs1 : PageAttrs) : List Obj → Int → Option (List Leaf × WalkEnd)
  | [], _ => some ([], .done)
  | kidRef :: rest, start =>
    if (kidRef.fetch xref).isDictOf "Page" then
      if env.pageIsOk
          { num := start + 1, pageDict := (kidRef.fetch xref).getDict,
            attrs := PageAttrs.merge xref (some attrs1) (kidRef.fetch xref).getDict } then
        match kidsWalk env xref recurse attrs1 rest (start + 1) with
        | some (ls, e) =>
          some ({ kidRef := kidRef, pageDict := (kidRef.fetch xref).getDict,
                  attrs := PageAttrs.merge xref (some attrs1) (kidRef.fetch xref).getDict } :: ls,
                e)
        | none => none
      else some ([], .badPage)
    else if (kidRef.fetch xref).isDict then
      match recurse (kidRef.fetch xref).getDict attrs1 start with
      | none => none
      | some (below, e) =>
        if e = .done then
          match kidsWalk env xref recurse attrs1 rest (start + below.length) with
          | some (ls, e1) => some (below ++ ls, e1)
          | none => none
        else some (below, e)
    else kidsWalk env xref recurse attrs1 rest start

/-- The walk over the page tree below a Pages node in depth-first,
left-to-right order, from index `start`, until the first failure.  The result
is `none` when the part of the tree that is walked is more than `fuel` levels
deep. -/
def pageWalk (env : Env) (xref : XRef) :
    Nat → Dict → Option PageAttrs → Int → Option (List Leaf × WalkEnd)
  | 0, _, _, _ => none
  | fuel + 1, pagesDict, attrs, start =>
    if (Dict.lookup xref pagesDict "Kids").isArray then
      kidsWalk env xref (fun d a s => pageWalk env xref fuel d (some a) s)
        (PageAttrs.merge xref attrs pagesDict) (Dict.lookup xref pagesDict "Kids").getArray start
    else some ([], .badKids)

/-- The capacity after pages were put into the slots below `next`, given the
capacity `hint` at the start: the hint while the pages fit, else the hint and
as many chunks of 32 slots as it takes. -/
def capFor (hint next : Int) : Int :=
  if next ≤ hint then hint else hint + 32 * ((next - hint + 31) / 32)

/-- The end of `readPageTree` after the loop over the kids: `return start`
when the loop ran to its end, else the exit through the labels `err3`, `err2`,
`err1`, which sets `ok` to false and returns -1. -/
def treeExit : Except Fault (Option Int × Catalog) → Except Fault (Int × Catalog)
  | .error f => .error f
  | .ok (some start1, c1) => .ok (start1, c1)
  | .ok (none, c1) => .ok (-1, { c1 with ok := false })

/-- The pairs of a `Names` array: the element at each even index with the
element after it, when there is one. -/
def pairsOf : List Obj → List (Obj × Option Obj)
  | [] => []
  | [n] => [(n, none)]
  | n :: v :: rest => (n, some v) :: pairsOf rest

/-! ## Example documents -/

/-- The catalog a run returned, for use with a run that is known to return. -/
def Catalog.built (env : Env) (fuel : Nat) (xref : XRef) : Catalog :=
  match Catalog.new env fuel xref with
  | .ok c => c
  | .error _ => Catalog.initial xref

/-- A page is taken as valid unless it has an entry `Bad`; a destination is
valid unless its array is empty; fresh memory holds page 99 and the reference
(7, 7); the allocator hands out no storage for a negative count; `getNF` past
the end of an array leaves a null object and reports success. -/
def exampleEnv : Env :=
  { pageIsOk := fun p => (Dict.find p.pageDict "Bad").isNone
    linkDestIsOk := fun a => !a.isEmpty
    junkPage := fun _ => some { num := 99, pageDict := [], attrs := PageAttrs.defaults }
    junkRef := fun _ => { num := 7, gen := 7 }
    negAllocAborts := false
    getNFPastEnd := (.objNull, true) }

/-- A leaf of an example page tree. -/
def examplePage (n : Int) : Obj :=
  .objDict [("Type", .objName "Page"), ("Id", .objInt n)]

/-- A document whose Kids array lists the page object 3 twice. -/
def docTwice : XRef :=
  { fetchObj := fun num gen =>
      if num = 1 ∧ gen = 0 then .objDict [("Type", .objName "Catalog"), ("Pages", .objRef 2 0)]
      else if num = 2 ∧ gen = 0 then
        .objDict [("Type", .objName "Pages"), ("Count", .objInt 2),
          ("Kids", .objArray [.objRef 3 0, .objRef 3 0])]
      else if num = 3 ∧ gen = 0 then examplePage 3
      else .objNull
    rootNum := 1, rootGen := 0 }

/-- A document with a nested page tree: the top Pages node has the declared
count `count` and the kids page 3, the Pages node 4 and a number (which is
skipped); node 4 has the kids page 5 and a page given directly.  There are
three leaves. -/
def docNested (count : Obj) : XRef :=
  { fetchObj := fun num gen =>
      if num = 1 ∧ gen = 0 then .objDict [("Type", .objName "Catalog"), ("Pages", .objRef 2 0)]
      else if num = 2 ∧ gen = 0 then
        .objDict [("Type", .objName "Pages"), ("Count", count),
          ("Kids", .objArray [.objRef 3 0, .objRef 4 0, .objInt 7])]
      else if num = 3 ∧ gen = 0 then examplePage 3
      else if num = 4 ∧ gen = 0 then
        .objDict [("Type", .objName "Pages"), ("Count", .objInt 2),
          ("Kids", .objArray [.objRef 5 0, examplePage 6])]
      else if num = 5 ∧ gen = 0 then examplePage 5
      else .objNull
    rootNum := 1, rootGen := 0 }

/-- The leaves of the page tree of a document, for use with a document whose
tree is known to be read within `fuel`. -/
def exampleLeaves (xref : XRef) (fuel : Nat) : List Leaf :=
  (pageLeaves xref fuel xref.pagesDict.getDict none).getD []

/-- A check of `LeavesValid` by evaluation. -/
def leavesValidCheck (env : Env) : Int → List Leaf → Bool
  | _, [] => true
  | start, l :: ls => env.pageIsOk (l.toPage start) && leavesValidCheck env (start + 1) ls

/-- A document whose root catalog has a `Pages` entry that is a number. -/
def docBadPages : XRef :=
  { fetchObj := fun num gen =>
      if num = 1 ∧ gen = 0 then
        .objDict [("Type", .objName "Catalog"), ("Pages", .objInt 3),
          ("Dests", .objDict [("a", .objArray [.objInt 1])])]
      else .objNull
    rootNum := 1, rootGen := 0 }

/-- A document whose second kid is a nested Pages node without a Kids entry,
between two pages. -/
def docBadKids : XRef :=
  { fetchObj := fun num gen =>
      if num = 1 ∧ gen = 0 then .objDict [("Type", .objName "Catalog"), ("Pages", .objRef 2 0)]
      else if num = 2 ∧ gen = 0 then
        .objDict [("Type", .objName "Pages"), ("Count", .objInt 2),
          ("Kids", .objArray [.objRef 3 0, .objRef 4 0, .objRef 5 0])]
      else if num = 3 ∧ gen = 0 then examplePage 3
      else if num = 4 ∧ gen = 0 then .objDict [("Type", .objName "Pages"), ("Count", .objInt 0)]
      else if num = 5 ∧ gen = 0 then examplePage 5
      else .objNull
    rootNum := 1, rootGen := 0 }

/-- A document with one page, a destination dictionary and a name tree.  The
name `chap1` is in both, with different values; the dictionary also has a
destination given as a dictionary with a `D` array, one that is a number, and
one with an empty array.  The name tree has a root with one kid that holds
the names alpha, beta, chap1 and gamma in ascending order. -/
def docDests : XRef :=
  { fetchObj := fun num gen =>
      if num = 1 ∧ gen = 0 then
        .objDict [("Type", .objName "Catalog"), ("Pages", .objRef 2 0),
          ("Dests", .objDict [
            ("chap1", .objArray [.objRef 3 0, .objName "Fit"]),
            ("viaD", .objDict [("D", .objArray [.objRef 3 0, .objName "FitB"])]),
            ("number", .objInt 5),
            ("noD", .objDict [("S", .objName "GoTo")]),
            ("empty", .objArray [])]),
          ("Names", .objDict [("Dests", .objRef 6 0)])]
      else if num = 2 ∧ gen = 0 then
        .objDict [("Type", .objName "Pages"), ("Count", .objInt 1),
          ("Kids", .objArray [.objRef 3 0])]
      else if num = 3 ∧ gen = 0 then examplePage 3
      else if num = 6 ∧ gen = 0 then .objDict [("Kids", .objArray [.objRef 7 0])]
      else if num = 7 ∧ gen = 0 then
        .objDict [("Names", .objArray [
          .objString "alpha", .objArray [.objRef 3 0, .objName "FitH"],
          .objString "beta", .objRef 8 0,
          .objString "chap1", .objArray [.objRef 3 0, .objName "XYZ"],
          .objString "gamma", .objArray [.objRef 3 0, .objName "FitV"]])]
      else if num = 8 ∧ gen = 0 then .objArray [.objRef 3 0, .objName "FitR"]
      else .objNull
    rootNum := 1, rootGen := 0 }

/-- A document whose top Pages node lists itself as its only kid. -/
def docCycle : XRef :=
  { fetchObj := fun num gen =>
      if num = 1 ∧ gen = 0 then .objDict [("Type", .objName "Catalog"), ("Pages", .objRef 2 0)]
      else if num = 2 ∧ gen = 0 then
        .objDict [("Type", .objName "Pages"), ("Count", .objInt 1),
          ("Kids", .objArray [.objRef 2 0])]
      else .objNull
    rootNum := 1, rootGen := 0 }

/-- A document whose top Pages node has the kid 3, a Pages node whose only kid
is the top node again. -/
def docCycleTwo : XRef :=
  { fetchObj := fun num gen =>
      if num = 1 ∧ gen = 0 then .objDict [("Type", .objName "Catalog"), ("Pages", .objRef 2 0)]
      else if num = 2 ∧ gen = 0 then
        .objDict [("Type", .objName "Pages"), ("Count", .objInt 1),
          ("Kids", .objArray [.objRef 3 0])]
      else if num = 3 ∧ gen = 0 then
        .objDict [("Type", .objName "Pages"), ("Count", .objInt 1),
          ("Kids", .objArray [.objRef 2 0])]
      else .objNull
    rootNum := 1, rootGen := 0 }

/-- A document that declares the count -5 and has no kids. -/
def docNegCount : XRef :=
  { fetchObj := fun num gen =>
      if num = 1 ∧ gen = 0 then .objDict [("Type", .objName "Catalog"), ("Pages", .objRef 2 0)]
      else if num = 2 ∧ gen = 0 then
        .objDict [("Type", .objName "Pages"), ("Count", .objInt (-5)), ("Kids", .objArray [])]
      else .objNull
    rootNum := 1, rootGen := 0 }

/-- A document whose top Pages node has no Kids entry, while its catalog has a
page mode, a base URI and a destination dictionary. -/
def docFailAux : XRef :=
  { fetchObj := fun num gen =>
      if num = 1 ∧ gen = 0 then
        .objDict [("Type", .objName "Catalog"), ("Pages", .objRef 2 0),
          ("PageMode", .objName "FullScreen"),
          ("URI", .objDict [("Base", .objString "http://example.org/")]),
          ("Dests", .objDict [("a", .objArray [.objRef 3 0, .objName "Fit"])])]
      else if num = 2 ∧ gen = 0 then
        .objDict [("Type", .objName "Pages"), ("Count", .objInt 1)]
      else if num = 3 ∧ gen = 0 then examplePage 3
      else .objNull
    rootNum := 1, rootGen := 0 }

/-- A document with one page whose catalog has the given `PageMode` entry. -/
def docMode (mode : Obj) : XRef :=
  { fetchObj := fun num gen =>
      if num = 1 ∧ gen = 0 then
        .objDict [("Type", .objName "Catalog"), ("Pages", .objRef 2 0), ("PageMode", mode)]
      else if num = 2 ∧ gen = 0 then
        .objDict [("Type", .objName "Pages"), ("Count", .objInt 1),
          ("Kids", .objArray [.objRef 3 0])]
      else if num = 3 ∧ gen = 0 then examplePage 3
      else .objNull
    rootNum := 1, rootGen := 0 }

/-- A document whose name tree holds the names b and a, in this order. -/
def docUnsorted : XRef :=
  { fetchObj := fun num gen =>
      if num = 1 ∧ gen = 0 then
        .objDict [("Type", .objName "Catalog"), ("Pages", .objRef 2 0),
          ("Names", .objDict [("Dests", .objRef 6 0)])]
      else if num = 2 ∧ gen = 0 then
        .objDict [("Type", .objName "Pages"), ("Count", .objInt 1),
          ("Kids", .objArray [.objRef 3 0])]
      else if num = 3 ∧ gen = 0 then examplePage 3
      else if num = 6 ∧ gen = 0 then
        .objDict [("Names", .objArray [
          .objString "b", .objArray [.objRef 3 0, .objName "Fit"],
          .objString "a", .objArray [.objRef 3 0, .objName "FitB"]])]
      else .objNull
    rootNum := 1, rootGen := 0 }

/-- A box of the given width and height, as the value of `MediaBox`. -/
def exampleBox (w : Int) : Obj :=
  .objArray [.objInt 0, .objInt 0, .objInt w, .objInt w]

/-- A document whose top Pages node sets the MediaBox 100.  Its kids are a
page without MediaBox, a Pages node that sets the MediaBox 200 and has a page
without MediaBox and a page with the MediaBox 300, and after it another page
without MediaBox. -/
def docInherit : XRef :=
  { fetchObj := fun num gen =>
      if num = 1 ∧ gen = 0 then .objDict [("Type", .objName "Catalog"), ("Pages", .objRef 2 0)]
      else if num = 2 ∧ gen = 0 then
        .objDict [("Type", .objName "Pages"), ("Count", .objInt 4),
          ("MediaBox", exampleBox 100),
          ("Kids", .objArray [.objRef 3 0, .objRef 4 0, .objRef 7 0])]
      else if num = 3 ∧ gen = 0 then examplePage 3
      else if num = 4 ∧ gen = 0 then
        .objDict [("Type", .objName "Pages"), ("Count", .objInt 2),
          ("MediaBox", exampleBox 200),
          ("Kids", .objArray [.objRef 5 0, .objRef 6 0])]
      else if num = 5 ∧ gen = 0 then examplePage 5
      else if num = 6 ∧ gen = 0 then
        .objDict [("Type", .objName "Page"), ("Id", .objInt 6), ("MediaBox", exampleBox 300)]
      else if num = 7 ∧ gen = 0 then examplePage 7
      else .objNull
    rootNum := 1, rootGen := 0 }

/-- A page of an example page tree that is not valid: it has an entry `Bad`. -/
def exampleBadPage (n : Int) : Obj :=
  .objDict [("Type", .objName "Page"), ("Id", .objInt n), ("Bad", .objBool true)]

/-- A document whose top Pages node has the kids page 3, the Pages node 4 and
page 8; node 4 has the kids page 5, the page 6 that is not valid, and page
7. -/
def docBadPage : XRef :=
  { fetchObj := fun num gen =>
      if num = 1 ∧ gen = 0 then .objDict [("Type", .objName "Catalog"), ("Pages", .objRef 2 0)]
      else if num = 2 ∧ gen = 0 then
        .objDict [("Type", .objName "Pages"), ("Count", .objInt 5),
          ("Kids", .objArray [.objRef 3 0, .objRef 4 0, .objRef 8 0])]
      else if num = 3 ∧ gen = 0 then examplePage 3
      else if num = 4 ∧ gen = 0 then
        .objDict [("Type", .objName "Pages"), ("Count", .objInt 3),
          ("Kids", .objArray [.objRef 5 0, .objRef 6 0, .objRef 7 0])]
      else if num = 5 ∧ gen = 0 then examplePage 5
      else if num = 6 ∧ gen = 0 then exampleBadPage 6
      else if num = 7 ∧ gen = 0 then examplePage 7
      else if num = 8 ∧ gen = 0 then examplePage 8
      else .objNull
    rootNum := 1, rootGen := 0 }

/-- A document whose top Pages node has two kids that are dictionaries with a
`Kids` array and one page each: object 3 has no `Type` entry, object 5 has the
`Type` Foo. -/
def docUntyped : XRef :=
  { fetchObj := fun num gen =>
      if num = 1 ∧ gen = 0 then .objDict [("Type", .objName "Catalog"), ("Pages", .objRef 2 0)]
      else if num = 2 ∧ gen = 0 then
        .objDict [("Type", .objName "Pages"), ("Count", .objInt 2),
          ("Kids", .objArray [.objRef 3 0, .objRef 5 0])]
      else if num = 3 ∧ gen = 0 then .objDict [("Kids", .objArray [.objRef 4 0])]
      else if num = 4 ∧ gen = 0 then examplePage 4
      else if num = 5 ∧ gen = 0 then
        .objDict [("Type", .objName "Foo"), ("Kids", .objArray [.objRef 6 0])]
      else if num = 6 ∧ gen = 0 then examplePage 6
      else .objNull
    rootNum := 1, rootGen := 0 }

/-- A document with one page whose destination dictionary has the number 5
for the name x and a dictionary without `D` for the name y, while its name
tree has a destination array for each of the two names. -/
def docShadow : XRef :=
  { fetchObj := fun num gen =>
      if num = 1 ∧ gen = 0 then
        .objDict [("Type", .objName "Catalog"), ("Pages", .objRef 2 0),
          ("Dests", .objDict [("x", .objInt 5), ("y", .objDict [("S", .objName "GoTo")])]),
          ("Names", .objDict [("Dests", .objRef 6 0)])]
      else if num = 2 ∧ gen = 0 then
        .objDict [("Type", .objName "Pages"), ("Count", .objInt 1),
          ("Kids", .objArray [.objRef 3 0])]
      else if num = 3 ∧ gen = 0 then examplePage 3
      else if num = 6 ∧ gen = 0 then
        .objDict [("Names", .objArray [
          .objString "x", .objArray [.objRef 3 0, .objName "Fit"],
          .objString "y", .objArray [.objRef 3 0, .objName "FitB"]])]
      else .objNull
    rootNum := 1, rootGen := 0 }

/-- The example collaborators, but with a `getNF` that reports failure past
the end of an array. -/
def strictEnv : Env := { exampleEnv with getNFPastEnd := (.objNull, false) }

/-- A document that declares the count -5 and has one page. -/
def docNegPage : XRef :=
  { fetchObj := fun num gen =>
      if num = 1 ∧ gen = 0 then .objDict [("Type", .objName "Catalog"), ("Pages", .objRef 2 0)]
      else if num = 2 ∧ gen = 0 then
        .objDict [("Type", .objName "Pages"), ("Count", .objInt (-5)),
          ("Kids", .objArray [.objRef 3 0])]
      else if num = 3 ∧ gen = 0 then examplePage 3
      else .objNull
    rootNum := 1, rootGen := 0 }

/-- The walk over the page tree of a document, for use with a document whose
walk is known to end within `fuel`. -/
def exampleWalk (env : Env) (xref : XRef) (fuel : Nat) : List Leaf × WalkEnd :=
  (pageWalk env xref fuel xref.pagesDict.getDict none 0).getD ([], .done)

/-- What `readPageTree` returns on the node a kid refers to, called from index
0 in a catalog without slots with the attributes of the top node, for use with
a call that is known to return. -/
def exampleTree (xref : XRef) (fuel : Nat) (kid : Obj) : Int × Catalog :=
  match readPageTree exampleEnv xref fuel (kid.fetch xref).getDict
      (some (PageAttrs.merge xref none xref.pagesDict.getDict)) 0 (Catalog.initial xref) with
  | .ok p => p
  | .error _ => (0, Catalog.initial xref)

/-- Whether `NameTree::Entry::Entry` logs its message for a pair: the name
element is not a string, or the value is missing and `getNF` reports the
failure. -/
def pairLogged (env : Env) (p : Obj × Option Obj) : Bool :=
  !p.1.isString || (p.2.isNone && !env.getNFPastEnd.2)

/-- What `readPageTree` returns on a node, called from index `start` in a
catalog without slots and without inherited attributes, for use with a call
that is known to return. -/
def exampleTreeAt (xref : XRef) (fuel : Nat) (d : Dict) (start : Int) : Int × Catalog :=
  match readPageTree exampleEnv xref fuel d none start (Catalog.initial xref) with
  | .ok p => p
  | .error _ => (0, Catalog.initial xref)

/-- The example collaborators, but with an allocator that ends the run when it
is asked for a negative number of slots. -/
def abortEnv : Env := { exampleEnv with negAllocAborts := true }

/-- A document whose top Pages node has a Kids entry that is a number, while
its catalog has a destination dictionary and a name tree of destinations with
the names alpha and beta. -/
def docFailNames : XRef :=
  { fetchObj := fun num gen =>
      if num = 1 ∧ gen = 0 then
        .objDict [("Type", .objName "Catalog"), ("Pages", .objRef 2 0),
          ("Dests", .objDict [("a", .objArray [.objRef 3 0, .objName "Fit"])]),
          ("Names", .objDict [("Dests", .objRef 6 0)])]
      else if num = 2 ∧ gen = 0 then
        .objDict [("Type", .objName "Pages"), ("Count", .objInt 1), ("Kids", .objInt 4)]
      else if num = 3 ∧ gen = 0 then examplePage 3
      else if num = 6 ∧ gen = 0 then
        .objDict [("Names", .objArray [
          .objString "alpha", .objArray [.objRef 3 0, .objName "FitH"],
          .objString "beta", .objArray [.objRef 3 0, .objName "FitV"]])]
      else .objNull
    rootNum := 1, rootGen := 0 }

/-! ## Memory -/

theorem store_ok {α : Type} (xs : List α) (i : Int) (v : α) (h0 : 0 ≤ i)
    (h : (i : Int) < xs.length) : store xs i v = .ok (xs.set i.toNat v) := by
  have : i.toNat < xs.length := by omega
  simp [store, h0, this]

theorem store_eq_ok {α : Type} {xs ys : List α} {i : Int} {v : α}
    (h : store xs i v = .ok ys) : 0 ≤ i ∧ (i : Int) < xs.length ∧ ys = xs.set i.toNat v := by
  unfold store at h
  split at h
  · rename_i hc
    refine ⟨hc.1, by omega, ?_⟩
    cases h; rfl
  · cases h

theorem greallocn_ok {α : Type} (aborts : Bool) (junk : Nat → α) (old : List α) (n : Int)
    (h : 0 ≤ n) :
    greallocn aborts junk old n =
      .ok ((List.range n.toNat).map fun j => (old[j]?).getD (junk j)) := by
  have : ¬ n < 0 := by omega
  simp [greallocn, this]

theorem greallocn_eq_ok {α : Type} {aborts : Bool} {junk : Nat → α} {old new : List α}
    {n : Int} (h : greallocn aborts junk old n = .ok new) :
    new.length = n.toNat ∧ ∀ i : Nat, i < old.length → (i : Int) < n → new[i]? = old[i]? := by
  unfold greallocn at h
  split at h
  · cases h
  · cases h
    refine ⟨by simp, ?_⟩
    intro i hi hin
    have h1 : i < n.toNat := by omega
    simp [List.getElem?_map, List.getElem?_range, h1, List.getElem?_eq_getElem hi]

theorem Catalog.SameAux.sameAux_refl (c : Catalog) : Catalog.SameAux c c :=
  ⟨rfl, rfl, rfl, rfl, rfl, rfl, rfl, rfl, rfl, rfl⟩

theorem Catalog.SameAux.sameAux_trans {c c1 c2 : Catalog} (h1 : Catalog.SameAux c c1)
    (h2 : Catalog.SameAux c1 c2) : Catalog.SameAux c c2 :=
  ⟨h2.xref.trans h1.xref, h2.numPages.trans h1.numPages, h2.dests.trans h1.dests,
   h2.destNameTree.trans h1.destNameTree, h2.baseURI.trans h1.baseURI,
   h2.pageMode.trans h1.pageMode, h2.metadata.trans h1.metadata,
   h2.structTreeRoot.trans h1.structTreeRoot, h2.outline.trans h1.outline,
   h2.acroForm.trans h1.acroForm⟩

/-- What `clearSlots` does when it returns: the `k` slots from `j` on hold the
initial values, all other slots and members are as before. -/
theorem clearSlots_eq_ok : ∀ (k : Nat) (c c1 : Catalog) (j : Int),
    Catalog.clearSlots c j k = .ok c1 →
    Catalog.SameAux c c1 ∧ c1.ok = c.ok ∧ c1.log = c.log ∧ c1.pagesSize = c.pagesSize ∧
    c1.pages.length = c.pages.length ∧ c1.pageRefs.length = c.pageRefs.length ∧
    (0 < k → 0 ≤ j ∧ j + k ≤ c.pages.length ∧ j + k ≤ c.pageRefs.length) ∧
    (∀ i : Nat, j ≤ (i : Int) → (i : Int) < j + k →
      c1.pages[i]? = some none ∧ c1.pageRefs[i]? = some Ref.unset) ∧
    (∀ i : Nat, ((i : Int) < j ∨ j + k ≤ (i : Int)) →
      c1.pages[i]? = c.pages[i]? ∧ c1.pageRefs[i]? = c.pageRefs[i]?) := by
  intro k
  induction k with
  | zero =>
    intro c c1 j h
    simp only [Catalog.clearSlots] at h
    cases h
    refine ⟨Catalog.SameAux.sameAux_refl _, rfl, rfl, rfl, rfl, rfl, by simp, ?_, ?_⟩
    · intro i h1 h2; simp at h2; omega
    · intro i _; exact ⟨rfl, rfl⟩
  | succ k ih =>
    intro c c1 j h
    simp only [Catalog.clearSlots] at h
    split at h
    · cases h
    · rename_i pages hp
      split at h
      · cases h
      · rename_i pageRefs hr
        obtain ⟨hj0, hjp, rfl⟩ := store_eq_ok hp
        obtain ⟨_, hjr, rfl⟩ := store_eq_ok hr
        obtain ⟨ha, hok, hlog, hsz, hpl, hrl, hk, hnew, hold⟩ := ih _ _ _ h
        simp only [List.length_set] at hpl hrl hk
        refine ⟨⟨ha.xref, ha.numPages, ha.dests, ha.destNameTree, ha.baseURI, ha.pageMode,
          ha.metadata, ha.structTreeRoot, ha.outline, ha.acroForm⟩, hok, hlog, hsz, hpl, hrl,
          ?_, ?_, ?_⟩
        · intro _
          refine ⟨hj0, ?_, ?_⟩
          · by_cases hk0 : 0 < k
            · have := hk hk0; push_cast; omega
            · have : k = 0 := by omega
              subst this; push_cast; omega
          · by_cases hk0 : 0 < k
            · have := hk hk0; push_cast; omega
            · have : k = 0 := by omega
              subst this; push_cast; omega
        · intro i h1 h2
          by_cases hij : (i : Int) = j
          · have hi : i = j.toNat := by omega
            have := hold i (Or.inl (by omega))
            rw [this.1, this.2]
            subst hi
            simp only [List.getElem?_set_self]
            have h3 : j.toNat < c.pages.length := by omega
            have h4 : j.toNat < c.pageRefs.length := by omega
            simp [List.getElem?_set, h3, h4]
          · exact hnew i (by omega) (by push_cast at h2; omega)
        · intro i hi
          have := hold i (by push_cast at hi; omega)
          rw [this.1, this.2]
          have hne : j.toNat ≠ i := by omega
          simp [List.getElem?_set, hne]

/-- The loop `clearSlots` returns when its slots are allocated. -/
theorem clearSlots_ok : ∀ (k : Nat) (c : Catalog) (j : Int), 0 ≤ j →
    j + k ≤ c.pages.length → j + k ≤ c.pageRefs.length →
    ∃ c1, Catalog.clearSlots c j k = .ok c1 := by
  intro k
  induction k with
  | zero => intro c j _ _ _; exact ⟨c, rfl⟩
  | succ k ih =>
    intro c j hj hp hr
    push_cast at hp hr
    simp only [Catalog.clearSlots]
    rw [store_ok _ _ _ hj (by omega), store_ok _ _ _ hj (by omega)]
    exact ih _ _ (by omega) (by simp only [List.length_set]; omega)
      (by simp only [List.length_set]; omega)

/-- Growth by 32 slots returns, keeps the old slots and initialises the new
ones. -/
theorem grow_spec (env : Env) (c : Catalog) (h0 : 0 ≤ c.pagesSize)
    (hp : (c.pages.length : Int) = c.pagesSize) (hr : (c.pageRefs.length : Int) = c.pagesSize) :
    ∃ c1, Catalog.grow env c = .ok c1 ∧ Catalog.SameAux c c1 ∧ c1.ok = c.ok ∧ c1.log = c.log ∧
      c1.pagesSize = c.pagesSize + 32 ∧ (c1.pages.length : Int) = c.pagesSize + 32 ∧
      (c1.pageRefs.length : Int) = c.pagesSize + 32 ∧
      (∀ i : Nat, (i : Int) < c.pagesSize →
        c1.pages[i]? = c.pages[i]? ∧ c1.pageRefs[i]? = c.pageRefs[i]?) ∧
      (∀ i : Nat, c.pagesSize ≤ (i : Int) → (i : Int) < c.pagesSize + 32 →
        c1.pages[i]? = some none ∧ c1.pageRefs[i]? = some Ref.unset) := by
  unfold Catalog.grow
  rw [greallocn_ok _ _ _ _ (by omega), greallocn_ok _ _ _ _ (by omega)]
  simp only
  have hlen1 : ((List.map (fun j => (c.pages[j]?).getD (env.junkPage j))
      (List.range (c.pagesSize + 32).toNat)).length : Int) = c.pagesSize + 32 := by
    simp; omega
  have hlen2 : ((List.map (fun j => (c.pageRefs[j]?).getD (env.junkRef j))
      (List.range (c.pagesSize + 32).toNat)).length : Int) = c.pagesSize + 32 := by
    simp; omega
  obtain ⟨c1, hc1⟩ := clearSlots_ok 32
    { c with pagesSize := c.pagesSize + 32,
             pages := List.map (fun j => (c.pages[j]?).getD (env.junkPage j))
               (List.range (c.pagesSize + 32).toNat),
             pageRefs := List.map (fun j => (c.pageRefs[j]?).getD (env.junkRef j))
               (List.range (c.pagesSize + 32).toNat) }
    (c.pagesSize + 32 - 32) (by omega) (by simp only [hlen1]; omega) (by simp only [hlen2]; omega)
  obtain ⟨ha, hok, hlog, hsz, hpl, hrl, _, hnew, hold⟩ := clearSlots_eq_ok _ _ _ _ hc1
  refine ⟨c1, hc1, ⟨ha.xref, ha.numPages, ha.dests, ha.destNameTree, ha.baseURI, ha.pageMode,
    ha.metadata, ha.structTreeRoot, ha.outline, ha.acroForm⟩, hok, hlog, hsz, ?_, ?_, ?_, ?_⟩
  · rw [hpl]; exact hlen1
  · rw [hrl]; exact hlen2
  · intro i hi
    have := hold i (Or.inl (by omega))
    rw [this.1, this.2]
    have h1 : i < (c.pagesSize + 32).toNat := by omega
    have h2 : i < c.pages.length := by omega
    have h3 : i < c.pageRefs.length := by omega
    simp [List.getElem?_map, List.getElem?_range, h1, List.getElem?_eq_getElem h2,
      List.getElem?_eq_getElem h3]
  · intro i h1 h2
    exact hnew i (by omega) (by push_cast; omega)

/-- What `grow` leaves unchanged, whenever it returns. -/
theorem grow_eq_ok {env : Env} {c c1 : Catalog} (h : Catalog.grow env c = .ok c1) :
    Catalog.SameAux c c1 ∧ c1.ok = c.ok ∧ c1.log = c.log := by
  unfold Catalog.grow at h
  split at h
  · cases h
  · split at h
    · cases h
    · obtain ⟨ha, hok, hlog, _⟩ := clearSlots_eq_ok _ _ _ _ h
      exact ⟨⟨ha.xref, ha.numPages, ha.dests, ha.destNameTree, ha.baseURI, ha.pageMode,
        ha.metadata, ha.structTreeRoot, ha.outline, ha.acroForm⟩, hok, hlog⟩

/-- What `storePage` leaves unchanged, whenever it returns. -/
theorem storePage_eq_ok {env : Env} {c c1 : Catalog} {start : Int} {page : Page} {kidRef : Obj}
    (h : Catalog.storePage env c start page kidRef = .ok c1) :
    Catalog.SameAux c c1 ∧ c1.ok = c.ok ∧ c1.log = c.log := by
  unfold Catalog.storePage at h
  split at h
  · cases h
  · rename_i c2 hc2
    have h2 : Catalog.SameAux c c2 ∧ c2.ok = c.ok ∧ c2.log = c.log := by
      split at hc2
      · exact grow_eq_ok hc2
      · cases hc2; exact ⟨Catalog.SameAux.sameAux_refl _, rfl, rfl⟩
    obtain ⟨ha, hok, hlog⟩ := h2
    split at h
    · cases h
    · split at h
      · split at h
        · cases h
        · cases h
          exact ⟨⟨ha.xref, ha.numPages, ha.dests, ha.destNameTree, ha.baseURI, ha.pageMode,
            ha.metadata, ha.structTreeRoot, ha.outline, ha.acroForm⟩, hok, hlog⟩
      · cases h
        exact ⟨⟨ha.xref, ha.numPages, ha.dests, ha.destNameTree, ha.baseURI, ha.pageMode,
          ha.metadata, ha.structTreeRoot, ha.outline, ha.acroForm⟩, hok, hlog⟩

/-- Storing a page into slot `start` returns when the arrays are in order, and
afterwards they are in order for slot `start + 1`. -/
theorem storePage_spec (env : Env) (c : Catalog) (start : Int) (page : Page) (kidRef : Obj)
    (hinv : Catalog.MemInv c start) :
    ∃ c1, Catalog.storePage env c start page kidRef = .ok c1 ∧
      Catalog.MemInv c1 (start + 1) ∧
      c1.pagesSize = (if start ≥ c.pagesSize then c.pagesSize + 32 else c.pagesSize) ∧
      (∀ i : Nat, (i : Int) < start →
        c1.pages[i]? = c.pages[i]? ∧ c1.pageRefs[i]? = c.pageRefs[i]?) ∧
      c1.pages[start.toNat]? = some (some page) ∧
      c1.pageRefs[start.toNat]? = some kidRef.kidRefOf := by
  obtain ⟨h0, hle, hp, hr, hclean⟩ := hinv
  -- the catalog after the growth step
  have hg : ∃ c2, (if start ≥ c.pagesSize then Catalog.grow env c else .ok c) = .ok c2 ∧
      c2.pagesSize = (if start ≥ c.pagesSize then c.pagesSize + 32 else c.pagesSize) ∧
      start < c2.pagesSize ∧
      (c2.pages.length : Int) = c2.pagesSize ∧ (c2.pageRefs.length : Int) = c2.pagesSize ∧
      (∀ i : Nat, (i : Int) < start →
        c2.pages[i]? = c.pages[i]? ∧ c2.pageRefs[i]? = c.pageRefs[i]?) ∧
      (∀ i : Nat, start ≤ (i : Int) → (i : Int) < c2.pagesSize →
        c2.pages[i]? = some none ∧ c2.pageRefs[i]? = some Ref.unset) := by
    by_cases hge : start ≥ c.pagesSize
    · obtain ⟨c2, hc2, _, _, _, hsz, hpl, hrl, hold, hnew⟩ :=
        grow_spec env c (by omega) hp hr
      refine ⟨c2, by simp [hge, hc2], by simp [hge, hsz], by omega, by omega, by omega, ?_, ?_⟩
      · intro i hi; exact hold i (by omega)
      · intro i h1 h2; exact hnew i (by omega) (by omega)
    · refine ⟨c, by simp [hge], by simp [hge], by omega, hp, hr, ?_, ?_⟩
      · intro i _; exact ⟨rfl, rfl⟩
      · intro i h1 h2; exact hclean i h1 h2
  obtain ⟨c2, hc2, hsz, hlt, hpl, hrl, hold, hnew⟩ := hg
  have hs1 : start.toNat < c2.pages.length := by omega
  have hs2 : start.toNat < c2.pageRefs.length := by omega
  unfold Catalog.storePage
  rw [hc2]
  simp only
  rw [store_ok _ _ _ h0 (by omega)]
  simp only
  cases kidRef with
  | objRef num gen =>
    simp only
    rw [store_ok _ _ _ h0 (by omega)]
    refine ⟨_, rfl, ⟨by omega, by simp only; omega, by simp only [List.length_set]; omega,
      by simp only [List.length_set]; omega, ?_⟩, hsz, ?_, ?_, ?_⟩
    · intro i h1 h2
      have hne : start.toNat ≠ i := by omega
      simp only [List.getElem?_set, hne, if_false]
      exact hnew i (by omega) h2
    · intro i hi
      have hne : start.toNat ≠ i := by omega
      simp only [List.getElem?_set, hne, if_false]
      exact hold i hi
    · simp [List.getElem?_set, hs1]
    · simp [List.getElem?_set, hs2, Obj.kidRefOf]
  | _ =>
    simp only
    refine ⟨_, rfl, ⟨by omega, by simp only; omega, by simp only [List.length_set]; omega,
      by simp only; omega, ?_⟩, hsz, ?_, ?_, ?_⟩
    · intro i h1 h2
      have hne : start.toNat ≠ i := by omega
      simp only [List.getElem?_set, hne, if_false]
      exact hnew i (by omega) h2
    · intro i hi
      have hne : start.toNat ≠ i := by omega
      simp only [List.getElem?_set, hne, if_false]
      exact ⟨(hold i hi).1, (hold i hi).2⟩
    · simp [List.getElem?_set, hs1]
    · simp only [Obj.kidRefOf]
      exact (hnew start.toNat (by omega) (by omega)).2

/-! ## Control flow of the page tree descent -/

theorem readKids_flow (env : Env) (xref : XRef)
    (recurse : Dict → PageAttrs → Int → Catalog → Except Fault (Int × Catalog))
    (hrec : ∀ d a s c r c1, 0 ≤ s → recurse d a s c = .ok (r, c1) →
      ∃ extra, TreeFlow c s r c1 extra)
    (attrs1 : PageAttrs) :
    ∀ (kids : List Obj) (start : Int) (c : Catalog) (res : Option Int) (c1 : Catalog),
      0 ≤ start → readKids env xref recurse attrs1 kids start c = .ok (res, c1) →
      ∃ extra, KidsFlow c start res c1 extra := by
  intro kids
  induction kids with
  | nil =>
    intro start c res c1 _ h
    simp only [readKids, Except.ok.injEq, Prod.mk.injEq] at h
    obtain ⟨rfl, rfl⟩ := h
    exact ⟨[], Catalog.SameAux.sameAux_refl _, by simp, by simp,
      fun r hr => by cases hr; exact ⟨le_refl _, rfl, by simp⟩⟩
  | cons kidRef rest ih =>
    intro start c res c1 h0 h
    simp only [readKids] at h
    split at h
    · split at h
      · split at h
        · cases h
        · rename_i c2 hc2
          obtain ⟨ha, hok, hlog⟩ := storePage_eq_ok hc2
          obtain ⟨extra, hf⟩ := ih _ _ _ _ (by omega) h
          refine ⟨extra, ha.sameAux_trans hf.aux, by rw [hf.log, hlog], hf.msgs, ?_⟩
          intro r hr
          obtain ⟨h1, h2, h3⟩ := hf.done r hr
          exact ⟨by omega, h2.trans hok, h3⟩
      · simp only [Except.ok.injEq, Prod.mk.injEq] at h
        obtain ⟨rfl, rfl⟩ := h
        exact ⟨[], Catalog.SameAux.sameAux_refl _, by simp, by simp, fun r hr => by cases hr⟩
    · split at h
      · split at h
        · cases h
        · rename_i s1 c2 hc2
          obtain ⟨extra1, hf1⟩ := hrec _ _ _ _ _ _ h0 hc2
          split at h
          · simp only [Except.ok.injEq, Prod.mk.injEq] at h
            obtain ⟨rfl, rfl⟩ := h
            exact ⟨extra1, hf1.aux, hf1.log, hf1.msgs, fun r hr => by cases hr⟩
          · rename_i hs1
            have hres : start ≤ s1 ∧ c2.ok = c.ok ∧
                ∀ m ∈ extra1, ∃ p t, m = ErrMsg.kidWrongType p t := by
              rcases hf1.result with ⟨h1, _⟩ | h1
              · omega
              · exact h1
            obtain ⟨extra2, hf2⟩ := ih _ _ _ _ (by omega) h
            refine ⟨extra1 ++ extra2, hf1.aux.sameAux_trans hf2.aux,
              by rw [hf2.log, hf1.log, List.append_assoc], ?_, ?_⟩
            · intro m hm
              rcases List.mem_append.1 hm with hm | hm
              · exact hf1.msgs m hm
              · exact hf2.msgs m hm
            · intro r hr
              obtain ⟨h1, h2, h3⟩ := hf2.done r hr
              refine ⟨by omega, h2.trans hres.2.1, ?_⟩
              intro m hm
              rcases List.mem_append.1 hm with hm | hm
              · exact hres.2.2 m hm
              · exact h3 m hm
      · obtain ⟨extra, hf⟩ := ih _ _ _ _ h0 h
        refine ⟨ErrMsg.kidWrongType (start + 1) (kidRef.fetch xref).getType :: extra,
          ⟨hf.aux.xref, hf.aux.numPages, hf.aux.dests, hf.aux.destNameTree, hf.aux.baseURI,
            hf.aux.pageMode, hf.aux.metadata, hf.aux.structTreeRoot, hf.aux.outline,
            hf.aux.acroForm⟩, by rw [hf.log]; simp, ?_, ?_⟩
        · intro m hm
          rcases List.mem_cons.1 hm with hm | hm
          · exact Or.inl ⟨_, _, hm⟩
          · exact hf.msgs m hm
        · intro r hr
          obtain ⟨h1, h2, h3⟩ := hf.done r hr
          refine ⟨h1, h2, ?_⟩
          intro m hm
          rcases List.mem_cons.1 hm with hm | hm
          · exact ⟨_, _, hm⟩
          · exact h3 m hm

theorem readPageTree_flow (env : Env) (xref : XRef) :
    ∀ (fuel : Nat) (d : Dict) (attrs : Option PageAttrs) (start : Int) (c : Catalog)
      (r : Int) (c1 : Catalog),
      0 ≤ start → readPageTree env xref fuel d attrs start c = .ok (r, c1) →
      ∃ extra, TreeFlow c start r c1 extra := by
  intro fuel
  induction fuel with
  | zero => intro d attrs start c r c1 _ h; simp [readPageTree] at h
  | succ fuel ih =>
    intro d attrs start c r c1 h0 h
    simp only [readPageTree] at h
    split at h
    · split at h
      · cases h
      · rename_i s1 c2 hk
        simp only [Except.ok.injEq, Prod.mk.injEq] at h
        obtain ⟨rfl, rfl⟩ := h
        obtain ⟨extra, hf⟩ := readKids_flow env xref _
          (fun d a s c r c1 hs hr => ih d (some a) s c r c1 hs hr) _ _ _ _ _ _ h0 hk
        exact ⟨extra, hf.aux, hf.log, hf.msgs, Or.inr (hf.done _ rfl)⟩
      · rename_i c2 hk
        simp only [Except.ok.injEq, Prod.mk.injEq] at h
        obtain ⟨rfl, rfl⟩ := h
        obtain ⟨extra, hf⟩ := readKids_flow env xref _
          (fun d a s c r c1 hs hr => ih d (some a) s c r c1 hs hr) _ _ _ _ _ _ h0 hk
        exact ⟨extra, ⟨hf.aux.xref, hf.aux.numPages, hf.aux.dests, hf.aux.destNameTree,
          hf.aux.baseURI, hf.aux.pageMode, hf.aux.metadata, hf.aux.structTreeRoot,
          hf.aux.outline, hf.aux.acroForm⟩, hf.log, hf.msgs, Or.inl ⟨rfl, rfl⟩⟩
    · simp only [Except.ok.injEq, Prod.mk.injEq] at h
      obtain ⟨rfl, rfl⟩ := h
      exact ⟨[_], ⟨rfl, rfl, rfl, rfl, rfl, rfl, rfl, rfl, rfl, rfl⟩, rfl, by
        intro m hm
        exact Or.inr ⟨_, _, List.mem_singleton.1 hm⟩, Or.inl ⟨rfl, rfl⟩⟩

/-! ## The arrays during the page tree descent -/

theorem TreeMem.treeMem_refl {c : Catalog} {start : Int} (h : Catalog.MemInv c start) :
    TreeMem c start c start :=
  ⟨le_refl _, h, le_refl _, fun _ _ => ⟨rfl, rfl⟩, fun i h1 h2 => by omega⟩

theorem TreeMem.treeMem_trans {c c1 c2 : Catalog} {s s1 s2 : Int} (h1 : TreeMem c s c1 s1)
    (h2 : TreeMem c1 s1 c2 s2) : TreeMem c s c2 s2 := by
  refine ⟨le_trans h1.le h2.le, h2.inv, le_trans h1.grows h2.grows, ?_, ?_⟩
  · intro i hi
    have a := h2.frame i (lt_of_lt_of_le hi h1.le)
    have b := h1.frame i hi
    exact ⟨a.1.trans b.1, a.2.trans b.2⟩
  · intro i hi1 hi2
    by_cases hlt : (i : Int) < s1
    · obtain ⟨p, hp⟩ := h1.filled i hi1 hlt
      exact ⟨p, (h2.frame i hlt).1.trans hp⟩
    · exact h2.filled i (by omega) hi2

theorem Catalog.MemInv.congr_ {c c1 : Catalog} {s : Int} (h : Catalog.MemInv c s)
    (hp : c1.pages = c.pages) (hr : c1.pageRefs = c.pageRefs) (hs : c1.pagesSize = c.pagesSize) :
    Catalog.MemInv c1 s := by
  obtain ⟨a, b, d, e, f⟩ := h
  refine ⟨a, by rw [hs]; exact b, by rw [hp, hs]; exact d, by rw [hr, hs]; exact e, ?_⟩
  intro i h1 h2
  rw [hp, hr]
  exact f i h1 (by rw [← hs]; exact h2)

theorem TreeMem.congr_right {c c1 c2 : Catalog} {s s1 : Int} (h : TreeMem c s c1 s1)
    (hp : c2.pages = c1.pages) (hr : c2.pageRefs = c1.pageRefs)
    (hs : c2.pagesSize = c1.pagesSize) : TreeMem c s c2 s1 := by
  refine ⟨h.le, h.inv.congr_ hp hr hs, by rw [hs]; exact h.grows, ?_, ?_⟩
  · intro i hi; rw [hp, hr]; exact h.frame i hi
  · intro i h1 h2; rw [hp]; exact h.filled i h1 h2

theorem TreeMem.congr_left {c c0 c1 : Catalog} {s s1 : Int} (h : TreeMem c s c1 s1)
    (hp : c.pages = c0.pages) (hr : c.pageRefs = c0.pageRefs)
    (hs : c.pagesSize = c0.pagesSize) : TreeMem c0 s c1 s1 := by
  refine ⟨h.le, h.inv, by rw [← hs]; exact h.grows, ?_, h.filled⟩
  intro i hi; rw [← hp, ← hr]; exact h.frame i hi

theorem storePage_mem (env : Env) (c : Catalog) (start : Int) (page : Page) (kidRef : Obj)
    (hinv : Catalog.MemInv c start) :
    ∃ c1, Catalog.storePage env c start page kidRef = .ok c1 ∧ TreeMem c start c1 (start + 1) := by
  obtain ⟨c1, h1, hinv1, hsz, hframe, hpage, _⟩ := storePage_spec env c start page kidRef hinv
  refine ⟨c1, h1, by omega, hinv1, ?_, hframe, ?_⟩
  · rw [hsz]; split <;> omega
  · intro i hi1 hi2
    have : i = start.toNat := by omega
    subst this
    exact ⟨page, hpage⟩

theorem readKids_mem (env : Env) (xref : XRef)
    (recurse : Dict → PageAttrs → Int → Catalog → Except Fault (Int × Catalog))
    (hrec : ∀ d a s c r c1, Catalog.MemInv c s → recurse d a s c = .ok (r, c1) →
      ∃ s1, TreeMem c s c1 s1 ∧ (0 ≤ r → s1 = r))
    (attrs1 : PageAttrs) :
    ∀ (kids : List Obj) (start : Int) (c : Catalog) (res : Option Int) (c1 : Catalog),
      Catalog.MemInv c start → readKids env xref recurse attrs1 kids start c = .ok (res, c1) →
      ∃ s1, TreeMem c start c1 s1 ∧ (∀ r, res = some r → s1 = r) := by
  intro kids
  induction kids with
  | nil =>
    intro start c res c1 hinv h
    simp only [readKids, Except.ok.injEq, Prod.mk.injEq] at h
    obtain ⟨rfl, rfl⟩ := h
    exact ⟨start, TreeMem.treeMem_refl hinv, fun r hr => by cases hr; rfl⟩
  | cons kidRef rest ih =>
    intro start c res c1 hinv h
    simp only [readKids] at h
    split at h
    · split at h
      · obtain ⟨c2, hc2, hm⟩ := storePage_mem env c start
          { num := start + 1, pageDict := (kidRef.fetch xref).getDict,
            attrs := PageAttrs.merge xref (some attrs1) (kidRef.fetch xref).getDict } kidRef hinv
        rw [hc2] at h
        simp only at h
        obtain ⟨s1, hm1, hr1⟩ := ih _ _ _ _ hm.inv h
        exact ⟨s1, hm.treeMem_trans hm1, hr1⟩
      · simp only [Except.ok.injEq, Prod.mk.injEq] at h
        obtain ⟨rfl, rfl⟩ := h
        exact ⟨start, TreeMem.treeMem_refl hinv, fun r hr => by cases hr⟩
    · split at h
      · split at h
        · cases h
        · rename_i s1 c2 hc2
          obtain ⟨s2, hm2, hr2⟩ := hrec _ _ _ _ _ _ hinv hc2
          split at h
          · simp only [Except.ok.injEq, Prod.mk.injEq] at h
            obtain ⟨rfl, rfl⟩ := h
            exact ⟨s2, hm2, fun r hr => by cases hr⟩
          · have hs : s2 = s1 := hr2 (by omega)
            subst hs
            obtain ⟨s3, hm3, hr3⟩ := ih _ _ _ _ hm2.inv h
            exact ⟨s3, hm2.treeMem_trans hm3, hr3⟩
      · have hinv1 : Catalog.MemInv
            { c with log := c.log ++ [.kidWrongType (start + 1) (kidRef.fetch xref).getType] }
            start := hinv.congr_ rfl rfl rfl
        obtain ⟨s1, hm1, hr1⟩ := ih _ _ _ _ hinv1 h
        exact ⟨s1, hm1.congr_left rfl rfl rfl, hr1⟩

theorem readPageTree_mem (env : Env) (xref : XRef) :
    ∀ (fuel : Nat) (d : Dict) (attrs : Option PageAttrs) (start : Int) (c : Catalog)
      (r : Int) (c1 : Catalog),
      Catalog.MemInv c start → readPageTree env xref fuel d attrs start c = .ok (r, c1) →
      ∃ s1, TreeMem c start c1 s1 ∧ (0 ≤ r → s1 = r) := by
  intro fuel
  induction fuel with
  | zero => intro d attrs start c r c1 _ h; simp [readPageTree] at h
  | succ fuel ih =>
    intro d attrs start c r c1 hinv h
    simp only [readPageTree] at h
    split at h
    · split at h
      · cases h
      · rename_i s1 c2 hk
        simp only [Except.ok.injEq, Prod.mk.injEq] at h
        obtain ⟨rfl, rfl⟩ := h
        obtain ⟨s2, hm, hr⟩ := readKids_mem env xref _
          (fun d a s c r c1 hs hr => ih d (some a) s c r c1 hs hr) _ _ _ _ _ _ hinv hk
        exact ⟨s2, hm, fun _ => hr _ rfl⟩
      · rename_i c2 hk
        simp only [Except.ok.injEq, Prod.mk.injEq] at h
        obtain ⟨rfl, rfl⟩ := h
        obtain ⟨s2, hm, _⟩ := readKids_mem env xref _
          (fun d a s c r c1 hs hr => ih d (some a) s c r c1 hs hr) _ _ _ _ _ _ hinv hk
        exact ⟨s2, hm.congr_right rfl rfl rfl, fun h => by omega⟩
    · simp only [Except.ok.injEq, Prod.mk.injEq] at h
      obtain ⟨rfl, rfl⟩ := h
      exact ⟨start, (TreeMem.treeMem_refl hinv).congr_right rfl rfl rfl, fun h => by omega⟩

/-! ## Valid leaves -/

theorem LeavesValid.tail_ {env : Env} {start : Int} {l : Leaf} {ls : List Leaf}
    (h : LeavesValid env start (l :: ls)) : LeavesValid env (start + 1) ls := by
  intro i l1 hi
  have := h (i + 1) l1 (by simpa using hi)
  have e : start + ((i + 1 : Nat) : Int) = start + 1 + (i : Int) := by push_cast; ring
  rw [e] at this
  exact this

theorem LeavesValid.left_ {env : Env} {start : Int} {a b : List Leaf}
    (h : LeavesValid env start (a ++ b)) : LeavesValid env start a := by
  intro i l hi
  have hlt : i < a.length := by
    by_contra hc
    rw [List.getElem?_eq_none (by omega)] at hi
    cases hi
  exact h i l (by rw [List.getElem?_append_left hlt]; exact hi)

theorem LeavesValid.right_ {env : Env} {start : Int} {a b : List Leaf}
    (h : LeavesValid env start (a ++ b)) : LeavesValid env (start + a.length) b := by
  intro i l hi
  have := h (a.length + i) l (by
    rw [List.getElem?_append_right (by omega)]
    simpa using hi)
  have e : start + ((a.length + i : Nat) : Int) = start + (a.length : Int) + (i : Int) := by
    push_cast; ring
  rw [e] at this
  exact this

/-! ## The descent when the declared count was negative -/

/-- With a negative `pagesSize` no page can be stored: the loop that
initialises the new slots starts below slot 0. -/
theorem storePage_neg {env : Env} {c c1 : Catalog} {start : Int} {page : Page} {kidRef : Obj}
    (hneg : c.pagesSize < 0) (h0 : 0 ≤ start)
    (h : Catalog.storePage env c start page kidRef = .ok c1) : False := by
  unfold Catalog.storePage at h
  have hge : start ≥ c.pagesSize := by omega
  simp only [hge, if_true] at h
  split at h
  · cases h
  · rename_i c2 hc2
    unfold Catalog.grow at hc2
    split at hc2
    · cases hc2
    · split at hc2
      · cases hc2
      · obtain ⟨_, _, _, _, _, _, hk, _⟩ := clearSlots_eq_ok _ _ _ _ hc2
        have := (hk (by omega)).1
        omega

theorem readKids_neg (env : Env) (xref : XRef)
    (recurse : Dict → PageAttrs → Int → Catalog → Except Fault (Int × Catalog))
    (recLeaves : Dict → PageAttrs → Option (List Leaf))
    (hrec : ∀ d a s c r c1, c.pagesSize < 0 → 0 ≤ s → recurse d a s c = .ok (r, c1) →
      c1.pages = c.pages ∧ c1.pageRefs = c.pageRefs ∧ c1.pagesSize = c.pagesSize ∧
      (r = -1 ∨ r = s) ∧
      (∀ ls, recLeaves d a = some ls → LeavesValid env s ls → ls = [] ∧ r = s))
    (attrs1 : PageAttrs) :
    ∀ (kids : List Obj) (start : Int) (c : Catalog) (res : Option Int) (c1 : Catalog),
      c.pagesSize < 0 → 0 ≤ start →
      readKids env xref recurse attrs1 kids start c = .ok (res, c1) →
      c1.pages = c.pages ∧ c1.pageRefs = c.pageRefs ∧ c1.pagesSize = c.pagesSize ∧
      (∀ r, res = some r → r = start) ∧
      (∀ ls, kidsLeaves xref recLeaves attrs1 kids = some ls → LeavesValid env start ls →
        ls = [] ∧ res = some start) := by
  intro kids
  induction kids with
  | nil =>
    intro start c res c1 _ _ h
    simp only [readKids, Except.ok.injEq, Prod.mk.injEq] at h
    obtain ⟨rfl, rfl⟩ := h
    refine ⟨rfl, rfl, rfl, fun r hr => by cases hr; rfl, ?_⟩
    intro ls hl _
    simp only [kidsLeaves, Option.some.injEq] at hl
    exact ⟨hl.symm, rfl⟩
  | cons kidRef rest ih =>
    intro start c res c1 hneg h0 h
    simp only [readKids] at h
    simp only [kidsLeaves]
    split at h
    · rename_i hpage
      rw [if_pos hpage]
      split at h
      · split at h
        · cases h
        · rename_i c2 hc2
          exact (storePage_neg hneg h0 hc2).elim
      · rename_i hbad
        simp only [Except.ok.injEq, Prod.mk.injEq] at h
        obtain ⟨rfl, rfl⟩ := h
        refine ⟨rfl, rfl, rfl, (fun r hr => by cases hr), ?_⟩
        intro ls hl hv
        split at hl
        · simp only [Option.some.injEq] at hl
          subst hl
          have hv0 := hv 0 _ List.getElem?_cons_zero
          simp only [Leaf.toPage, Nat.cast_zero, add_zero] at hv0
          exact (hbad hv0).elim
        · cases hl
    · rename_i hpage
      rw [if_neg hpage]
      split at h
      · rename_i hdict
        rw [if_pos hdict]
        split at h
        · cases h
        · rename_i s1 c2 hc2
          obtain ⟨hp2, hr2, hs2, hres2, hl2⟩ := hrec _ _ _ _ _ _ hneg h0 hc2
          split at h
          · rename_i hs1
            simp only [Except.ok.injEq, Prod.mk.injEq] at h
            obtain ⟨rfl, rfl⟩ := h
            refine ⟨hp2, hr2, hs2, (fun r hr => by cases hr), ?_⟩
            intro ls hl hv
            split at hl
            · rename_i below ls1 hbelow hls1
              simp only [Option.some.injEq] at hl
              subst hl
              have := (hl2 below hbelow hv.left_).2
              omega
            · cases hl
          · rename_i hs1
            have hs1eq : s1 = start := by
              rcases hres2 with h | h
              · omega
              · exact h
            subst hs1eq
            obtain ⟨hp1, hr1, hsz1, hres1, hl1⟩ := ih _ _ _ _ (by rw [hs2]; exact hneg) h0 h
            refine ⟨hp1.trans hp2, hr1.trans hr2, hsz1.trans hs2, hres1, ?_⟩
            intro ls hl hv
            split at hl
            · rename_i below ls1 hbelow hls1
              simp only [Option.some.injEq] at hl
              subst hl
              have hb := (hl2 below hbelow hv.left_).1
              subst hb
              have hv1 : LeavesValid env s1 ls1 := by
                have := hv.right_
                simpa using this
              obtain ⟨h3, h4⟩ := hl1 ls1 hls1 hv1
              exact ⟨by simp [h3], h4⟩
            · cases hl
      · rename_i hdict
        rw [if_neg hdict]
        have hneg1 : (({ c with log := c.log ++
            [.kidWrongType (start + 1) (kidRef.fetch xref).getType] } : Catalog)).pagesSize < 0 :=
          hneg
        have key := ih start
          { c with log := c.log ++ [.kidWrongType (start + 1) (kidRef.fetch xref).getType] }
          res c1 hneg1 h0 h
        exact key

theorem readPageTree_neg (env : Env) (xref : XRef) :
    ∀ (fuel : Nat) (d : Dict) (attrs : Option PageAttrs) (start : Int) (c : Catalog)
      (r : Int) (c1 : Catalog),
      c.pagesSize < 0 → 0 ≤ start → readPageTree env xref fuel d attrs start c = .ok (r, c1) →
      c1.pages = c.pages ∧ c1.pageRefs = c.pageRefs ∧ c1.pagesSize = c.pagesSize ∧
      (r = -1 ∨ r = start) ∧
      (∀ ls, pageLeaves xref fuel d attrs = some ls → LeavesValid env start ls →
        ls = [] ∧ r = start) := by
  intro fuel
  induction fuel with
  | zero => intro d attrs start c r c1 _ _ h; simp [readPageTree] at h
  | succ fuel ih =>
    intro d attrs start c r c1 hneg h0 h
    simp only [readPageTree] at h
    simp only [pageLeaves]
    split at h
    · rename_i hk
      rw [if_pos hk]
      split at h
      · cases h
      · rename_i s1 c2 hkids
        simp only [Except.ok.injEq, Prod.mk.injEq] at h
        obtain ⟨rfl, rfl⟩ := h
        obtain ⟨hp, hr, hs, hres, hl⟩ := readKids_neg env xref _
          (fun d a => pageLeaves xref fuel d (some a))
          (fun d a s c r c1 h1 h2 h3 => ih d (some a) s c r c1 h1 h2 h3)
          _ _ _ _ _ _ hneg h0 hkids
        refine ⟨hp, hr, hs, Or.inr (hres _ rfl), ?_⟩
        intro ls hls hv
        exact ⟨(hl ls hls hv).1, hres _ rfl⟩
      · rename_i c2 hkids
        simp only [Except.ok.injEq, Prod.mk.injEq] at h
        obtain ⟨rfl, rfl⟩ := h
        obtain ⟨hp, hr, hs, _, hl⟩ := readKids_neg env xref _
          (fun d a => pageLeaves xref fuel d (some a))
          (fun d a s c r c1 h1 h2 h3 => ih d (some a) s c r c1 h1 h2 h3)
          _ _ _ _ _ _ hneg h0 hkids
        refine ⟨hp, hr, hs, Or.inl rfl, ?_⟩
        intro ls hls hv
        have := (hl ls hls hv).2
        cases this
    · rename_i hk
      simp only [Except.ok.injEq, Prod.mk.injEq] at h
      obtain ⟨rfl, rfl⟩ := h
      refine ⟨rfl, rfl, rfl, Or.inl rfl, ?_⟩
      intro ls hls _
      rw [if_neg hk] at hls
      cases hls

/-! ## Construction -/

/-- The allocation returns exactly when the declared count is not negative;
the arrays then have that many slots, each holding the initial value. -/
theorem allocPages_ok (env : Env) (xref : XRef) (n : Int) (h : 0 ≤ n) :
    ∃ c1, Catalog.allocPages env xref n = .ok c1 := by
  unfold Catalog.allocPages
  rw [greallocn_ok _ _ _ _ h, greallocn_ok _ _ _ _ h]
  simp only
  exact clearSlots_ok _ _ _ (le_refl _) (by simp) (by simp)

theorem allocPages_eq_ok {env : Env} {xref : XRef} {n : Int} {c1 : Catalog}
    (h : Catalog.allocPages env xref n = .ok c1) :
    c1.pagesSize = n ∧ c1.ok = true ∧ c1.log = [] ∧
      Catalog.SameAux (Catalog.initial xref) c1 ∧
      c1.pages.length = n.toNat ∧ c1.pageRefs.length = n.toNat ∧
      (0 ≤ n → Catalog.MemInv c1 0) := by
  unfold Catalog.allocPages at h
  split at h
  · cases h
  · rename_i pages hp
    split at h
    · cases h
    · rename_i pageRefs hr
      obtain ⟨hpl, _⟩ := greallocn_eq_ok hp
      obtain ⟨hrl, _⟩ := greallocn_eq_ok hr
      obtain ⟨ha, hok, hlog, hsz, hpl1, hrl1, _, hnew, _⟩ := clearSlots_eq_ok _ _ _ _ h
      simp only at hsz hpl1 hrl1 hok hlog
      refine ⟨hsz, hok, hlog,
        ⟨ha.xref, ha.numPages, ha.dests, ha.destNameTree, ha.baseURI, ha.pageMode,
          ha.metadata, ha.structTreeRoot, ha.outline, ha.acroForm⟩, by omega, by omega, ?_⟩
      intro hn
      refine ⟨le_refl _, by omega, by omega, by omega, ?_⟩
      intro i h1 h2
      exact hnew i (by omega) (by rw [hsz] at h2; omega)

/-! ## Reading the name tree and the auxiliary entries -/

theorem entryNew_log (env : Env) (n : Obj) (v : Option Obj) :
    ∀ m ∈ (NameTree.Entry.new env n v).2, m = ErrMsg.invalidPageTree := by
  intro m hm
  unfold NameTree.Entry.new at hm
  split at hm
  · split at hm
    · simp at hm
    · split at hm
      · simp at hm
      · simpa using hm
  · simpa using hm

theorem parseNames_log (env : Env) : ∀ (names : List Obj) (s : NameTree × List ErrMsg),
    ∃ extra, (NameTree.parseNames env names s).2 = s.2 ++ extra ∧
      ∀ m ∈ extra, m = ErrMsg.invalidPageTree := by
  intro names s
  induction names, s using NameTree.parseNames.induct env with
  | case1 s => exact ⟨[], by simp [NameTree.parseNames], by simp⟩
  | case2 n s =>
    exact ⟨(NameTree.Entry.new env n none).2, by simp [NameTree.parseNames],
      entryNew_log env n none⟩
  | case3 n v rest s ih =>
    obtain ⟨extra, h1, h2⟩ := ih
    refine ⟨(NameTree.Entry.new env n (some v)).2 ++ extra, ?_, ?_⟩
    · rw [NameTree.parseNames, h1, List.append_assoc]
    · intro m hm
      rcases List.mem_append.1 hm with hm | hm
      · exact entryNew_log env n (some v) m hm
      · exact h2 m hm

theorem parseKids_log (xref : XRef)
    (recurse : Obj → NameTree × List ErrMsg → Except Fault (NameTree × List ErrMsg))
    (hrec : ∀ o s s1, recurse o s = .ok s1 →
      ∃ extra, s1.2 = s.2 ++ extra ∧ ∀ m ∈ extra, m = ErrMsg.invalidPageTree) :
    ∀ (kids : List Obj) (s s1 : NameTree × List ErrMsg),
      NameTree.parseKids xref recurse kids s = .ok s1 →
      ∃ extra, s1.2 = s.2 ++ extra ∧ ∀ m ∈ extra, m = ErrMsg.invalidPageTree := by
  intro kids
  induction kids with
  | nil =>
    intro s s1 h
    simp only [NameTree.parseKids, Except.ok.injEq] at h
    subst h
    exact ⟨[], by simp, by simp⟩
  | cons kid rest ih =>
    intro s s1 h
    simp only [NameTree.parseKids] at h
    split at h
    · split at h
      · cases h
      · rename_i s2 h2
        obtain ⟨e1, h3, h4⟩ := hrec _ _ _ h2
        obtain ⟨e2, h5, h6⟩ := ih _ _ h
        refine ⟨e1 ++ e2, by rw [h5, h3, List.append_assoc], ?_⟩
        intro m hm
        rcases List.mem_append.1 hm with hm | hm
        · exact h4 m hm
        · exact h6 m hm
    · exact ih _ _ h

theorem parse_log (env : Env) (xref : XRef) :
    ∀ (fuel : Nat) (tree : Obj) (s s1 : NameTree × List ErrMsg),
    NameTree.parse env xref fuel tree s = .ok s1 →
    ∃ extra, s1.2 = s.2 ++ extra ∧ ∀ m ∈ extra, m = ErrMsg.invalidPageTree := by
  intro fuel
  induction fuel with
  | zero => intro tree s s1 h; simp [NameTree.parse] at h
  | succ fuel ih =>
    intro tree s s1 h
    simp only [NameTree.parse] at h
    have hn : ∃ extra, (if (tree.dictLookup xref "Names").isArray then
            NameTree.parseNames env (tree.dictLookup xref "Names").getArray s
           else s).2 = s.2 ++ extra ∧ ∀ m ∈ extra, m = ErrMsg.invalidPageTree := by
      split
      · exact parseNames_log env _ _
      · exact ⟨[], by simp, by simp⟩
    obtain ⟨e1, h1, h2⟩ := hn
    split at h
    · split at h
      · obtain ⟨e2, h3, h4⟩ := parseKids_log xref _ (ih) _ _ _ h
        refine ⟨e1 ++ e2, by rw [h3, h1, List.append_assoc], ?_⟩
        intro m hm
        rcases List.mem_append.1 hm with hm | hm
        · exact h2 m hm
        · exact h4 m hm
      · simp only [Except.ok.injEq] at h
        subst h
        exact ⟨e1, h1, h2⟩
    · simp only [Except.ok.injEq] at h
      subst h
      exact ⟨[], by simp, by simp⟩

theorem parseKids_indep (xref : XRef)
    (recurse : Obj → NameTree × List ErrMsg → Except Fault (NameTree × List ErrMsg))
    (hrec : ∀ o s s1 t, recurse o s = .ok s1 → ∃ t1, recurse o t = .ok t1) :
    ∀ (kids : List Obj) (s s1 t : NameTree × List ErrMsg),
      NameTree.parseKids xref recurse kids s = .ok s1 →
      ∃ t1, NameTree.parseKids xref recurse kids t = .ok t1 := by
  intro kids
  induction kids with
  | nil => intro s s1 t _; exact ⟨t, rfl⟩
  | cons kid rest ih =>
    intro s s1 t h
    simp only [NameTree.parseKids] at h ⊢
    split
    · rename_i hd
      simp only [hd, if_true] at h
      split at h
      · cases h
      · rename_i s2 h2
        obtain ⟨t2, ht2⟩ := hrec _ _ _ t h2
        rw [ht2]
        exact ih _ _ _ h
    · rename_i hd
      simp only [hd] at h
      exact ih _ _ _ h

/-- Whether `NameTree::parse` returns does not depend on the entries and
messages collected before. -/
theorem parse_indep (env : Env) (xref : XRef) :
    ∀ (fuel : Nat) (tree : Obj) (s s1 t : NameTree × List ErrMsg),
    NameTree.parse env xref fuel tree s = .ok s1 →
    ∃ t1, NameTree.parse env xref fuel tree t = .ok t1 := by
  intro fuel
  induction fuel with
  | zero => intro tree s s1 t h; simp [NameTree.parse] at h
  | succ fuel ih =>
    intro tree s s1 t h
    simp only [NameTree.parse] at h ⊢
    split
    · rename_i hd
      simp only [hd, if_true] at h
      split
      · rename_i hk
        simp only [hk, if_true] at h
        exact parseKids_indep xref _ ih _ _ _ _ h
      · exact ⟨_, rfl⟩
    · exact ⟨_, rfl⟩

/-- What `readAux` does when it returns: the arrays, the page count and
`ok` stay, the log grows by name tree messages only. -/
theorem readAux_eq_ok {env : Env} {fuel : Nat} {catDict : Obj} {c c1 : Catalog}
    (h : Catalog.readAux env fuel catDict c = .ok c1) :
    c1.xref = c.xref ∧ c1.pages = c.pages ∧ c1.pageRefs = c.pageRefs ∧
    c1.numPages = c.numPages ∧ c1.pagesSize = c.pagesSize ∧ c1.ok = c.ok ∧
    c1.dests = catDict.dictLookup c.xref "Dests" ∧
    ∃ extra, c1.log = c.log ++ extra ∧ ∀ m ∈ extra, m = ErrMsg.invalidPageTree := by
  unfold Catalog.readAux at h
  split at h
  · cases h
  · rename_i tree log hp
    simp only [Except.ok.injEq] at h
    subst h
    refine ⟨rfl, rfl, rfl, rfl, rfl, rfl, rfl, ?_⟩
    split at hp
    · obtain ⟨extra, h1, h2⟩ := parse_log _ _ _ _ _ _ hp
      exact ⟨extra, h1, h2⟩
    · simp only [Except.ok.injEq, Prod.mk.injEq] at hp
      exact ⟨[], by simp [hp.2], by simp⟩

/-- The auxiliary entries are read whenever the name tree can be read. -/
theorem readAux_ok (env : Env) (fuel : Nat) (c : Catalog) (h : NameTree.Readable env c.xref fuel) :
    ∃ c1, Catalog.readAux env fuel c.xref.getCatalog c = .ok c1 := by
  unfold Catalog.readAux
  by_cases hd : (c.xref.getCatalog.dictLookup c.xref "Names").isDict = true
  · obtain ⟨s, hs⟩ := h hd
    obtain ⟨t, ht⟩ := parse_indep _ _ _ _ _ _ (c.destNameTree, c.log) hs
    simp only [hd, if_true, ht]
    exact ⟨_, rfl⟩
  · simp only [hd]
    exact ⟨_, rfl⟩

/-- The three checks at the start of `Catalog::Catalog` all pass. -/
theorem new_eq_ok_of_valid {env : Env} {fuel : Nat} {xref : XRef} {c : Catalog}
    (h1 : xref.getCatalog.isDict = true) (h2 : xref.pagesDict.isDict = true)
    (h3 : xref.countObj.isNum = true) (h : Catalog.new env fuel xref = .ok c) :
    ∃ c1 n c2, Catalog.allocPages env xref xref.countObj.getNumAsInt = .ok c1 ∧
      readPageTree env xref fuel xref.pagesDict.getDict none 0 c1 = .ok (n, c2) ∧
      Catalog.readAux env fuel xref.getCatalog
        { c2 with
          numPages := n
          log := if n ≠ xref.countObj.getNumAsInt then c2.log ++ [.pageCountIncorrect]
                 else c2.log } = .ok c := by
  unfold Catalog.new at h
  simp only [h1, h2, h3, Bool.true_eq_false, if_false] at h
  split at h
  · cases h
  · rename_i c1 hc1
    split at h
    · cases h
    · rename_i n c2 hc2
      exact ⟨c1, n, c2, hc1, hc2, h⟩

/-- A run of `Catalog::Catalog` that returns either left through one of the
three early checks, or allocated the arrays, read the page tree and then the
auxiliary entries. -/
theorem new_eq_ok {env : Env} {fuel : Nat} {xref : XRef} {c : Catalog}
    (h : Catalog.new env fuel xref = .ok c) :
    ((xref.getCatalog.isDict = false ∨ xref.pagesDict.isDict = false ∨
        xref.countObj.isNum = false) ∧
      ∃ msg, c = Catalog.failEarly xref msg ∧ ¬ msg.isTreeMsg) ∨
    (xref.getCatalog.isDict = true ∧ xref.pagesDict.isDict = true ∧
      xref.countObj.isNum = true ∧
      ∃ c1 n c2, Catalog.allocPages env xref xref.countObj.getNumAsInt = .ok c1 ∧
        readPageTree env xref fuel xref.pagesDict.getDict none 0 c1 = .ok (n, c2) ∧
        Catalog.readAux env fuel xref.getCatalog
          { c2 with
            numPages := n
            log := if n ≠ xref.countObj.getNumAsInt then c2.log ++ [.pageCountIncorrect]
                   else c2.log } = .ok c) := by
  by_cases h1 : xref.getCatalog.isDict = true
  · by_cases h2 : xref.pagesDict.isDict = true
    · by_cases h3 : xref.countObj.isNum = true
      · exact Or.inr ⟨h1, h2, h3, new_eq_ok_of_valid h1 h2 h3 h⟩
      · left
        simp only [Bool.not_eq_true] at h3
        refine ⟨Or.inr (Or.inr h3), ?_⟩
        unfold Catalog.new at h
        simp only [h1, h2, h3, Bool.true_eq_false, if_false, if_true, Except.ok.injEq] at h
        exact ⟨_, h.symm, by rintro (⟨_, _, hm⟩ | ⟨_, _, hm⟩) <;> cases hm⟩
    · left
      simp only [Bool.not_eq_true] at h2
      refine ⟨Or.inr (Or.inl h2), ?_⟩
      unfold Catalog.new at h
      simp only [h1, h2, Bool.true_eq_false, if_false, if_true, Except.ok.injEq] at h
      exact ⟨_, h.symm, by rintro (⟨_, _, hm⟩ | ⟨_, _, hm⟩) <;> cases hm⟩
  · left
    simp only [Bool.not_eq_true] at h1
    refine ⟨Or.inl h1, ?_⟩
    unfold Catalog.new at h
    simp only [h1, if_true, Except.ok.injEq] at h
    exact ⟨_, h.symm, by rintro (⟨_, _, hm⟩ | ⟨_, _, hm⟩) <;> cases hm⟩

/-- After every construction that returns, the two arrays have the same
number of slots, the page count is -1 or lies within 0 and the number of
slots, every slot below the page count holds a page, and the number of slots
is `pagesSize` unless `pagesSize` is negative. -/
theorem new_arrays {env : Env} {fuel : Nat} {xref : XRef} {c : Catalog}
    (h : Catalog.new env fuel xref = .ok c) :
    c.pages.length = c.pageRefs.length ∧
    (c.numPages = -1 ∨ 0 ≤ c.numPages) ∧ c.numPages ≤ c.pages.length ∧
    (∀ i : Nat, (i : Int) < c.numPages → ∃ p, c.pages[i]? = some (some p)) ∧
    (0 ≤ c.pagesSize → (c.pages.length : Int) = c.pagesSize) := by
  rcases new_eq_ok h with ⟨_, msg, rfl, _⟩ | ⟨_, _, _, c1, n, c2, hc1, hc2, hc⟩
  · refine ⟨rfl, Or.inr (le_refl _), le_refl _, ?_, fun _ => rfl⟩
    intro i hi
    simp [Catalog.failEarly, Catalog.initial] at hi
    omega
  · obtain ⟨hsz1, _, _, _, hpl1, hrl1, hinv⟩ := allocPages_eq_ok hc1
    obtain ⟨extra, hf⟩ := readPageTree_flow env xref _ _ _ _ _ _ _ (le_refl _) hc2
    obtain ⟨_, hp, hr, hn, hsz, _, _, _⟩ := readAux_eq_ok hc
    simp only at hp hr hn hsz
    rw [hp, hr, hn, hsz]
    by_cases h4 : 0 ≤ xref.countObj.getNumAsInt
    · obtain ⟨s1, hm, hs1⟩ := readPageTree_mem env xref _ _ _ _ _ _ _ (hinv h4) hc2
      have hpl := hm.inv.pages_len
      have hrl := hm.inv.refs_len
      refine ⟨by omega, ?_, ?_, ?_, fun _ => hpl⟩
      · rcases hf.result with ⟨h1, _⟩ | ⟨h1, _⟩
        · exact Or.inl h1
        · exact Or.inr h1
      · rcases hf.result with ⟨h1, _⟩ | ⟨h1, _⟩
        · have := hm.inv.start_le; have := hm.inv.start_nonneg; omega
        · have := hs1 h1; subst this; have := hm.inv.start_le; omega
      · intro i hi
        have h0 : 0 ≤ n := by omega
        have := hs1 h0; subst this
        exact hm.filled i (by omega) hi
    · obtain ⟨hp2, hr2, hs2, hres, _⟩ :=
        readPageTree_neg env xref _ _ _ _ _ _ _ (by omega) (le_refl _) hc2
      rw [hp2, hr2, hs2]
      refine ⟨by omega, ?_, ?_, ?_, fun h0 => by omega⟩
      · rcases hres with h1 | h1
        · exact Or.inl h1
        · exact Or.inr (by omega)
      · rcases hres with h1 | h1 <;> omega
      · intro i hi
        rcases hres with h1 | h1 <;> omega

/-! ## findPage -/

theorem findPageFrom_absent (c : Catalog) (num gen : Int) : ∀ (k i : Nat),
    i + k ≤ c.pageRefs.length →
    (∀ j, i ≤ j → j < i + k → c.pageRefs[j]? ≠ some { num := num, gen := gen }) →
    Catalog.findPageFrom c num gen k i = some 0 := by
  intro k
  induction k with
  | zero => intro i _ _; rfl
  | succ k ih =>
    intro i hlen habs
    have hi : i < c.pageRefs.length := by omega
    simp only [Catalog.findPageFrom, List.getElem?_eq_getElem hi]
    have hne := habs i (le_refl _) (by omega)
    rw [List.getElem?_eq_getElem hi] at hne
    have : ¬ (c.pageRefs[i].num = num ∧ c.pageRefs[i].gen = gen) := by
      rintro ⟨h1, h2⟩
      apply hne
      congr 1
      cases hr : c.pageRefs[i]
      rw [hr] at h1 h2
      simp only at h1 h2
      subst h1 h2
      rfl
    simp only [this, if_false]
    exact ih (i + 1) (by omega) (fun j h1 h2 => habs j (by omega) (by omega))

theorem findPageFrom_first (c : Catalog) (num gen : Int) : ∀ (k i j : Nat),
    i ≤ j → j < i + k → c.pageRefs[j]? = some { num := num, gen := gen } →
    (∀ m, i ≤ m → m < j → c.pageRefs[m]? ≠ some { num := num, gen := gen }) →
    Catalog.findPageFrom c num gen k i = some ((j : Int) + 1) := by
  intro k
  induction k with
  | zero => intro i j h1 h2; omega
  | succ k ih =>
    intro i j hij hjk hj hmin
    have hjl : j < c.pageRefs.length := by
      by_contra hc
      rw [List.getElem?_eq_none (by omega)] at hj
      cases hj
    have hi : i < c.pageRefs.length := by omega
    simp only [Catalog.findPageFrom, List.getElem?_eq_getElem hi]
    by_cases heq : i = j
    · subst heq
      rw [List.getElem?_eq_getElem hi] at hj
      simp only [Option.some.injEq] at hj
      simp [hj]
    · have hne := hmin i (le_refl _) (by omega)
      rw [List.getElem?_eq_getElem hi] at hne
      have : ¬ (c.pageRefs[i].num = num ∧ c.pageRefs[i].gen = gen) := by
        rintro ⟨h1, h2⟩
        apply hne
        congr 1
        cases hr : c.pageRefs[i]
        rw [hr] at h1 h2
        simp only at h1 h2
        subst h1 h2
        rfl
      simp only [this, if_false]
      exact ih (i + 1) j (by omega) (by omega) hj (fun m h1 h2 => hmin m (by omega) h2)

/-- The lowest index that holds the same reference as slot `i`. -/
theorem exists_first_index (refs : List Ref) (i : Nat) (r : Ref) (hi : refs[i]? = some r) :
    ∃ j, j ≤ i ∧ refs[j]? = some r ∧ ∀ k, k < j → refs[k]? ≠ some r := by
  classical
  have hex : ∃ j, refs[j]? = some r := ⟨i, hi⟩
  exact ⟨Nat.find hex, Nat.find_min' hex hi, Nat.find_spec hex, fun k hk => Nat.find_min hex hk⟩

/-- C1, counterexample: in a document whose Kids array lists the same page
object twice, slot 1 holds the reference (3, 0) and `findPage` on it returns
1, not 2. -/
theorem C1_counterexample :
    ∃ c, Catalog.new exampleEnv 2 docTwice = .ok c ∧ (1 : Int) < c.numPages ∧
      ∃ r, c.pageRefs[1]? = some r ∧ c.findPage r.num r.gen = some 1 ∧
        c.findPage r.num r.gen ≠ some (1 + 1) :=
  ⟨Catalog.built exampleEnv 2 docTwice, by rfl, by decide, ⟨3, 0⟩, by rfl, by rfl, by decide⟩

/-- C1, amended: after a construction that returned, for every index `i`
below the page count, `findPage` on the reference in slot `i` returns `j + 1`
for the lowest index `j` that holds the same reference, so `j ≤ i`; it
returns `i + 1` when no lower slot holds the same reference. -/
theorem C1_findPage_lowest_index (env : Env) (fuel : Nat) (xref : XRef) (c : Catalog)
    (h : Catalog.new env fuel xref = .ok c) (i : Nat) (hi : (i : Int) < c.numPages) :
    ∃ r, c.pageRefs[i]? = some r ∧
      (∃ j, j ≤ i ∧ c.pageRefs[j]? = some r ∧ (∀ k, k < j → c.pageRefs[k]? ≠ some r) ∧
        c.findPage r.num r.gen = some ((j : Int) + 1)) ∧
      ((∀ k, k < i → c.pageRefs[k]? ≠ some r) → c.findPage r.num r.gen = some ((i : Int) + 1)) := by
  obtain ⟨hrl, _, hle, _⟩ := new_arrays h
  have hil : i < c.pageRefs.length := by omega
  refine ⟨c.pageRefs[i], List.getElem?_eq_getElem hil, ?_, ?_⟩
  · obtain ⟨j, hj1, hj2, hj3⟩ := exists_first_index c.pageRefs i _ (List.getElem?_eq_getElem hil)
    refine ⟨j, hj1, hj2, hj3, ?_⟩
    exact findPageFrom_first c _ _ _ 0 j (Nat.zero_le _) (by omega) hj2 (fun m _ hm => hj3 m hm)
  · intro hmin
    exact findPageFrom_first c _ _ _ 0 i (Nat.zero_le _) (by omega)
      (List.getElem?_eq_getElem hil) (fun m _ hm => hmin m hm)

/-- C1, witness: in the document that lists page object 3 twice, slot 1 is
below the page count and the lookup of its reference gives a page number. -/
theorem C1_findPage_lowest_index_witness :
    ∃ r, (Catalog.built exampleEnv 2 docTwice).pageRefs[1]? = some r ∧
      (∃ j : Nat, j ≤ 1 ∧ (Catalog.built exampleEnv 2 docTwice).pageRefs[j]? = some r ∧
        (∀ k : Nat, k < j → (Catalog.built exampleEnv 2 docTwice).pageRefs[k]? ≠ some r) ∧
        (Catalog.built exampleEnv 2 docTwice).findPage r.num r.gen = some ((j : Int) + 1)) ∧
      ((∀ k : Nat, k < 1 → (Catalog.built exampleEnv 2 docTwice).pageRefs[k]? ≠ some r) →
        (Catalog.built exampleEnv 2 docTwice).findPage r.num r.gen = some (((1 : Nat) : Int) + 1)) :=
  C1_findPage_lowest_index exampleEnv 2 docTwice (Catalog.built exampleEnv 2 docTwice)
    (by rfl) 1 (by decide)

/-- C2: after a construction that returned, `findPage` returns 0 for every
pair that no slot below the page count holds, and so for every pair when the
page count is not positive. -/
theorem C2_findPage_absent (env : Env) (fuel : Nat) (xref : XRef) (c : Catalog)
    (h : Catalog.new env fuel xref = .ok c) (num gen : Int) :
    ((∀ i : Nat, (i : Int) < c.numPages → c.pageRefs[i]? ≠ some { num := num, gen := gen }) →
      c.findPage num gen = some 0) ∧
    (c.numPages ≤ 0 → c.findPage num gen = some 0) := by
  obtain ⟨hrl, _, hle, _⟩ := new_arrays h
  have key : (∀ i : Nat, (i : Int) < c.numPages →
      c.pageRefs[i]? ≠ some { num := num, gen := gen }) → c.findPage num gen = some 0 := by
    intro habs
    exact findPageFrom_absent c num gen _ 0 (by omega) (fun j _ hj => habs j (by omega))
  refine ⟨key, ?_⟩
  intro hn
  exact key (fun i hi => by omega)

/-- C2, witness: the document that lists page object 3 twice has no page with
reference (9, 0), and `findPage` returns 0 for it. -/
theorem C2_findPage_absent_witness :
    (Catalog.built exampleEnv 2 docTwice).findPage 9 0 = some 0 := by
  refine (C2_findPage_absent exampleEnv 2 docTwice (Catalog.built exampleEnv 2 docTwice)
    (by rfl) 9 0).1 ?_
  intro i hi
  have hn : (Catalog.built exampleEnv 2 docTwice).numPages = 2 := by rfl
  rw [hn] at hi
  have hi2 : i < 2 := by omega
  interval_cases i <;> decide

/-! ## The descent on a well-formed page tree -/

/-- Leaves stored by a run stay stored through a later run that starts above
them. -/
theorem LeavesStored.keep_ {c c1 : Catalog} {s s1 s2 : Int} {ls : List Leaf}
    (h : LeavesStored c s ls) (h0 : 0 ≤ s) (hle : s + ls.length ≤ s1)
    (hm : TreeMem c s1 c1 s2) : LeavesStored c1 s ls := by
  intro i l hi
  have hlt : i < ls.length := by
    by_contra hc
    rw [List.getElem?_eq_none (by omega)] at hi
    cases hi
  have hf := hm.frame (s + i).toNat (by omega)
  rw [hf.1, hf.2]
  exact h i l hi

theorem LeavesStored.append_ {c : Catalog} {s : Int} {a b : List Leaf}
    (ha : LeavesStored c s a) (hb : LeavesStored c (s + a.length) b) :
    LeavesStored c s (a ++ b) := by
  intro i l hi
  by_cases hlt : i < a.length
  · rw [List.getElem?_append_left hlt] at hi
    exact ha i l hi
  · rw [List.getElem?_append_right (by omega)] at hi
    have := hb (i - a.length) l hi
    have e : s + (a.length : Int) + ((i - a.length : Nat) : Int) = s + (i : Int) := by omega
    rw [e] at this
    exact this

theorem readKids_leaves (env : Env) (xref : XRef)
    (recurse : Dict → PageAttrs → Int → Catalog → Except Fault (Int × Catalog))
    (recLeaves : Dict → PageAttrs → Option (List Leaf))
    (hrec : ∀ d a s c ls, recLeaves d a = some ls → Catalog.MemInv c s →
      LeavesValid env s ls →
      ∃ c1, recurse d a s c = .ok (s + ls.length, c1) ∧ TreeMem c s c1 (s + ls.length) ∧
        LeavesStored c1 s ls)
    (attrs1 : PageAttrs) :
    ∀ (kids : List Obj) (start : Int) (c : Catalog) (ls : List Leaf),
      kidsLeaves xref recLeaves attrs1 kids = some ls → Catalog.MemInv c start →
      LeavesValid env start ls →
      ∃ c1, readKids env xref recurse attrs1 kids start c = .ok (some (start + ls.length), c1) ∧
        TreeMem c start c1 (start + ls.length) ∧ LeavesStored c1 start ls := by
  intro kids
  induction kids with
  | nil =>
    intro start c ls hl hinv _
    simp only [kidsLeaves, Option.some.injEq] at hl
    subst hl
    exact ⟨c, by simp [readKids], by simpa using TreeMem.treeMem_refl hinv,
      fun i l hi => by simp at hi⟩
  | cons kidRef rest ih =>
    intro start c ls hl hinv hv
    simp only [kidsLeaves] at hl
    simp only [readKids]
    split at hl
    · rename_i hpage
      simp only [hpage, if_true]
      split at hl
      · rename_i ls1 hls1
        simp only [Option.some.injEq] at hl
        subst hl
        have hv0 := hv 0 _ List.getElem?_cons_zero
        simp only [Leaf.toPage, Nat.cast_zero, add_zero] at hv0
        simp only [hv0, if_true]
        obtain ⟨c2, hc2, hinv2, _, _, hpg, hrf⟩ := storePage_spec env c start
          { num := start + 1, pageDict := (kidRef.fetch xref).getDict,
            attrs := PageAttrs.merge xref (some attrs1) (kidRef.fetch xref).getDict } kidRef hinv
        have hm2 : TreeMem c start c2 (start + 1) := by
          obtain ⟨c3, h3, hm3⟩ := storePage_mem env c start
            { num := start + 1, pageDict := (kidRef.fetch xref).getDict,
              attrs := PageAttrs.merge xref (some attrs1) (kidRef.fetch xref).getDict } kidRef hinv
          rw [hc2] at h3
          cases h3
          exact hm3
        rw [hc2]
        simp only [List.length_cons]
        obtain ⟨c1, hc1, hm1, hs1⟩ := ih (start + 1) c2 ls1 hls1 hinv2 hv.tail_
        have e : start + 1 + (ls1.length : Int) = start + ((ls1.length + 1 : Nat) : Int) := by
          push_cast; ring
        rw [e] at hc1 hm1
        refine ⟨c1, hc1, hm2.treeMem_trans hm1, ?_⟩
        intro i l hi
        cases i with
        | zero =>
          simp only [List.getElem?_cons_zero, Option.some.injEq] at hi
          subst hi
          have hf := hm1.frame start.toNat (by have := hinv.start_nonneg; omega)
          simp only [Nat.cast_zero, add_zero, Leaf.toPage]
          rw [hf.1, hf.2]
          exact ⟨hpg, hrf⟩
        | succ i =>
          simp only [List.getElem?_cons_succ] at hi
          have := hs1 i l hi
          have e2 : start + ((i + 1 : Nat) : Int) = start + 1 + (i : Int) := by push_cast; ring
          rw [e2]
          exact this
      · cases hl
    · rename_i hpage
      simp only [hpage]
      split at hl
      · rename_i hdict
        simp only [hdict, if_true]
        split at hl
        · rename_i below ls1 hbelow hls1
          simp only [Option.some.injEq] at hl
          subst hl
          obtain ⟨c2, hc2, hm2, hs2⟩ := hrec _ _ start c below hbelow hinv hv.left_
          rw [hc2]
          simp only
          have hnn : ¬ (start + (below.length : Int) < 0) := by
            have := hinv.start_nonneg; omega
          simp only [hnn, if_false]
          obtain ⟨c1, hc1, hm1, hs1⟩ := ih (start + below.length) c2 ls1 hls1 hm2.inv hv.right_
          have e : start + (below.length : Int) + (ls1.length : Int) =
              start + ((below ++ ls1).length : Int) := by
            simp only [List.length_append]; push_cast; ring
          rw [e] at hc1 hm1
          exact ⟨c1, hc1, hm2.treeMem_trans hm1,
            (hs2.keep_ hinv.start_nonneg (le_refl _) hm1).append_ hs1⟩
        · cases hl
      · rename_i hdict
        simp only [hdict]
        have hinv1 : Catalog.MemInv
            { c with log := c.log ++ [.kidWrongType (start + 1) (kidRef.fetch xref).getType] }
            start := hinv.congr_ rfl rfl rfl
        obtain ⟨c1, hc1, hm1, hs1⟩ := ih start _ ls hl hinv1 hv
        exact ⟨c1, by simpa using hc1, hm1.congr_left rfl rfl rfl, hs1⟩

theorem readPageTree_leaves (env : Env) (xref : XRef) :
    ∀ (fuel : Nat) (d : Dict) (attrs : Option PageAttrs) (start : Int) (c : Catalog)
      (ls : List Leaf),
      pageLeaves xref fuel d attrs = some ls → Catalog.MemInv c start →
      LeavesValid env start ls →
      ∃ c1, readPageTree env xref fuel d attrs start c = .ok (start + ls.length, c1) ∧
        TreeMem c start c1 (start + ls.length) ∧ LeavesStored c1 start ls := by
  intro fuel
  induction fuel with
  | zero => intro d attrs start c ls h; simp [pageLeaves] at h
  | succ fuel ih =>
    intro d attrs start c ls hl hinv hv
    simp only [pageLeaves] at hl
    split at hl
    · rename_i hk
      obtain ⟨c1, hc1, hm1, hs1⟩ := readKids_leaves env xref
        (fun d a s c1 => readPageTree env xref fuel d (some a) s c1)
        (fun d a => pageLeaves xref fuel d (some a))
        (fun d a s c ls h1 h2 h3 => ih d (some a) s c ls h1 h2 h3)
        _ _ start c ls hl hinv hv
      refine ⟨c1, ?_, hm1, hs1⟩
      simp only [readPageTree, hk, if_true, hc1]
    · cases hl

theorem leavesValid_of_check (env : Env) : ∀ (ls : List Leaf) (start : Int),
    leavesValidCheck env start ls = true → LeavesValid env start ls := by
  intro ls
  induction ls with
  | nil => intro start _ i l hi; simp at hi
  | cons l0 ls ih =>
    intro start h i l hi
    simp only [leavesValidCheck, Bool.and_eq_true] at h
    cases i with
    | zero =>
      simp only [List.getElem?_cons_zero, Option.some.injEq] at hi
      subst hi
      simpa using h.1
    | succ i =>
      simp only [List.getElem?_cons_succ] at hi
      have := ih (start + 1) h.2 i l hi
      have e : start + ((i + 1 : Nat) : Int) = start + 1 + (i : Int) := by push_cast; ring
      rw [e]
      exact this

theorem readAux_ok_of_xref (env : Env) (fuel : Nat) (xref : XRef) (c : Catalog)
    (hx : c.xref = xref)
    (h : NameTree.Readable env xref fuel) : ∃ c1, Catalog.readAux env fuel xref.getCatalog c = .ok c1 := by
  subst hx
  exact readAux_ok env fuel c h

/-- Construction on a document whose root entries pass the checks and whose
page tree is well formed with leaves `ls`, all valid: whenever it returns, `ok`
is true, the page count is the number of leaves, the leaves are in the slots
in order, and the count mismatch is logged once or not at all. -/
theorem new_wellFormed_eq (env : Env) (fuel : Nat) (xref : XRef) (ls : List Leaf) (c : Catalog)
    (h1 : xref.getCatalog.isDict = true) (h2 : xref.pagesDict.isDict = true)
    (h3 : xref.countObj.isNum = true)
    (hl : pageLeaves xref fuel xref.pagesDict.getDict none = some ls)
    (hv : LeavesValid env 0 ls) (hc : Catalog.new env fuel xref = .ok c) :
    c.ok = true ∧ c.numPages = ls.length ∧ LeavesStored c 0 ls ∧
      ls.length ≤ c.pages.length ∧
      c.log.count .pageCountIncorrect =
        (if (ls.length : Int) ≠ xref.countObj.getNumAsInt then 1 else 0) := by
  obtain ⟨c1, n, c2, hc1, hc2, hc3⟩ := new_eq_ok_of_valid h1 h2 h3 hc
  obtain ⟨hsz1, hok1, hlog1, haux1, hpl1, _, hinv⟩ := allocPages_eq_ok hc1
  obtain ⟨extra, hf⟩ := readPageTree_flow env xref _ _ _ _ _ _ _ (le_refl _) hc2
  have key : n = ls.length ∧ LeavesStored c2 0 ls ∧ ls.length ≤ c2.pages.length := by
    by_cases h4 : 0 ≤ xref.countObj.getNumAsInt
    · obtain ⟨c2', hc2', hm2, hs2⟩ :=
        readPageTree_leaves env xref fuel _ none 0 c1 ls hl (hinv h4) hv
      rw [hc2] at hc2'
      simp only [Except.ok.injEq, Prod.mk.injEq] at hc2'
      obtain ⟨hn, rfl⟩ := hc2'
      refine ⟨by omega, hs2, ?_⟩
      have := hm2.inv.start_le
      have := hm2.inv.pages_len
      omega
    · obtain ⟨_, _, _, _, hnil⟩ :=
        readPageTree_neg env xref _ _ _ _ _ _ _ (by omega) (le_refl _) hc2
      obtain ⟨rfl, hn⟩ := hnil ls hl hv
      exact ⟨by simpa using hn, fun i l hi => by simp at hi, by simp⟩
  obtain ⟨hn, hs2, hlen⟩ := key
  have hres : c2.ok = c1.ok ∧ ∀ m ∈ extra, ∃ p t, m = ErrMsg.kidWrongType p t := by
    rcases hf.result with ⟨h, _⟩ | ⟨_, h⟩
    · omega
    · exact h
  obtain ⟨_, hp, hr, hnp, hsz, hok, _, extra2, hlog, hmsgs⟩ := readAux_eq_ok hc3
  simp only at hp hr hnp hsz hok hlog
  refine ⟨?_, ?_, ?_, ?_, ?_⟩
  · rw [hok, hres.1, hok1]
  · rw [hnp]; exact hn
  · intro i l hi
    rw [hp, hr]
    exact hs2 i l hi
  · rw [hp]; exact hlen
  · have hx1 : List.count ErrMsg.pageCountIncorrect extra = 0 := by
      rw [List.count_eq_zero]
      intro hmem
      obtain ⟨p, t, hpt⟩ := hres.2 _ hmem
      cases hpt
    have hx2 : List.count ErrMsg.pageCountIncorrect extra2 = 0 := by
      rw [List.count_eq_zero]
      intro hmem
      have := hmsgs _ hmem
      cases this
    rw [hlog, hf.log, hlog1, hn]
    split
    · simp [List.count_append, hx1, hx2]
    · simp [List.count_append, hx1, hx2]

/-- Construction on such a document returns when the declared count is not
negative and the name tree can be read. -/
theorem new_wellFormed_ok (env : Env) (fuel : Nat) (xref : XRef) (ls : List Leaf)
    (h1 : xref.getCatalog.isDict = true) (h2 : xref.pagesDict.isDict = true)
    (h3 : xref.countObj.isNum = true) (h4 : 0 ≤ xref.countObj.getNumAsInt)
    (hn : NameTree.Readable env xref fuel)
    (hl : pageLeaves xref fuel xref.pagesDict.getDict none = some ls)
    (hv : LeavesValid env 0 ls) :
    ∃ c, Catalog.new env fuel xref = .ok c := by
  obtain ⟨c1, hc1⟩ := allocPages_ok env xref _ h4
  obtain ⟨_, _, _, haux1, _, _, hinv⟩ := allocPages_eq_ok hc1
  obtain ⟨c2, hc2, _, _⟩ := readPageTree_leaves env xref fuel _ none 0 c1 ls hl (hinv h4) hv
  obtain ⟨extra, hf⟩ := readPageTree_flow env xref _ _ _ _ _ _ _ (le_refl _) hc2
  obtain ⟨c, hc⟩ := readAux_ok_of_xref env fuel xref
    { c2 with
      numPages := 0 + (ls.length : Int)
      log := if 0 + (ls.length : Int) ≠ xref.countObj.getNumAsInt
             then c2.log ++ [.pageCountIncorrect] else c2.log }
    (by simp only; rw [hf.aux.xref, haux1.xref]; rfl) hn
  refine ⟨c, ?_⟩
  unfold Catalog.new
  simp only [h1, h2, h3, Bool.true_eq_false, if_false, hc1, hc2]
  exact hc

/-- With a negative declared count and a well-formed page tree that has a
leaf, construction returns no catalog: the allocator ends the run, or the
first page store goes below slot 0. -/
theorem new_neg_none (env : Env) (fuel : Nat) (xref : XRef) (ls : List Leaf)
    (h1 : xref.getCatalog.isDict = true) (h2 : xref.pagesDict.isDict = true)
    (h3 : xref.countObj.isNum = true) (hneg : xref.countObj.getNumAsInt < 0)
    (hl : pageLeaves xref fuel xref.pagesDict.getDict none = some ls)
    (hv : LeavesValid env 0 ls) (hne : ls ≠ []) (c : Catalog) :
    Catalog.new env fuel xref ≠ .ok c := by
  intro hc
  obtain ⟨c1, n, c2, hc1, hc2, _⟩ := new_eq_ok_of_valid h1 h2 h3 hc
  obtain ⟨hsz1, _⟩ := allocPages_eq_ok hc1
  obtain ⟨_, _, _, _, hall⟩ :=
    readPageTree_neg env xref fuel _ none 0 c1 n c2 (by rw [hsz1]; exact hneg) (le_refl _) hc2
  exact hne (hall ls hl hv).1

/-- The nested example document with the declared count -5: with an allocator
that hands out no storage for a negative count the first page store starts
its initialisation at slot -5, and with one that ends the run the run ends at
the first allocation; this for every bound on the depth. -/
theorem docNested_neg_none (fuel : Nat) :
    Catalog.new exampleEnv (fuel + 1) (docNested (.objInt (-5))) = .error .outOfBounds ∧
    Catalog.new exampleEnv 0 (docNested (.objInt (-5))) = .error .outOfFuel ∧
    Catalog.new abortEnv fuel (docNested (.objInt (-5))) = .error .bogusAlloc :=
  ⟨by rfl, by rfl, by rfl⟩

/-! ## Claims about the page sequence -/

/-- C3, counterexample: the nested example document with the declared count
-5 has a finite page tree in which every Pages node has a Kids array and whose
three leaves are valid pages, yet construction returns no catalog, whatever
the bound on the depth and whichever of the two allocators is used. -/
theorem C3_counterexample :
    (docNested (.objInt (-5))).getCatalog.isDict = true ∧
    (docNested (.objInt (-5))).pagesDict.isDict = true ∧
    (docNested (.objInt (-5))).countObj.isNum = true ∧
    pageLeaves (docNested (.objInt (-5))) 2 (docNested (.objInt (-5))).pagesDict.getDict none =
      some (exampleLeaves (docNested (.objInt (-5))) 2) ∧
    (exampleLeaves (docNested (.objInt (-5))) 2).length = 3 ∧
    LeavesValid exampleEnv 0 (exampleLeaves (docNested (.objInt (-5))) 2) ∧
    LeavesValid abortEnv 0 (exampleLeaves (docNested (.objInt (-5))) 2) ∧
    (∀ (fuel : Nat) (c : Catalog),
      Catalog.new exampleEnv fuel (docNested (.objInt (-5))) ≠ .ok c) ∧
    (∀ (fuel : Nat) (c : Catalog),
      Catalog.new abortEnv fuel (docNested (.objInt (-5))) ≠ .ok c) := by
  refine ⟨by rfl, by rfl, by rfl, by rfl, by rfl, leavesValid_of_check _ _ _ (by rfl),
    leavesValid_of_check _ _ _ (by rfl), ?_, ?_⟩
  · intro fuel c h
    cases fuel with
    | zero => rw [(docNested_neg_none 0).2.1] at h; cases h
    | succ n => rw [(docNested_neg_none n).1] at h; cases h
  · intro fuel c h
    rw [(docNested_neg_none fuel).2.2] at h
    cases h

/-- C3, amended: for a page tree that is finite, in which every Pages node has
a Kids array and whose leaves `ls` (in depth-first, left-to-right order) all
give valid pages, every catalog that construction returns has the number of
leaves as its page count and holds in slot `i` the page of leaf `i`, for every
`i`.  Construction does return when the declared count is not negative and the
name tree can be read; it returns no catalog when the declared count is
negative and the tree has a leaf. -/
theorem C3_pages_in_reading_order (env : Env) (fuel : Nat) (xref : XRef) (ls : List Leaf)
    (h1 : xref.getCatalog.isDict = true) (h2 : xref.pagesDict.isDict = true)
    (h3 : xref.countObj.isNum = true)
    (hl : pageLeaves xref fuel xref.pagesDict.getDict none = some ls)
    (hv : LeavesValid env 0 ls) :
    (∀ c, Catalog.new env fuel xref = .ok c →
      c.getNumPages = ls.length ∧
      ∀ (i : Nat) (l : Leaf), ls[i]? = some l → c.pages[i]? = some (some (l.toPage i))) ∧
    (0 ≤ xref.countObj.getNumAsInt → NameTree.Readable env xref fuel →
      ∃ c, Catalog.new env fuel xref = .ok c) ∧
    (xref.countObj.getNumAsInt < 0 → ls ≠ [] →
      ∀ c, Catalog.new env fuel xref ≠ .ok c) := by
  refine ⟨?_, fun h4 hn => new_wellFormed_ok env fuel xref ls h1 h2 h3 h4 hn hl hv,
    fun h4 hne => new_neg_none env fuel xref ls h1 h2 h3 h4 hl hv hne⟩
  intro c hc
  obtain ⟨_, hnp, hs, _⟩ := new_wellFormed_eq env fuel xref ls c h1 h2 h3 hl hv hc
  refine ⟨hnp, ?_⟩
  intro i l hi
  have := (hs i l hi).1
  simpa using this

/-- C3, witness: the nested example document with declared count 5 has three
leaves; construction returns and the catalog has three pages. -/
theorem C3_pages_in_reading_order_witness :
    ∃ c, Catalog.new exampleEnv 3 (docNested (.objInt 5)) = .ok c ∧ c.getNumPages = 3 ∧
      ∀ (i : Nat) (l : Leaf), (exampleLeaves (docNested (.objInt 5)) 3)[i]? = some l →
        c.pages[i]? = some (some (l.toPage i)) := by
  have h := C3_pages_in_reading_order exampleEnv 3 (docNested (.objInt 5))
    (exampleLeaves (docNested (.objInt 5)) 3) (by rfl) (by rfl) (by rfl) (by rfl)
    (leavesValid_of_check _ _ _ (by rfl))
  obtain ⟨c, hc⟩ := h.2.1 (by decide) (fun hd => absurd hd (by decide))
  exact ⟨c, hc, (h.1 c hc).1, (h.1 c hc).2⟩

/-- C4, counterexample: the nested example document with the declared count
-5 is well formed and has three leaves, so the declared count differs from the
number of leaves; construction does not end with `isOk` true and three pages,
it returns no catalog, whatever the bound on the depth and whichever of the
two allocators is used. -/
theorem C4_counterexample :
    (docNested (.objInt (-5))).countObj.getNumAsInt = -5 ∧
    (exampleLeaves (docNested (.objInt (-5))) 3).length = 3 ∧
    (docNested (.objInt (-5))).countObj.getNumAsInt ≠
      (exampleLeaves (docNested (.objInt (-5))) 3).length ∧
    pageLeaves (docNested (.objInt (-5))) 3 (docNested (.objInt (-5))).pagesDict.getDict none =
      some (exampleLeaves (docNested (.objInt (-5))) 3) ∧
    LeavesValid exampleEnv 0 (exampleLeaves (docNested (.objInt (-5))) 3) ∧
    LeavesValid abortEnv 0 (exampleLeaves (docNested (.objInt (-5))) 3) ∧
    (∀ fuel : Nat, ¬ ∃ c, Catalog.new exampleEnv fuel (docNested (.objInt (-5))) = .ok c ∧
      c.isOk = true ∧ c.getNumPages = 3) ∧
    (∀ fuel : Nat, ¬ ∃ c, Catalog.new abortEnv fuel (docNested (.objInt (-5))) = .ok c) ∧
    (∀ fuel : Nat, ¬ ∃ c, Catalog.new exampleEnv fuel (docNested (.objInt (-5))) = .ok c) := by
  have hex : ∀ fuel : Nat,
      ¬ ∃ c, Catalog.new exampleEnv fuel (docNested (.objInt (-5))) = .ok c := by
    rintro fuel ⟨c, h⟩
    cases fuel with
    | zero => rw [(docNested_neg_none 0).2.1] at h; cases h
    | succ n => rw [(docNested_neg_none n).1] at h; cases h
  refine ⟨by rfl, by rfl, by decide, by rfl, leavesValid_of_check _ _ _ (by rfl),
    leavesValid_of_check _ _ _ (by rfl), ?_, ?_, hex⟩
  · rintro fuel ⟨c, h, _⟩
    exact hex fuel ⟨c, h⟩
  · rintro fuel ⟨c, h⟩
    rw [(docNested_neg_none fuel).2.2] at h
    cases h

/-- C4, amended: for a well-formed page tree with leaves `ls`, every catalog
that construction returns has `isOk` true and the number of leaves as its page
count, whatever the declared count is; the count mismatch message is logged
exactly once when the declared count differs from the number of leaves and
not at all when they are equal.  Construction does return when the declared
count is not negative and the name tree can be read; it returns no catalog
when the declared count is negative and the tree has a leaf. -/
theorem C4_count_mismatch_not_fatal (env : Env) (fuel : Nat) (xref : XRef) (ls : List Leaf)
    (h1 : xref.getCatalog.isDict = true) (h2 : xref.pagesDict.isDict = true)
    (h3 : xref.countObj.isNum = true)
    (hl : pageLeaves xref fuel xref.pagesDict.getDict none = some ls)
    (hv : LeavesValid env 0 ls) :
    (∀ c, Catalog.new env fuel xref = .ok c →
      c.isOk = true ∧ c.getNumPages = ls.length ∧
      (xref.countObj.getNumAsInt ≠ ls.length → c.log.count .pageCountIncorrect = 1) ∧
      (xref.countObj.getNumAsInt = ls.length → ErrMsg.pageCountIncorrect ∉ c.log)) ∧
    (0 ≤ xref.countObj.getNumAsInt → NameTree.Readable env xref fuel →
      ∃ c, Catalog.new env fuel xref = .ok c) ∧
    (xref.countObj.getNumAsInt < 0 → ls ≠ [] →
      ∀ c, Catalog.new env fuel xref ≠ .ok c) := by
  refine ⟨?_, fun h4 hn => new_wellFormed_ok env fuel xref ls h1 h2 h3 h4 hn hl hv,
    fun h4 hne => new_neg_none env fuel xref ls h1 h2 h3 h4 hl hv hne⟩
  intro c hc
  obtain ⟨hok, hnp, _, _, hcount⟩ := new_wellFormed_eq env fuel xref ls c h1 h2 h3 hl hv hc
  refine ⟨hok, hnp, ?_, ?_⟩
  · intro hne
    rw [hcount, if_pos (fun h => hne h.symm)]
  · intro heq
    rw [← List.count_eq_zero, hcount, if_neg (fun h => h heq.symm)]

/-- C4, witness: declared count 5 and three leaves give `isOk` true, three
pages and one count mismatch message. -/
theorem C4_count_mismatch_not_fatal_witness :
    ∃ c, Catalog.new exampleEnv 2 (docNested (.objInt 5)) = .ok c ∧ c.isOk = true ∧
      c.getNumPages = 3 ∧ c.log.count .pageCountIncorrect = 1 := by
  have h := C4_count_mismatch_not_fatal exampleEnv 2 (docNested (.objInt 5))
    (exampleLeaves (docNested (.objInt 5)) 2) (by rfl) (by rfl) (by rfl) (by rfl)
    (leavesValid_of_check _ _ _ (by rfl))
  obtain ⟨c, hc⟩ := h.2.1 (by decide) (fun hd => absurd hd (by decide))
  obtain ⟨hok, hnp, hne, _⟩ := h.1 c hc
  exact ⟨c, hc, hok, hnp, hne (by decide)⟩

/-- C5, counterexample: the document with the declared count -5 and one page
has a well-formed page tree with one valid leaf, yet after construction no
slot holds a page: no catalog is returned, whatever the bound on the depth and
whichever of the two allocators is used. -/
theorem C5_counterexample :
    pageLeaves docNegPage 2 docNegPage.pagesDict.getDict none =
      some (exampleLeaves docNegPage 2) ∧
    (exampleLeaves docNegPage 2).length = 1 ∧
    LeavesValid exampleEnv 0 (exampleLeaves docNegPage 2) ∧
    LeavesValid abortEnv 0 (exampleLeaves docNegPage 2) ∧
    docNegPage.countObj.getNumAsInt = -5 ∧
    (∀ (fuel : Nat) (c : Catalog), Catalog.new exampleEnv fuel docNegPage ≠ .ok c) ∧
    (∀ (fuel : Nat) (c : Catalog), Catalog.new abortEnv fuel docNegPage ≠ .ok c) := by
  refine ⟨by rfl, by rfl, leavesValid_of_check _ _ _ (by rfl),
    leavesValid_of_check _ _ _ (by rfl), by rfl, ?_, ?_⟩
  · intro fuel c h
    cases fuel with
    | zero =>
      have h0 : Catalog.new exampleEnv 0 docNegPage = .error .outOfFuel := by rfl
      rw [h0] at h
      cases h
    | succ n =>
      have h1 : Catalog.new exampleEnv (n + 1) docNegPage = .error .outOfBounds := by rfl
      rw [h1] at h
      cases h
  · intro fuel c h
    have h0 : Catalog.new abortEnv fuel docNegPage = .error .bogusAlloc := by rfl
    rw [h0] at h
    cases h

/-- C5, amended: for a well-formed page tree with `P` leaves, all valid, and
whatever the declared count, every catalog that construction returns has at
least `P` slots in its page array and every slot `0 .. P - 1` holds a page,
none of them the initial null value.  Construction does return when the
declared count is not negative and the name tree can be read; it returns no
catalog when the declared count is negative and `P` is at least 1. -/
theorem C5_slots_populated (env : Env) (fuel : Nat) (xref : XRef) (ls : List Leaf)
    (h1 : xref.getCatalog.isDict = true) (h2 : xref.pagesDict.isDict = true)
    (h3 : xref.countObj.isNum = true)
    (hl : pageLeaves xref fuel xref.pagesDict.getDict none = some ls)
    (hv : LeavesValid env 0 ls) :
    (∀ c, Catalog.new env fuel xref = .ok c →
      ls.length ≤ c.pages.length ∧
      ∀ i : Nat, i < ls.length →
        (∃ p, c.pages[i]? = some (some p)) ∧ c.pages[i]? ≠ some none) ∧
    (0 ≤ xref.countObj.getNumAsInt → NameTree.Readable env xref fuel →
      ∃ c, Catalog.new env fuel xref = .ok c) ∧
    (xref.countObj.getNumAsInt < 0 → 1 ≤ ls.length →
      ∀ c, Catalog.new env fuel xref ≠ .ok c) := by
  refine ⟨?_, fun h4 hn => new_wellFormed_ok env fuel xref ls h1 h2 h3 h4 hn hl hv,
    fun h4 hne => new_neg_none env fuel xref ls h1 h2 h3 h4 hl hv
      (fun he => by rw [he] at hne; simp at hne)⟩
  intro c hc
  obtain ⟨_, _, hs, hlen, _⟩ := new_wellFormed_eq env fuel xref ls c h1 h2 h3 hl hv hc
  refine ⟨hlen, ?_⟩
  intro i hi
  have h := (hs i ls[i] (List.getElem?_eq_getElem hi)).1
  simp only [zero_add, Int.toNat_ofNat] at h
  exact ⟨⟨_, h⟩, by rw [h]; simp⟩

/-- C5, witness: with declared count 1 and three leaves the arrays grow and
the three slots hold pages. -/
theorem C5_slots_populated_witness :
    ∃ c, Catalog.new exampleEnv 2 (docNested (.objInt 1)) = .ok c ∧ 3 ≤ c.pages.length ∧
      ∀ i : Nat, i < 3 → (∃ p, c.pages[i]? = some (some p)) ∧ c.pages[i]? ≠ some none := by
  have h := C5_slots_populated exampleEnv 2 (docNested (.objInt 1))
    (exampleLeaves (docNested (.objInt 1)) 2) (by rfl) (by rfl) (by rfl) (by rfl)
    (leavesValid_of_check _ _ _ (by rfl))
  obtain ⟨c, hc⟩ := h.2.1 (by decide) (fun hd => absurd hd (by decide))
  exact ⟨c, hc, (h.1 c hc).1, (h.1 c hc).2⟩

/-! ## Claims about failures -/

/-- C6: when the root catalog object is not a dictionary, or its `Pages`
entry is not a dictionary, or the `Count` of that node is not a number,
construction returns with `isOk` false, page count 0, `dests` null and no
slot allocated; one message is logged; and the result is the same with no
fuel at all, so `readPageTree` is not called. -/
theorem C6_early_validation_failure (env : Env) (fuel : Nat) (xref : XRef)
    (h : xref.getCatalog.isDict = false ∨ xref.pagesDict.isDict = false ∨
      xref.countObj.isNum = false) :
    ∃ c, Catalog.new env fuel xref = .ok c ∧ c.isOk = false ∧ c.getNumPages = 0 ∧
      c.dests.isNull = true ∧ c.pages = [] ∧ c.pageRefs = [] ∧ c.log.length = 1 ∧
      Catalog.new env 0 xref = .ok c := by
  unfold Catalog.new
  by_cases h1 : xref.getCatalog.isDict = true
  · by_cases h2 : xref.pagesDict.isDict = true
    · have h3 : xref.countObj.isNum = false := by
        rcases h with h | h | h
        · rw [h1] at h; cases h
        · rw [h2] at h; cases h
        · exact h
      simp only [h1, h2, h3, Bool.true_eq_false, if_false, if_true]
      exact ⟨_, rfl, rfl, rfl, rfl, rfl, rfl, rfl, rfl⟩
    · simp only [Bool.not_eq_true] at h2
      simp only [h1, h2, Bool.true_eq_false, if_false, if_true]
      exact ⟨_, rfl, rfl, rfl, rfl, rfl, rfl, rfl, rfl⟩
  · simp only [Bool.not_eq_true] at h1
    simp only [h1, if_true]
    exact ⟨_, rfl, rfl, rfl, rfl, rfl, rfl, rfl, rfl⟩

/-- C6, witness: a catalog whose `Pages` entry is a number. -/
theorem C6_early_validation_failure_witness :
    ∃ c, Catalog.new exampleEnv 5 docBadPages = .ok c ∧ c.isOk = false ∧ c.getNumPages = 0 ∧
      c.dests.isNull = true ∧ c.pages = [] ∧ c.pageRefs = [] ∧ c.log.length = 1 ∧
      Catalog.new exampleEnv 0 docBadPages = .ok c :=
  C6_early_validation_failure exampleEnv 5 docBadPages (Or.inr (Or.inl (by rfl)))

/-- C7: a Pages node whose `Kids` entry is missing or not an array makes its
own call of `readPageTree` return -1 with `ok` false; every call of
`readPageTree` during which such a node was met (it logged the Kids message)
returns -1 with `ok` false, however deep the node was; and a construction
during which such a node was met ends with `isOk` false and page count -1. -/
theorem C7_bad_kids_fails_whole_build (env : Env) (fuel : Nat) (xref : XRef) :
    (∀ (d : Dict) (attrs : Option PageAttrs) (start : Int) (c : Catalog),
      (Dict.lookup xref d "Kids").isArray = false →
      ∃ c1, readPageTree env xref (fuel + 1) d attrs start c = .ok (-1, c1) ∧ c1.ok = false ∧
        c1.log = c.log ++ [.kidsWrongType (start + 1) (Dict.lookup xref d "Kids").getType]) ∧
    (∀ (d : Dict) (attrs : Option PageAttrs) (start : Int) (c : Catalog) (r : Int)
      (c1 : Catalog), 0 ≤ start →
      readPageTree env xref fuel d attrs start c = .ok (r, c1) →
      (∃ p t, ErrMsg.kidsWrongType p t ∈ c1.log.drop c.log.length) →
      r = -1 ∧ c1.ok = false) ∧
    (∀ c, Catalog.new env fuel xref = .ok c →
      (∃ p t, ErrMsg.kidsWrongType p t ∈ c.log) → c.isOk = false ∧ c.getNumPages = -1) := by
  refine ⟨?_, ?_, ?_⟩
  · intro d attrs start c hk
    refine ⟨{ c with
      log := c.log ++ [.kidsWrongType (start + 1) (Dict.lookup xref d "Kids").getType]
      ok := false }, ?_, rfl, rfl⟩
    simp only [readPageTree, hk, Bool.false_eq_true, if_false]
  · intro d attrs start c r c1 h0 h ⟨p, t, hmem⟩
    obtain ⟨extra, hf⟩ := readPageTree_flow env xref _ _ _ _ _ _ _ h0 h
    rw [hf.log, List.drop_left] at hmem
    rcases hf.result with hr | ⟨_, _, hall⟩
    · exact hr
    · obtain ⟨_, _, hm⟩ := hall _ hmem
      cases hm
  · intro c hc ⟨p, t, hmem⟩
    rcases new_eq_ok hc with ⟨_, msg, rfl, hmsg⟩ | ⟨_, _, _, c1, n, c2, hc1, hc2, hc3⟩
    · simp only [Catalog.failEarly, List.mem_singleton] at hmem
      exact (hmsg (Or.inr ⟨p, t, hmem.symm⟩)).elim
    · obtain ⟨_, _, hlog1, _⟩ := allocPages_eq_ok hc1
      obtain ⟨extra, hf⟩ := readPageTree_flow env xref _ _ _ _ _ _ _ (le_refl _) hc2
      obtain ⟨_, _, _, hnp, _, hok, _, extra2, hlog, hmsgs⟩ := readAux_eq_ok hc3
      simp only at hnp hok hlog
      have hin : ErrMsg.kidsWrongType p t ∈ extra := by
        rw [hlog, hf.log, hlog1] at hmem
        rcases List.mem_append.1 hmem with hm | hm
        · split at hm
          · rcases List.mem_append.1 hm with hm | hm
            · simpa using hm
            · simp at hm
          · simpa using hm
        · have := hmsgs _ hm
          cases this
      rcases hf.result with ⟨hr, hfalse⟩ | ⟨_, _, hall⟩
      · exact ⟨by simp only [Catalog.isOk]; rw [hok, hfalse],
          by simp only [Catalog.getNumPages]; rw [hnp, hr]⟩
      · obtain ⟨_, _, hm⟩ := hall _ hin
        cases hm

/-- C7, witness: a nested Pages node without Kids between two pages makes the
whole construction fail. -/
theorem C7_bad_kids_fails_whole_build_witness :
    (Catalog.built exampleEnv 2 docBadKids).isOk = false ∧
    (Catalog.built exampleEnv 2 docBadKids).getNumPages = -1 :=
  (C7_bad_kids_fails_whole_build exampleEnv 2 docBadKids).2.2
    (Catalog.built exampleEnv 2 docBadKids) (by rfl) ⟨2, .objNull, by decide⟩

/-! ## The order of names and binary search -/

theorem cmpChars_swap : ∀ (a b : List Char), UGString.cmpChars b a = - UGString.cmpChars a b := by
  intro a
  induction a with
  | nil =>
    intro b
    cases b <;> simp [UGString.cmpChars]
  | cons c cs ih =>
    intro b
    cases b with
    | nil => simp [UGString.cmpChars]
    | cons d ds =>
      simp only [UGString.cmpChars]
      by_cases h : (c.toNat : Int) - (d.toNat : Int) = 0
      · have h2 : (d.toNat : Int) - (c.toNat : Int) = 0 := by omega
        simp only [h, h2, ne_eq, not_true_eq_false, if_false]
        exact ih ds
      · have h2 : ¬ ((d.toNat : Int) - (c.toNat : Int) = 0) := by omega
        simp only [h, h2, ne_eq, not_false_eq_true, if_true]
        omega

theorem cmpChars_eq_zero : ∀ (a b : List Char), UGString.cmpChars a b = 0 → a = b := by
  intro a
  induction a with
  | nil =>
    intro b h
    cases b with
    | nil => rfl
    | cons d ds => simp [UGString.cmpChars] at h; omega
  | cons c cs ih =>
    intro b h
    cases b with
    | nil => simp [UGString.cmpChars] at h; omega
    | cons d ds =>
      simp only [UGString.cmpChars] at h
      by_cases hcd : (c.toNat : Int) - (d.toNat : Int) = 0
      · simp only [hcd, ne_eq, not_true_eq_false, if_false] at h
        have hn : c.toNat = d.toNat := by omega
        have hc : c = d := by
          rw [← Char.ofNat_toNat c, ← Char.ofNat_toNat d, hn]
        rw [hc, ih ds h]
      · rw [if_pos hcd] at h
        exact (hcd h).elim

theorem cmpChars_self (a : List Char) : UGString.cmpChars a a = 0 := by
  have := cmpChars_swap a a
  omega

theorem UGString.cmp_self (a : String) : UGString.cmp a a = 0 := cmpChars_self _

theorem UGString.cmp_eq_zero {a b : String} (h : UGString.cmp a b = 0) : a = b :=
  String.ext_iff.2 (cmpChars_eq_zero _ _ h)

theorem UGString.cmp_swap (a b : String) : UGString.cmp b a = - UGString.cmp a b :=
  cmpChars_swap _ _

/-- Whatever `bsearch` returns is an element of the array that compares equal
to the key. -/
theorem bsearchLoop_some {α : Type} (compar : α → Int) (base : List α) :
    ∀ (fuel l u : Nat) (p : α), bsearchLoop compar base fuel l u = some p →
      p ∈ base ∧ compar p = 0 := by
  intro fuel
  induction fuel with
  | zero => intro l u p h; simp [bsearchLoop] at h
  | succ fuel ih =>
    intro l u p h
    simp only [bsearchLoop] at h
    split at h
    · split at h
      · cases h
      · rename_i q hq
        split at h
        · exact ih _ _ _ h
        · split at h
          · exact ih _ _ _ h
          · simp only [Option.some.injEq] at h
            subst h
            exact ⟨List.getElem?_mem hq, by omega⟩
    · cases h

/-- On an array that is strictly ascending for `compar` read as a comparison
with a key equal to the element at index `k`, the loop finds that element. -/
theorem bsearchLoop_finds {α : Type} (compar : α → Int) (base : List α) (k : Nat) (e : α)
    (hk : base[k]? = some e) (he : compar e = 0)
    (hlow : ∀ (i : Nat) (p : α), i < k → base[i]? = some p → compar p > 0)
    (hhigh : ∀ (i : Nat) (p : α), k < i → base[i]? = some p → compar p < 0) :
    ∀ (fuel l u : Nat), l ≤ k → k < u → u ≤ base.length → u - l < fuel →
      bsearchLoop compar base fuel l u = some e := by
  intro fuel
  induction fuel with
  | zero => intro l u _ _ _ h; omega
  | succ fuel ih =>
    intro l u hl hu hlen hfuel
    have hlt : l < u := by omega
    have hmid : (l + u) / 2 < base.length := by omega
    simp only [bsearchLoop, hlt, if_true, List.getElem?_eq_getElem hmid]
    rcases Nat.lt_trichotomy ((l + u) / 2) k with hc | hc | hc
    · have hpos := hlow _ _ hc (List.getElem?_eq_getElem hmid)
      have h1 : ¬ compar base[(l + u) / 2] < 0 := by omega
      simp only [h1, if_false, hpos, if_true]
      exact ih _ _ (by omega) hu hlen (by omega)
    · have : base[(l + u) / 2] = e := by
        have h3 : base[(l + u) / 2]? = some e := by rw [hc]; exact hk
        rw [List.getElem?_eq_getElem hmid] at h3
        exact Option.some.inj h3
      rw [this]
      have h1 : ¬ compar e < 0 := by omega
      have h2 : ¬ compar e > 0 := by omega
      simp only [h1, h2, if_false]
    · have hneg := hhigh _ _ hc (List.getElem?_eq_getElem hmid)
      simp only [hneg, if_true]
      exact ih _ _ hl hc (by omega) (by omega)

/-! ## Claims about named destinations -/

/-- C8: when `dests` is a dictionary with an entry for the name that is not
null, `findDest` takes that entry, and its result is the same whatever the
name tree holds; otherwise, when `dests` is not a dictionary or its entry for
the name is null or absent, the object is the one the name tree lookup
gives. -/
theorem C8_flat_dests_before_name_tree (env : Env) (c : Catalog) (name : String) :
    (c.dests.isDict = true → (c.dests.dictLookup c.xref name).isNull = false →
      Catalog.findDestObj c name = (some (c.dests.dictLookup c.xref name), []) ∧
      Catalog.findDest env c name =
        (Catalog.checkDest env (Catalog.buildDest c.xref (c.dests.dictLookup c.xref name)).1,
          (Catalog.buildDest c.xref (c.dests.dictLookup c.xref name)).2) ∧
      ∀ t : NameTree,
        Catalog.findDest env { c with destNameTree := t } name = Catalog.findDest env c name) ∧
    ((c.dests.isDict = false ∨ (c.dests.dictLookup c.xref name).isNull = true) →
      Catalog.findDestObj c name =
        (if (NameTree.lookup c.xref c.destNameTree name).1 = true
          then some (NameTree.lookup c.xref c.destNameTree name).2.1 else none,
         (NameTree.lookup c.xref c.destNameTree name).2.2)) := by
  refine ⟨?_, ?_⟩
  · intro hd hn
    have hobj : ∀ t : NameTree, Catalog.findDestObj { c with destNameTree := t } name =
        (some (c.dests.dictLookup c.xref name), []) := by
      intro t
      simp only [Catalog.findDestObj, hd, hn, and_self, if_true]
    have hself : Catalog.findDestObj c name = (some (c.dests.dictLookup c.xref name), []) := by
      simp only [Catalog.findDestObj, hd, hn, and_self, if_true]
    refine ⟨hself, ?_, ?_⟩
    · simp only [Catalog.findDest, hself, List.nil_append]
    · intro t
      simp only [Catalog.findDest, hself, hobj t]
  · intro h
    have hcond : ¬ (c.dests.isDict = true ∧ (c.dests.dictLookup c.xref name).isNull = false) := by
      rintro ⟨h1, h2⟩
      rcases h with h | h
      · rw [h1] at h; cases h
      · rw [h2] at h; cases h
    simp only [Catalog.findDestObj, hcond, if_false]
    rcases hl : NameTree.lookup c.xref c.destNameTree name with ⟨found, obj1, msgs⟩
    cases found <;> simp

/-- C8, witness: the name `chap1` is in the destination dictionary and in the
name tree of the example document; `findDest` returns the array of the
dictionary. -/
theorem C8_flat_dests_before_name_tree_witness :
    Catalog.findDest exampleEnv (Catalog.built exampleEnv 2 docDests) "chap1" =
      (some { a := [.objRef 3 0, .objName "Fit"] }, []) ∧
    (NameTree.lookup docDests (Catalog.built exampleEnv 2 docDests).destNameTree "chap1").1
      = true := by
  have h := (C8_flat_dests_before_name_tree exampleEnv (Catalog.built exampleEnv 2 docDests)
    "chap1").1 (by rfl) (by rfl)
  exact ⟨h.2.1.trans (by rfl), by rfl⟩

/-- C9: for the object `obj1` that `findDest` found, with the messages `msgs`
logged while finding it: when it is an array, the destination is built from
that array; when it is a dictionary whose `D` entry is an array, from that
array; in both cases nothing more is logged and the destination is returned
when it is valid.  For every other object `findDest` returns none and logs
the bad destination message. -/
theorem C9_dest_value_shapes (env : Env) (c : Catalog) (name : String) (obj1 : Obj)
    (msgs : List ErrMsg) (h : Catalog.findDestObj c name = (some obj1, msgs)) :
    (∀ a, obj1 = .objArray a →
      Catalog.buildDest c.xref obj1 = (some { a := a }, []) ∧
      Catalog.findDest env c name = (if env.linkDestIsOk a then some { a := a } else none, msgs)) ∧
    (∀ d a, obj1 = .objDict d → Dict.lookup c.xref d "D" = .objArray a →
      Catalog.buildDest c.xref obj1 = (some { a := a }, []) ∧
      Catalog.findDest env c name = (if env.linkDestIsOk a then some { a := a } else none, msgs)) ∧
    (obj1.isArray = false →
      (obj1.isDict = false ∨ (obj1.dictLookup c.xref "D").isArray = false) →
      Catalog.findDest env c name = (none, msgs ++ [.badNamedDest])) := by
  refine ⟨?_, ?_, ?_⟩
  · intro a ha
    subst ha
    have hb : Catalog.buildDest c.xref (.objArray a) = (some { a := a }, []) := by
      simp [Catalog.buildDest, Obj.isArray, Obj.getArray]
    refine ⟨hb, ?_⟩
    simp only [Catalog.findDest, h, hb, Catalog.checkDest, List.append_nil]
  · intro d a hd hD
    subst hd
    have hb : Catalog.buildDest c.xref (.objDict d) = (some { a := a }, []) := by
      simp [Catalog.buildDest, Obj.isArray, Obj.isDict, Obj.dictLookup, Obj.getDict, hD,
        Obj.getArray]
    refine ⟨hb, ?_⟩
    simp only [Catalog.findDest, h, hb, Catalog.checkDest, List.append_nil]
  · intro ha hd
    have hb : Catalog.buildDest c.xref obj1 = (none, [.badNamedDest]) := by
      unfold Catalog.buildDest
      rw [ha]
      rcases hd with hd | hd
      · simp [hd]
      · by_cases hdd : obj1.isDict = true
        · simp [hdd, hd]
        · simp [hdd]
    simp only [Catalog.findDest, h, hb, Catalog.checkDest]

/-- C9, witness: in the example document the destination `viaD` is a
dictionary with a `D` array and is built from that array; `number` is a
number and gives none with the bad destination message. -/
theorem C9_dest_value_shapes_witness :
    Catalog.findDest exampleEnv (Catalog.built exampleEnv 2 docDests) "viaD" =
      (some { a := [.objRef 3 0, .objName "FitB"] }, []) ∧
    Catalog.findDest exampleEnv (Catalog.built exampleEnv 2 docDests) "number" =
      (none, [.badNamedDest]) := by
  have h1 := (C9_dest_value_shapes exampleEnv (Catalog.built exampleEnv 2 docDests) "viaD"
    (.objDict [("D", .objArray [.objRef 3 0, .objName "FitB"])]) [] (by rfl)).2.1
    _ [.objRef 3 0, .objName "FitB"] rfl (by rfl)
  have h2 := (C9_dest_value_shapes exampleEnv (Catalog.built exampleEnv 2 docDests) "number"
    (.objInt 5) [] (by rfl)).2.2 (by rfl) (Or.inl (by rfl))
  exact ⟨h1.2.trans (by rfl), h2⟩

/-- C10: on a name tree whose entries are strictly ascending by name,
`lookup` returns found with the resolved value of the entry that has the
name when there is one, and not found with a null object (and the lookup
message) when no entry has the name; so also on a tree without entries. -/
theorem C10_lookup_in_sorted_tree (xref : XRef) (t : NameTree) (name : String)
    (hs : t.entries.Pairwise (fun e1 e2 => UGString.cmp e1.name e2.name < 0)) :
    (∀ e ∈ t.entries, e.name = name →
      NameTree.lookup xref t name = (true, e.value.fetch xref, [])) ∧
    ((∀ e ∈ t.entries, e.name ≠ name) →
      NameTree.lookup xref t name = (false, .objNull, [.lookupFailed name])) ∧
    (t.entries = [] → NameTree.lookup xref t name = (false, .objNull, [.lookupFailed name])) := by
  have hnone : (∀ e ∈ t.entries, e.name ≠ name) →
      NameTree.lookup xref t name = (false, .objNull, [.lookupFailed name]) := by
    intro habs
    unfold NameTree.lookup bsearch
    cases hb : bsearchLoop (NameTree.Entry.cmp name) t.entries (t.entries.length + 1) 0
        t.entries.length with
    | none => rfl
    | some p =>
      obtain ⟨hmem, hz⟩ := bsearchLoop_some _ _ _ _ _ _ hb
      exact (habs p hmem (UGString.cmp_eq_zero hz).symm).elim
  refine ⟨?_, hnone, ?_⟩
  · intro e he hname
    obtain ⟨k, hklt, hk⟩ := List.getElem_of_mem he
    have hfind := bsearchLoop_finds (NameTree.Entry.cmp name) t.entries k e
      (by rw [List.getElem?_eq_getElem hklt, hk])
      (by simp only [NameTree.Entry.cmp, hname]; exact UGString.cmp_self _)
      (by
        intro i p hik hp
        obtain ⟨hi, hpi⟩ := List.getElem?_eq_some.1 hp
        have := List.pairwise_iff_getElem.1 hs i k hi hklt hik
        rw [hpi, hk] at this
        simp only [NameTree.Entry.cmp, ← hname]
        rw [UGString.cmp_swap]
        omega)
      (by
        intro i p hki hp
        obtain ⟨hi, hpi⟩ := List.getElem?_eq_some.1 hp
        have := List.pairwise_iff_getElem.1 hs k i hklt hi hki
        rw [hpi, hk] at this
        simp only [NameTree.Entry.cmp, ← hname]
        exact this)
      (t.entries.length + 1) 0 t.entries.length (Nat.zero_le _) hklt (le_refl _) (by omega)
    unfold NameTree.lookup bsearch
    rw [hfind]
  · intro hempty
    exact hnone (by rw [hempty]; intro e he; cases he)

/-- C10, witness: the name tree of the example document holds alpha, beta,
chap1 and gamma in ascending order; beta is found with its value, which is
reached through a reference, and a missing name is not found. -/
theorem C10_lookup_in_sorted_tree_witness :
    NameTree.lookup docDests (Catalog.built exampleEnv 2 docDests).destNameTree "beta" =
      (true, .objArray [.objRef 3 0, .objName "FitR"], []) ∧
    NameTree.lookup docDests (Catalog.built exampleEnv 2 docDests).destNameTree "missing" =
      (false, .objNull, [.lookupFailed "missing"]) := by
  have h := C10_lookup_in_sorted_tree docDests
    (Catalog.built exampleEnv 2 docDests).destNameTree
  refine ⟨?_, ?_⟩
  · exact (h "beta" (by decide)).1 { name := "beta", value := .objRef 8 0 }
      (List.getElem?_mem (n := 1) (by rfl)) rfl
  · refine (h "missing" (by decide)).2.1 ?_
    intro e he
    have hall : ∀ e ∈ (Catalog.built exampleEnv 2 docDests).destNameTree.entries,
        (e.name == "missing") = false := by
      intro e he
      have : (Catalog.built exampleEnv 2 docDests).destNameTree.entries.all
          (fun e => !(e.name == "missing")) = true := by decide
      have := List.all_eq_true.1 this e he
      simpa using this
    have := hall e he
    simpa using this

/-! ## Cycles in the page tree -/

/-- On a set of Pages nodes in which every node has, as its first kid, a
dictionary of the set that is not a page, the descent from a node of the set
uses up every amount of fuel. -/
theorem readPageTree_cycle (env : Env) (xref : XRef) (P : Dict → Prop)
    (hP : ∀ d, P d → ∃ k rest d1, Dict.lookup xref d "Kids" = .objArray (k :: rest) ∧
      k.fetch xref = .objDict d1 ∧ Dict.is d1 "Page" = false ∧ P d1) :
    ∀ (fuel : Nat) (d : Dict) (attrs : Option PageAttrs) (start : Int) (c : Catalog), P d →
      readPageTree env xref fuel d attrs start c = .error .outOfFuel := by
  intro fuel
  induction fuel with
  | zero => intro d attrs start c _; rfl
  | succ fuel ih =>
    intro d attrs start c hd
    obtain ⟨k, rest, d1, hk, hf, hpage, hd1⟩ := hP d hd
    simp only [readPageTree, hk, Obj.isArray, if_true, Obj.getArray, readKids, hf, Obj.isDictOf,
      hpage, Bool.false_eq_true, if_false, Obj.isDict, Obj.getDict, ih d1 _ start c hd1]

/-- C12, counterexample: the document whose top Pages node lists itself as its
only kid passes the three checks of the root, and with every amount of fuel
construction ends out of fuel, so it returns no catalog and logs no error. -/
theorem C12_counterexample :
    (docCycle.getCatalog.isDict = true ∧ docCycle.pagesDict.isDict = true ∧
      docCycle.countObj.isNum = true) ∧
    ∀ fuel : Nat, Catalog.new exampleEnv fuel docCycle = .error .outOfFuel := by
  refine ⟨⟨by rfl, by rfl, by rfl⟩, ?_⟩
  intro fuel
  have h := readPageTree_cycle exampleEnv docCycle
    (fun d => d = (docCycle.fetchObj 2 0).getDict)
    (by
      intro d hd
      subst hd
      exact ⟨.objRef 2 0, [], (docCycle.fetchObj 2 0).getDict, rfl, rfl, rfl, rfl⟩)
    fuel (docCycle.fetchObj 2 0).getDict none 0
  have h1 : docCycle.getCatalog.isDict = true := by rfl
  have h2 : docCycle.pagesDict.isDict = true := by rfl
  have h3 : docCycle.countObj.isNum = true := by rfl
  obtain ⟨c1, hc1⟩ := allocPages_ok exampleEnv docCycle docCycle.countObj.getNumAsInt
    (by decide)
  unfold Catalog.new
  simp only [h1, h2, h3, Bool.true_eq_false, if_false, hc1]
  have hd : docCycle.pagesDict.getDict = (docCycle.fetchObj 2 0).getDict := by rfl
  rw [hd, h c1 rfl]

/-- C12, amended: there is no cycle detection.  When the Pages nodes on a
cycle each have the next one as first kid (a node that is its own first kid,
or whose first kid leads back to an ancestor), the descent from any of them
exceeds every bound on the recursion depth, and a construction whose top
Pages node is one of them returns no catalog, so no error about the cycle is
reported. -/
theorem C12_cycle_recurses_without_bound (env : Env) (xref : XRef) (P : Dict → Prop)
    (hP : ∀ d, P d → ∃ k rest d1, Dict.lookup xref d "Kids" = .objArray (k :: rest) ∧
      k.fetch xref = .objDict d1 ∧ Dict.is d1 "Page" = false ∧ P d1) :
    (∀ (fuel : Nat) (d : Dict) (attrs : Option PageAttrs) (start : Int) (c : Catalog), P d →
      readPageTree env xref fuel d attrs start c = .error .outOfFuel) ∧
    (xref.getCatalog.isDict = true → xref.pagesDict.isDict = true →
      xref.countObj.isNum = true → P xref.pagesDict.getDict →
      ∀ (fuel : Nat) (c : Catalog), Catalog.new env fuel xref ≠ .ok c) := by
  refine ⟨readPageTree_cycle env xref P hP, ?_⟩
  intro h1 h2 h3 hroot fuel c hc
  obtain ⟨c1, n, c2, _, hc2, _⟩ := new_eq_ok_of_valid h1 h2 h3 hc
  rw [readPageTree_cycle env xref P hP fuel _ none 0 c1 hroot] at hc2
  cases hc2

/-- C12, witness: in the document whose top Pages node has the kid 3 and node
3 has the top node as its kid, the two nodes form such a cycle: the descent
from node 3 uses up every amount of fuel and construction never returns. -/
theorem C12_cycle_recurses_without_bound_witness :
    (∀ fuel : Nat, readPageTree exampleEnv docCycleTwo fuel (docCycleTwo.fetchObj 3 0).getDict
      none 0 (Catalog.initial docCycleTwo) = .error .outOfFuel) ∧
    (∀ (fuel : Nat) (c : Catalog), Catalog.new exampleEnv fuel docCycleTwo ≠ .ok c) := by
  have h := C12_cycle_recurses_without_bound exampleEnv docCycleTwo
    (fun d => d = (docCycleTwo.fetchObj 2 0).getDict ∨ d = (docCycleTwo.fetchObj 3 0).getDict)
    (by
      intro d hd
      rcases hd with hd | hd
      · subst hd
        exact ⟨.objRef 3 0, [], (docCycleTwo.fetchObj 3 0).getDict, rfl, rfl, rfl, Or.inr rfl⟩
      · subst hd
        exact ⟨.objRef 2 0, [], (docCycleTwo.fetchObj 2 0).getDict, rfl, rfl, rfl,
          Or.inl rfl⟩)
  exact ⟨fun fuel => h.1 fuel _ none 0 _ (Or.inr rfl),
    h.2 (by rfl) (by rfl) (by rfl) (Or.inl (by rfl))⟩

/-! ## The capacity field and the auxiliary entries -/

/-- What `readAux` stores when it returns: each auxiliary member is read from
the catalog dictionary, whatever the page tree descent did before. -/
theorem readAux_fields {env : Env} {fuel : Nat} {catDict : Obj} {c c1 : Catalog}
    (h : Catalog.readAux env fuel catDict c = .ok c1) :
    c1.dests = catDict.dictLookup c.xref "Dests" ∧
    c1.baseURI = Catalog.readBaseURI c.xref c.baseURI catDict ∧
    c1.pageMode = Catalog.readPageMode c.pageMode (catDict.dictLookup c.xref "PageMode") ∧
    c1.metadata = catDict.dictLookup c.xref "Metadata" ∧
    c1.structTreeRoot = catDict.dictLookup c.xref "StructTreeRoot" ∧
    c1.outline = catDict.dictLookup c.xref "Outlines" ∧
    c1.acroForm = catDict.dictLookup c.xref "AcroForm" ∧
    ((catDict.dictLookup c.xref "Names").isDict = true →
      ∃ log, NameTree.parse env c.xref fuel
        ((catDict.dictLookup c.xref "Names").dictLookup c.xref "Dests")
        (c.destNameTree, c.log) = .ok (c1.destNameTree, log)) ∧
    ((catDict.dictLookup c.xref "Names").isDict = false → c1.destNameTree = c.destNameTree) := by
  unfold Catalog.readAux at h
  split at h
  · cases h
  · rename_i tree log hp
    simp only [Except.ok.injEq] at h
    subst h
    refine ⟨rfl, rfl, rfl, rfl, rfl, rfl, rfl, ?_, ?_⟩
    · intro hd
      rw [if_pos hd] at hp
      exact ⟨log, hp⟩
    · intro hd
      rw [hd] at hp
      simp only [Bool.false_eq_true, if_false, Except.ok.injEq, Prod.mk.injEq] at hp
      exact hp.1.symm

/-- The catalog handed to `readAux` by a construction that passed the three
early checks still has the members set at the start, apart from the arrays,
the page count, `ok` and the log. -/
theorem new_aux_fields {env : Env} {fuel : Nat} {xref : XRef} {c : Catalog}
    (h1 : xref.getCatalog.isDict = true) (h2 : xref.pagesDict.isDict = true)
    (h3 : xref.countObj.isNum = true) (h : Catalog.new env fuel xref = .ok c) :
    c.dests = xref.getCatalog.dictLookup xref "Dests" ∧
    c.baseURI = Catalog.readBaseURI xref none xref.getCatalog ∧
    c.pageMode = Catalog.readPageMode .UseNone (xref.getCatalog.dictLookup xref "PageMode") ∧
    c.metadata = xref.getCatalog.dictLookup xref "Metadata" ∧
    c.structTreeRoot = xref.getCatalog.dictLookup xref "StructTreeRoot" ∧
    c.outline = xref.getCatalog.dictLookup xref "Outlines" ∧
    c.acroForm = xref.getCatalog.dictLookup xref "AcroForm" ∧
    c.xref = xref := by
  obtain ⟨c1, n, c2, hc1, hc2, hc3⟩ := new_eq_ok_of_valid h1 h2 h3 h
  obtain ⟨_, _, _, haux1, _⟩ := allocPages_eq_ok hc1
  obtain ⟨extra, hf⟩ := readPageTree_flow env xref _ _ _ _ _ _ _ (le_refl _) hc2
  obtain ⟨hd, hb, hm, hmd, hst, ho, ha, _, _⟩ := readAux_fields hc3
  obtain ⟨hx, _⟩ := readAux_eq_ok hc3
  simp only at hd hb hm hmd hst ho ha hx
  have hxr : c2.xref = xref := by rw [hf.aux.xref, haux1.xref]; rfl
  have hpm : c2.pageMode = .UseNone := by rw [hf.aux.pageMode, haux1.pageMode]; rfl
  have hbu : c2.baseURI = none := by rw [hf.aux.baseURI, haux1.baseURI]; rfl
  rw [hxr] at hd hb hm hmd hst ho ha hx
  rw [hpm] at hm
  rw [hbu] at hb
  exact ⟨hd, hb, hm, hmd, hst, ho, ha, hx⟩

/-- The document with the declared count -5 and no kids, under an allocator
that hands out no storage for a negative count: construction returns a catalog
with page count 0 and `pagesSize` -5. -/
theorem docNegCount_built :
    ∃ c, Catalog.new exampleEnv 1 docNegCount = .ok c ∧ c.numPages = 0 ∧ c.pagesSize = -5 :=
  ⟨Catalog.built exampleEnv 1 docNegCount, by rfl, by rfl, by rfl⟩

/-- C16: for a catalog whose construction passed the three early checks,
`getPageMode` is the mode of the same name when the `PageMode` entry is one of
the names UseNone, UseOutlines, UseThumbs, FullScreen, UseOC; it is UseNone
when the entry is a name outside the table, and when the entry is absent or
not a name.  When an early check failed the entry is not read and the mode is
UseNone. -/
theorem C16_page_mode_table (env : Env) (fuel : Nat) (xref : XRef) (c : Catalog)
    (h : Catalog.new env fuel xref = .ok c) :
    (xref.getCatalog.isDict = true → xref.pagesDict.isDict = true →
      xref.countObj.isNum = true →
      (xref.getCatalog.dictLookup xref "PageMode" = .objName "UseNone" →
        c.getPageMode = .UseNone) ∧
      (xref.getCatalog.dictLookup xref "PageMode" = .objName "UseOutlines" →
        c.getPageMode = .UseOutlines) ∧
      (xref.getCatalog.dictLookup xref "PageMode" = .objName "UseThumbs" →
        c.getPageMode = .UseThumbs) ∧
      (xref.getCatalog.dictLookup xref "PageMode" = .objName "FullScreen" →
        c.getPageMode = .FullScreen) ∧
      (xref.getCatalog.dictLookup xref "PageMode" = .objName "UseOC" →
        c.getPageMode = .UseOC) ∧
      (∀ s, xref.getCatalog.dictLookup xref "PageMode" = .objName s →
        s ∉ ["UseNone", "UseOutlines", "UseThumbs", "FullScreen", "UseOC"] →
        c.getPageMode = .UseNone) ∧
      ((xref.getCatalog.dictLookup xref "PageMode").isName = false →
        c.getPageMode = .UseNone) ∧
      (Dict.find xref.getCatalog.getDict "PageMode" = none → c.getPageMode = .UseNone)) ∧
    ((xref.getCatalog.isDict = false ∨ xref.pagesDict.isDict = false ∨
        xref.countObj.isNum = false) → c.getPageMode = .UseNone) := by
  refine ⟨?_, ?_⟩
  · intro h1 h2 h3
    obtain ⟨_, _, hm, _⟩ := new_aux_fields h1 h2 h3 h
    simp only [Catalog.getPageMode, hm]
    refine ⟨?_, ?_, ?_, ?_, ?_, ?_, ?_, ?_⟩
    · intro e; rw [e]; rfl
    · intro e; rw [e]; rfl
    · intro e; rw [e]; rfl
    · intro e; rw [e]; rfl
    · intro e; rw [e]; rfl
    · intro s e hs
      rw [e]
      simp only [List.mem_cons, List.mem_singleton, List.not_mem_nil, or_false, not_or] at hs
      simp [Catalog.readPageMode, hs]
    · intro hn
      cases hobj : xref.getCatalog.dictLookup xref "PageMode" <;>
        simp_all [Catalog.readPageMode, Obj.isName]
    · intro hfind
      simp [Obj.dictLookup, Dict.lookup, hfind, Catalog.readPageMode]
  · intro hfail
    rcases new_eq_ok h with ⟨_, msg, rfl, _⟩ | ⟨h1, h2, h3, _⟩
    · rfl
    · rcases hfail with hf | hf | hf
      · rw [h1] at hf; cases hf
      · rw [h2] at hf; cases hf
      · rw [h3] at hf; cases hf

/-- C16, witness: the example document with `PageMode` UseThumbs. -/
theorem C16_page_mode_table_witness :
    (Catalog.built exampleEnv 1 (docMode (.objName "UseThumbs"))).getPageMode = .UseThumbs :=
  ((C16_page_mode_table exampleEnv 1 (docMode (.objName "UseThumbs"))
    (Catalog.built exampleEnv 1 (docMode (.objName "UseThumbs"))) (by rfl)).1
    (by rfl) (by rfl) (by rfl)).2.2.1 (by rfl)

/-! ## The name tree is flattened in pre-order -/

theorem addEntry_entries (t : NameTree) (e : NameTree.Entry) :
    (t.addEntry e).entries = t.entries ++ [e] := rfl

theorem parseNames_entries (env : Env) : ∀ (names : List Obj) (s : NameTree × List ErrMsg),
    (NameTree.parseNames env names s).1.entries = s.1.entries ++ namePairs env names := by
  intro names s
  induction names, s using NameTree.parseNames.induct env with
  | case1 s => simp [NameTree.parseNames, namePairs]
  | case2 n s => simp [NameTree.parseNames, namePairs, addEntry_entries]
  | case3 n v rest s ih =>
    rw [NameTree.parseNames, ih]
    simp [namePairs, addEntry_entries]

theorem parseKids_entries (xref : XRef)
    (recurse : Obj → NameTree × List ErrMsg → Except Fault (NameTree × List ErrMsg))
    (recE : Obj → Option (List NameTree.Entry))
    (hrec : ∀ o s,
      (∀ es, recE o = some es → ∃ s1, recurse o s = .ok s1 ∧ s1.1.entries = s.1.entries ++ es) ∧
      (recE o = none → recurse o s = .error .outOfFuel)) :
    ∀ (kids : List Obj) (s : NameTree × List ErrMsg),
      (∀ es, kidsEntries xref recE kids = some es →
        ∃ s1, NameTree.parseKids xref recurse kids s = .ok s1 ∧
          s1.1.entries = s.1.entries ++ es) ∧
      (kidsEntries xref recE kids = none →
        NameTree.parseKids xref recurse kids s = .error .outOfFuel) := by
  intro kids
  induction kids with
  | nil =>
    intro s
    refine ⟨?_, ?_⟩
    · intro es h
      simp only [kidsEntries, Option.some.injEq] at h
      subst h
      exact ⟨s, rfl, by simp⟩
    · intro h
      simp [kidsEntries] at h
  | cons kid rest ih =>
    intro s
    simp only [kidsEntries, NameTree.parseKids]
    by_cases hd : (kid.fetch xref).isDict = true
    · rw [if_pos hd, if_pos hd]
      cases hr : recE (kid.fetch xref) with
      | none =>
        rw [(hrec (kid.fetch xref) s).2 hr]
        exact ⟨fun es h => by simp at h, fun _ => rfl⟩
      | some below =>
        obtain ⟨s1, hs1, he1⟩ := (hrec (kid.fetch xref) s).1 below hr
        rw [hs1]
        cases hk : kidsEntries xref recE rest with
        | none =>
          exact ⟨fun es h => by simp at h, fun _ => (ih s1).2 hk⟩
        | some es1 =>
          obtain ⟨s2, hs2, he2⟩ := (ih s1).1 es1 hk
          refine ⟨?_, fun h => by simp at h⟩
          intro es h
          simp only [Option.some.injEq] at h
          subst h
          exact ⟨s2, hs2, by rw [he2, he1, List.append_assoc]⟩
    · rw [if_neg hd, if_neg hd]
      exact ih s

theorem parse_entries (env : Env) (xref : XRef) :
    ∀ (fuel : Nat) (tree : Obj) (s : NameTree × List ErrMsg),
      (∀ es, nameEntries env xref fuel tree = some es →
        ∃ s1, NameTree.parse env xref fuel tree s = .ok s1 ∧
          s1.1.entries = s.1.entries ++ es) ∧
      (nameEntries env xref fuel tree = none →
        NameTree.parse env xref fuel tree s = .error .outOfFuel) := by
  intro fuel
  induction fuel with
  | zero =>
    intro tree s
    exact ⟨fun es h => by simp [nameEntries] at h, fun _ => rfl⟩
  | succ fuel ih =>
    intro tree s
    simp only [nameEntries, NameTree.parse]
    by_cases hd : tree.isDict = true
    · rw [if_pos hd, if_pos hd]
      have hown : (if (tree.dictLookup xref "Names").isArray = true then
            NameTree.parseNames env (tree.dictLookup xref "Names").getArray s
           else s).1.entries = s.1.entries ++
          (if (tree.dictLookup xref "Names").isArray = true then
            namePairs env (tree.dictLookup xref "Names").getArray else []) := by
        split
        · exact parseNames_entries env _ _
        · simp
      by_cases hk : (tree.dictLookup xref "Kids").isArray = true
      · rw [if_pos hk, if_pos hk]
        have hkids := parseKids_entries xref (NameTree.parse env xref fuel)
          (nameEntries env xref fuel) ih (tree.dictLookup xref "Kids").getArray
          (if (tree.dictLookup xref "Names").isArray = true then
            NameTree.parseNames env (tree.dictLookup xref "Names").getArray s
           else s)
        cases hke : kidsEntries xref (nameEntries env xref fuel)
            (tree.dictLookup xref "Kids").getArray with
        | none =>
          exact ⟨fun es h => by simp at h, fun _ => hkids.2 hke⟩
        | some es1 =>
          obtain ⟨s1, hs1, he1⟩ := hkids.1 es1 hke
          refine ⟨?_, fun h => by simp at h⟩
          intro es h
          simp only [Option.some.injEq] at h
          subst h
          exact ⟨s1, hs1, by rw [he1, hown, List.append_assoc]⟩
      · rw [if_neg hk, if_neg hk]
        refine ⟨?_, fun h => by simp at h⟩
        intro es h
        simp only [Option.some.injEq] at h
        subst h
        exact ⟨_, rfl, hown⟩
    · rw [if_neg hd, if_neg hd]
      refine ⟨?_, fun h => by simp at h⟩
      intro es h
      simp only [Option.some.injEq] at h
      subst h
      exact ⟨s, rfl, by simp⟩

/-- The name tree of a catalog whose construction passed the three early
checks and found a `Names` dictionary: its entries are the pre-order entries
of the `Dests` entry of that dictionary. -/
theorem new_nameTree_entries {env : Env} {fuel : Nat} {xref : XRef} {c : Catalog}
    (h1 : xref.getCatalog.isDict = true) (h2 : xref.pagesDict.isDict = true)
    (h3 : xref.countObj.isNum = true) (h : Catalog.new env fuel xref = .ok c)
    (hn : (xref.getCatalog.dictLookup xref "Names").isDict = true) :
    nameEntries env xref fuel ((xref.getCatalog.dictLookup xref "Names").dictLookup xref "Dests")
      = some c.destNameTree.entries := by
  obtain ⟨c1, n, c2, hc1, hc2, hc3⟩ := new_eq_ok_of_valid h1 h2 h3 h
  obtain ⟨_, _, _, haux1, _⟩ := allocPages_eq_ok hc1
  obtain ⟨extra, hf⟩ := readPageTree_flow env xref _ _ _ _ _ _ _ (le_refl _) hc2
  obtain ⟨_, _, _, _, _, _, _, hparse, _⟩ := readAux_fields hc3
  simp only at hparse
  have hxr : c2.xref = xref := by rw [hf.aux.xref, haux1.xref]; rfl
  have hnt : c2.destNameTree = NameTree.empty := by
    rw [hf.aux.destNameTree, haux1.destNameTree]; rfl
  rw [hxr, hnt] at hparse
  obtain ⟨log, hp⟩ := hparse hn
  have hpe := parse_entries env xref fuel
    ((xref.getCatalog.dictLookup xref "Names").dictLookup xref "Dests")
    (NameTree.empty, if n ≠ xref.countObj.getNumAsInt then c2.log ++ [.pageCountIncorrect]
                     else c2.log)
  cases hne : nameEntries env xref fuel
      ((xref.getCatalog.dictLookup xref "Names").dictLookup xref "Dests") with
  | none =>
    rw [hpe.2 hne] at hp
    cases hp
  | some es =>
    obtain ⟨s1, hs1, he1⟩ := hpe.1 es hne
    rw [hs1] at hp
    simp only [Except.ok.injEq] at hp
    subst hp
    simp only [NameTree.empty, List.nil_append] at he1
    rw [he1]

/-- C19: `NameTree::parse` appends to the entries it is given exactly the
pre-order entries of the tree, `nameEntries`: for a dictionary node the pairs
of its `Names` array in array order, then the entries of its kids that are
dictionaries in array order, recursively; nothing for a root or a kid that is
not a dictionary; nothing is sorted or moved.  It returns exactly when the tree
is finite within the fuel.  The name tree of a constructed catalog holds
these entries for the `Dests` entry of the `Names` dictionary. -/
theorem C19_name_tree_preorder (env : Env) (xref : XRef) (fuel : Nat) (tree : Obj)
    (s : NameTree × List ErrMsg) :
    (∀ es, nameEntries env xref fuel tree = some es →
      ∃ s1, NameTree.parse env xref fuel tree s = .ok s1 ∧ s1.1.entries = s.1.entries ++ es) ∧
    (nameEntries env xref fuel tree = none →
      NameTree.parse env xref fuel tree s = .error .outOfFuel) ∧
    (tree.isDict = false → NameTree.parse env xref (fuel + 1) tree s = .ok s) ∧
    (∀ c, Catalog.new env fuel xref = .ok c → xref.getCatalog.isDict = true →
      xref.pagesDict.isDict = true → xref.countObj.isNum = true →
      (xref.getCatalog.dictLookup xref "Names").isDict = true →
      nameEntries env xref fuel
        ((xref.getCatalog.dictLookup xref "Names").dictLookup xref "Dests")
        = some c.destNameTree.entries) := by
  refine ⟨(parse_entries env xref fuel tree s).1, (parse_entries env xref fuel tree s).2, ?_, ?_⟩
  · intro hd
    simp [NameTree.parse, hd]
  · intro c hc h1 h2 h3 hn
    exact new_nameTree_entries h1 h2 h3 hc hn

/-- C19, witness: the name tree of the example document has a root without
names and one kid with four pairs; the catalog holds the four names in the
order of the array. -/
theorem C19_name_tree_preorder_witness :
    (Catalog.built exampleEnv 2 docDests).destNameTree.entries.map (fun e => e.name) =
      ["alpha", "beta", "chap1", "gamma"] ∧
    nameEntries exampleEnv docDests 2
        ((docDests.getCatalog.dictLookup docDests "Names").dictLookup docDests "Dests")
      = some (Catalog.built exampleEnv 2 docDests).destNameTree.entries :=
  ⟨by decide, (C19_name_tree_preorder exampleEnv docDests 2 .objNull (NameTree.empty, [])).2.2.2
    (Catalog.built exampleEnv 2 docDests) (by rfl) (by rfl) (by rfl) (by rfl) (by rfl)⟩

/-- C20: there is a name tree built from entries that are not in ascending
order, and a name among its entries, for which `lookup` returns not found: the
tree of the example document with the names b and a in this order, and the
name b. -/
theorem C20_unsorted_tree_misses_entry :
    ∃ c, Catalog.new exampleEnv 2 docUnsorted = .ok c ∧
      c.destNameTree.entries.map (fun e => e.name) = ["b", "a"] ∧
      ¬ c.destNameTree.entries.Pairwise (fun e1 e2 => UGString.cmp e1.name e2.name < 0) ∧
      (∃ e ∈ c.destNameTree.entries, e.name = "b") ∧
      NameTree.lookup c.xref c.destNameTree "b" = (false, .objNull, [.lookupFailed "b"]) :=
  ⟨Catalog.built exampleEnv 2 docUnsorted, by rfl, by decide, by decide,
    ⟨{ name := "b", value := .objArray [.objRef 3 0, .objName "Fit"] },
      List.getElem?_mem (n := 0) (by rfl), rfl⟩, by rfl⟩

/-! ## A descent that succeeded went through a well-formed tree -/

theorem LeavesValid.valid_cons {env : Env} {start : Int} {l : Leaf} {ls : List Leaf}
    (h0 : env.pageIsOk (l.toPage start) = true) (h : LeavesValid env (start + 1) ls) :
    LeavesValid env start (l :: ls) := by
  intro i l1 hi
  cases i with
  | zero =>
    simp only [List.getElem?_cons_zero, Option.some.injEq] at hi
    subst hi
    simpa using h0
  | succ i =>
    simp only [List.getElem?_cons_succ] at hi
    have := h i l1 hi
    have e : start + ((i + 1 : Nat) : Int) = start + 1 + (i : Int) := by push_cast; ring
    rw [e]
    exact this

theorem LeavesValid.valid_append {env : Env} {start : Int} {a b : List Leaf}
    (ha : LeavesValid env start a) (hb : LeavesValid env (start + a.length) b) :
    LeavesValid env start (a ++ b) := by
  intro i l hi
  by_cases hlt : i < a.length
  · rw [List.getElem?_append_left hlt] at hi
    exact ha i l hi
  · rw [List.getElem?_append_right (by omega)] at hi
    have := hb (i - a.length) l hi
    have e : start + (a.length : Int) + ((i - a.length : Nat) : Int) = start + (i : Int) := by
      omega
    rw [e] at this
    exact this

theorem readKids_done_leaves (env : Env) (xref : XRef)
    (recurse : Dict → PageAttrs → Int → Catalog → Except Fault (Int × Catalog))
    (recLeaves : Dict → PageAttrs → Option (List Leaf))
    (hrec : ∀ d a s c r c1, 0 ≤ s → recurse d a s c = .ok (r, c1) → 0 ≤ r →
      ∃ ls, recLeaves d a = some ls ∧ LeavesValid env s ls ∧ r = s + ls.length)
    (attrs1 : PageAttrs) :
    ∀ (kids : List Obj) (start : Int) (c : Catalog) (r : Int) (c1 : Catalog), 0 ≤ start →
      readKids env xref recurse attrs1 kids start c = .ok (some r, c1) →
      ∃ ls, kidsLeaves xref recLeaves attrs1 kids = some ls ∧ LeavesValid env start ls ∧
        r = start + ls.length := by
  intro kids
  induction kids with
  | nil =>
    intro start c r c1 _ h
    simp only [readKids, Except.ok.injEq, Prod.mk.injEq, Option.some.injEq] at h
    exact ⟨[], rfl, fun i l hi => by simp at hi, by simp [h.1]⟩
  | cons kidRef rest ih =>
    intro start c r c1 h0 h
    simp only [readKids] at h
    simp only [kidsLeaves]
    split at h
    · rename_i hpage
      rw [if_pos hpage]
      split at h
      · rename_i hvalid
        split at h
        · cases h
        · rename_i c2 hc2
          obtain ⟨ls1, hl1, hv1, hr1⟩ := ih _ _ _ _ (by omega) h
          rw [hl1]
          refine ⟨_, rfl, LeavesValid.valid_cons hvalid hv1, ?_⟩
          simp only [List.length_cons]
          push_cast
          omega
      · simp at h
    · rename_i hpage
      rw [if_neg hpage]
      split at h
      · rename_i hdict
        rw [if_pos hdict]
        split at h
        · cases h
        · rename_i s1 c2 hc2
          split at h
          · simp at h
          · rename_i hs1
            obtain ⟨below, hb, hvb, hrb⟩ := hrec _ _ _ _ _ _ h0 hc2 (by omega)
            obtain ⟨ls1, hl1, hv1, hr1⟩ := ih _ _ _ _ (by omega) h
            rw [hb, hl1]
            refine ⟨_, rfl, LeavesValid.valid_append hvb (by rw [← hrb]; exact hv1), ?_⟩
            simp only [List.length_append]
            push_cast
            omega
      · rename_i hdict
        rw [if_neg hdict]
        exact ih _ _ _ _ h0 h

/-- A call of `readPageTree` that returned a slot and not -1 went through a
tree in which every Pages node has a Kids array and every page is valid; the
slot returned is the start slot plus the number of leaves. -/
theorem readPageTree_done_leaves (env : Env) (xref : XRef) :
    ∀ (fuel : Nat) (d : Dict) (attrs : Option PageAttrs) (start : Int) (c : Catalog)
      (r : Int) (c1 : Catalog), 0 ≤ start →
      readPageTree env xref fuel d attrs start c = .ok (r, c1) → 0 ≤ r →
      ∃ ls, pageLeaves xref fuel d attrs = some ls ∧ LeavesValid env start ls ∧
        r = start + ls.length := by
  intro fuel
  induction fuel with
  | zero => intro d attrs start c r c1 _ h; simp [readPageTree] at h
  | succ fuel ih =>
    intro d attrs start c r c1 h0 h hr
    simp only [readPageTree] at h
    simp only [pageLeaves]
    split at h
    · rename_i hk
      rw [if_pos hk]
      split at h
      · cases h
      · rename_i s1 c2 hkids
        simp only [Except.ok.injEq, Prod.mk.injEq] at h
        obtain ⟨rfl, rfl⟩ := h
        exact readKids_done_leaves env xref _ (fun d a => pageLeaves xref fuel d (some a))
          (fun d a s c r c1 h1 h2 h3 => ih d (some a) s c r c1 h1 h2 h3) _ _ _ _ _ _ h0 hkids
      · simp only [Except.ok.injEq, Prod.mk.injEq] at h
        omega
    · simp only [Except.ok.injEq, Prod.mk.injEq] at h
      omega

/-- A construction that returned with `ok` true passed the three early checks
and went through a well-formed page tree with valid leaves. -/
theorem new_ok_leaves {env : Env} {fuel : Nat} {xref : XRef} {c : Catalog}
    (h : Catalog.new env fuel xref = .ok c) (hok : c.ok = true) :
    xref.getCatalog.isDict = true ∧ xref.pagesDict.isDict = true ∧
    xref.countObj.isNum = true ∧
    ∃ ls, pageLeaves xref fuel xref.pagesDict.getDict none = some ls ∧ LeavesValid env 0 ls := by
  rcases new_eq_ok h with ⟨_, msg, rfl, _⟩ | ⟨h1, h2, h3, c1, n, c2, hc1, hc2, hc3⟩
  · simp [Catalog.failEarly] at hok
  · refine ⟨h1, h2, h3, ?_⟩
    obtain ⟨extra, hf⟩ := readPageTree_flow env xref _ _ _ _ _ _ _ (le_refl _) hc2
    obtain ⟨_, _, _, _, _, hok3, _⟩ := readAux_eq_ok hc3
    simp only at hok3
    have hn : 0 ≤ n := by
      rcases hf.result with ⟨_, hfalse⟩ | ⟨hle, _⟩
      · rw [hok3, hfalse] at hok; cases hok
      · exact hle
    obtain ⟨ls, hl, hv, _⟩ := readPageTree_done_leaves env xref _ _ _ _ _ _ _ (le_refl _) hc2 hn
    exact ⟨ls, hl, hv⟩

/-- C14: after a build that succeeded (`isOk` true), the page tree has a list
of leaves `ls` in reading order, as many as the page count; slot `i` of the
page array holds the page of leaf `i`, and slot `i` of the reference array
holds the reference `(num, gen)` when the Kids element of that leaf is the
indirect reference `num gen R`, and the initial pair (-1, -1) when the Kids
element is not a reference, that is a dictionary given directly. -/
theorem C14_page_refs_identify_kids (env : Env) (fuel : Nat) (xref : XRef) (c : Catalog)
    (h : Catalog.new env fuel xref = .ok c) (hok : c.isOk = true) :
    ∃ ls, pageLeaves xref fuel xref.pagesDict.getDict none = some ls ∧
      c.getNumPages = ls.length ∧
      ∀ (i : Nat) (l : Leaf), ls[i]? = some l →
        c.pages[i]? = some (some (l.toPage i)) ∧
        (∀ num gen, l.kidRef = .objRef num gen →
          c.pageRefs[i]? = some { num := num, gen := gen }) ∧
        (l.kidRef.isRef = false → c.pageRefs[i]? = some { num := -1, gen := -1 }) := by
  obtain ⟨h1, h2, h3, ls, hl, hv⟩ := new_ok_leaves h hok
  obtain ⟨_, hnp, hs, _⟩ := new_wellFormed_eq env fuel xref ls c h1 h2 h3 hl hv h
  refine ⟨ls, hl, hnp, ?_⟩
  intro i l hi
  obtain ⟨hp, hr⟩ := hs i l hi
  simp only [zero_add, Int.toNat_ofNat] at hp hr
  refine ⟨hp, ?_, ?_⟩
  · intro num gen hk
    rw [hr, hk]; rfl
  · intro hk
    rw [hr]
    cases hkr : l.kidRef <;> simp_all [Obj.kidRefOf, Obj.isRef, Ref.unset]

/-- C14, witness: in the nested example document the first two pages come
from the references 3 0 R and 5 0 R and the third from a dictionary given
directly in the Kids array. -/
theorem C14_page_refs_identify_kids_witness :
    ∃ ls, pageLeaves (docNested (.objInt 5)) 2 (docNested (.objInt 5)).pagesDict.getDict none
        = some ls ∧
      (Catalog.built exampleEnv 2 (docNested (.objInt 5))).getNumPages = ls.length ∧
      ∀ (i : Nat) (l : Leaf), ls[i]? = some l →
        (Catalog.built exampleEnv 2 (docNested (.objInt 5))).pages[i]?
          = some (some (l.toPage i)) ∧
        (∀ num gen, l.kidRef = .objRef num gen →
          (Catalog.built exampleEnv 2 (docNested (.objInt 5))).pageRefs[i]?
            = some { num := num, gen := gen }) ∧
        (l.kidRef.isRef = false →
          (Catalog.built exampleEnv 2 (docNested (.objInt 5))).pageRefs[i]?
            = some { num := -1, gen := -1 }) :=
  C14_page_refs_identify_kids exampleEnv 2 (docNested (.objInt 5))
    (Catalog.built exampleEnv 2 (docNested (.objInt 5))) (by rfl) (by rfl)

/-! ## The capacity stays when the pages fit -/

theorem clearSlots_log : ∀ (k : Nat) (c : Catalog) (j : Int),
    Catalog.clearSlots c j k = (Catalog.clearSlots c.noLog j k).map (Catalog.withLog c.log) := by
  intro k
  induction k with
  | zero => intro c j; rfl
  | succ k ih =>
    intro c j
    simp only [Catalog.clearSlots, Catalog.noLog]
    cases hp : store c.pages j none with
    | error f => rfl
    | ok pages =>
      cases hr : store c.pageRefs j Ref.unset with
      | error f => rfl
      | ok pageRefs =>
        simp only
        rw [ih]
        rfl

theorem grow_log (env : Env) (c : Catalog) :
    Catalog.grow env c = (Catalog.grow env c.noLog).map (Catalog.withLog c.log) := by
  simp only [Catalog.grow, Catalog.noLog]
  cases hp : greallocn env.negAllocAborts env.junkPage c.pages (c.pagesSize + 32) with
  | error f => rfl
  | ok pages =>
    cases hr : greallocn env.negAllocAborts env.junkRef c.pageRefs (c.pagesSize + 32) with
    | error f => rfl
    | ok pageRefs =>
      simp only
      rw [clearSlots_log]
      rfl

theorem storePage_log (env : Env) (c : Catalog) (start : Int) (page : Page) (kidRef : Obj) :
    Catalog.storePage env c start page kidRef =
      (Catalog.storePage env c.noLog start page kidRef).map (Catalog.withLog c.log) := by
  have hg : (if start ≥ c.pagesSize then Catalog.grow env c else .ok c) =
      (if start ≥ c.noLog.pagesSize then Catalog.grow env c.noLog else .ok c.noLog).map
        (Catalog.withLog c.log) := by
    by_cases h : start ≥ c.pagesSize
    · have h' : start ≥ c.noLog.pagesSize := h
      rw [if_pos h, if_pos h']
      exact grow_log env c
    · have h' : ¬ start ≥ c.noLog.pagesSize := h
      rw [if_neg h, if_neg h']
      rfl
  unfold Catalog.storePage
  rw [hg]
  cases hc : (if start ≥ c.noLog.pagesSize then Catalog.grow env c.noLog else .ok c.noLog) with
  | error f => rfl
  | ok c1 =>
    simp only [Except.map, Catalog.withLog]
    cases hp : store c1.pages start (some page) with
    | error f => rfl
    | ok pages =>
      simp only
      cases kidRef with
      | objRef num gen =>
        simp only
        cases hr : store c1.pageRefs start { num := num, gen := gen } with
        | error f => rfl
        | ok pageRefs => rfl
      | _ => rfl

/-- Two catalogs that differ in the log only give the same outcome of
`storePage`, apart from the log. -/
theorem storePage_congr (env : Env) {c c1 : Catalog} (h : c.noLog = c1.noLog) (start : Int)
    (page : Page) (kidRef : Obj) :
    (Catalog.storePage env c start page kidRef).map Catalog.noLog =
      (Catalog.storePage env c1 start page kidRef).map Catalog.noLog := by
  rw [storePage_log env c, storePage_log env c1, h]
  cases Catalog.storePage env c1.noLog start page kidRef with
  | error f => rfl
  | ok c2 => rfl

theorem isDict_of_isDictOf {t : String} {o : Obj} (h : o.isDictOf t = true) :
    o.isDict = true := by
  cases o <;> simp_all [Obj.isDictOf, Obj.isDict]

theorem dropLog_ok_inj {α : Type} {a b : α} {c c1 : Catalog}
    (h : dropLog (Except.ok (a, c) : Except Fault (α × Catalog)) = dropLog (.ok (b, c1))) :
    a = b ∧ c.noLog = c1.noLog := by
  simp only [dropLog, Except.ok.injEq, Prod.mk.injEq] at h
  exact h

theorem readKids_congr (env : Env) (xref : XRef)
    (recurse : Dict → PageAttrs → Int → Catalog → Except Fault (Int × Catalog))
    (hrec : ∀ d a s c c1, c.noLog = c1.noLog →
      dropLog (recurse d a s c) = dropLog (recurse d a s c1))
    (attrs1 : PageAttrs) :
    ∀ (kids : List Obj) (start : Int) (c c1 : Catalog), c.noLog = c1.noLog →
      dropLog (readKids env xref recurse attrs1 kids start c) =
        dropLog (readKids env xref recurse attrs1 kids start c1) := by
  intro kids
  induction kids with
  | nil =>
    intro start c c1 h
    simp only [readKids, dropLog, h]
  | cons kidRef rest ih =>
    intro start c c1 h
    simp only [readKids]
    by_cases hpage : (kidRef.fetch xref).isDictOf "Page" = true
    · rw [if_pos hpage, if_pos hpage]
      by_cases hvalid : env.pageIsOk
          { num := start + 1, pageDict := (kidRef.fetch xref).getDict,
            attrs := PageAttrs.merge xref (some attrs1) (kidRef.fetch xref).getDict } = true
      · rw [if_pos hvalid, if_pos hvalid]
        have hs := storePage_congr env h start
          { num := start + 1, pageDict := (kidRef.fetch xref).getDict,
            attrs := PageAttrs.merge xref (some attrs1) (kidRef.fetch xref).getDict } kidRef
        cases h1 : Catalog.storePage env c start
            { num := start + 1, pageDict := (kidRef.fetch xref).getDict,
              attrs := PageAttrs.merge xref (some attrs1) (kidRef.fetch xref).getDict } kidRef with
        | error f =>
          cases h2 : Catalog.storePage env c1 start
              { num := start + 1, pageDict := (kidRef.fetch xref).getDict,
                attrs := PageAttrs.merge xref (some attrs1) (kidRef.fetch xref).getDict }
              kidRef with
          | error f1 =>
            rw [h1, h2] at hs
            simp only [Except.map, Except.error.injEq] at hs
            simp only [dropLog, hs]
          | ok c3 =>
            rw [h1, h2] at hs
            simp [Except.map] at hs
        | ok c2 =>
          cases h2 : Catalog.storePage env c1 start
              { num := start + 1, pageDict := (kidRef.fetch xref).getDict,
                attrs := PageAttrs.merge xref (some attrs1) (kidRef.fetch xref).getDict }
              kidRef with
          | error f1 =>
            rw [h1, h2] at hs
            simp [Except.map] at hs
          | ok c3 =>
            rw [h1, h2] at hs
            simp only [Except.map, Except.ok.injEq] at hs
            exact ih _ _ _ hs
      · rw [if_neg hvalid, if_neg hvalid]
        simp only [dropLog, h]
    · rw [if_neg hpage, if_neg hpage]
      by_cases hdict : (kidRef.fetch xref).isDict = true
      · rw [if_pos hdict, if_pos hdict]
        have hr := hrec (kidRef.fetch xref).getDict attrs1 start c c1 h
        cases h1 : recurse (kidRef.fetch xref).getDict attrs1 start c with
        | error f =>
          cases h2 : recurse (kidRef.fetch xref).getDict attrs1 start c1 with
          | error f1 =>
            rw [h1, h2] at hr
            simp only [dropLog, Except.error.injEq] at hr
            simp only [dropLog, hr]
          | ok p2 =>
            rw [h1, h2] at hr
            simp [dropLog] at hr
        | ok p1 =>
          cases h2 : recurse (kidRef.fetch xref).getDict attrs1 start c1 with
          | error f1 =>
            rw [h1, h2] at hr
            simp [dropLog] at hr
          | ok p2 =>
            obtain ⟨s1, c2⟩ := p1
            obtain ⟨s2, c3⟩ := p2
            rw [h1, h2] at hr
            obtain ⟨hs, hc⟩ := dropLog_ok_inj hr
            subst hs
            simp only
            by_cases hneg : s1 < 0
            · rw [if_pos hneg, if_pos hneg]
              simp only [dropLog, hc]
            · rw [if_neg hneg, if_neg hneg]
              exact ih _ _ _ hc
      · rw [if_neg hdict, if_neg hdict]
        exact ih _ _ _ h

theorem readPageTree_congr (env : Env) (xref : XRef) :
    ∀ (fuel : Nat) (d : Dict) (attrs : Option PageAttrs) (start : Int) (c c1 : Catalog),
      c.noLog = c1.noLog →
      dropLog (readPageTree env xref fuel d attrs start c) =
        dropLog (readPageTree env xref fuel d attrs start c1) := by
  intro fuel
  induction fuel with
  | zero => intro d attrs start c c1 _; rfl
  | succ fuel ih =>
    intro d attrs start c c1 h
    simp only [readPageTree]
    by_cases hk : (Dict.lookup xref d "Kids").isArray = true
    · rw [if_pos hk, if_pos hk]
      have hr := readKids_congr env xref
        (fun d a s c1 => readPageTree env xref fuel d (some a) s c1)
        (fun d a s c c1 hc => ih d (some a) s c c1 hc)
        (PageAttrs.merge xref attrs d) (Dict.lookup xref d "Kids").getArray start c c1 h
      cases h1 : readKids env xref (fun d a s c1 => readPageTree env xref fuel d (some a) s c1)
          (PageAttrs.merge xref attrs d) (Dict.lookup xref d "Kids").getArray start c with
      | error f =>
        cases h2 : readKids env xref
            (fun d a s c1 => readPageTree env xref fuel d (some a) s c1)
            (PageAttrs.merge xref attrs d) (Dict.lookup xref d "Kids").getArray start c1 with
        | error f1 =>
          rw [h1, h2] at hr
          simp only [dropLog, Except.error.injEq] at hr
          simp only [dropLog, hr]
        | ok p2 =>
          rw [h1, h2] at hr
          simp [dropLog] at hr
      | ok p1 =>
        cases h2 : readKids env xref
            (fun d a s c1 => readPageTree env xref fuel d (some a) s c1)
            (PageAttrs.merge xref attrs d) (Dict.lookup xref d "Kids").getArray start c1 with
        | error f1 =>
          rw [h1, h2] at hr
          simp [dropLog] at hr
        | ok p2 =>
          obtain ⟨r1, c2⟩ := p1
          obtain ⟨r2, c3⟩ := p2
          rw [h1, h2] at hr
          obtain ⟨hs, hc⟩ := dropLog_ok_inj hr
          subst hs
          cases r1 with
          | some s1 => simp only [dropLog, hc]
          | none =>
            simp only [dropLog, Catalog.noLog, Except.ok.injEq, Prod.mk.injEq, true_and]
            have := congrArg (fun x : Catalog => { x with ok := false }) hc
            simpa [Catalog.noLog] using this
    · rw [if_neg hk, if_neg hk]
      simp only [dropLog, Catalog.noLog, Except.ok.injEq, Prod.mk.injEq, true_and]
      have := congrArg (fun x : Catalog => { x with ok := false }) h
      simpa [Catalog.noLog] using this

/-- Removing the kids that are not dictionaries from a Kids array changes
nothing of what the loop does but the log. -/
theorem readKids_filter (env : Env) (xref : XRef)
    (recurse : Dict → PageAttrs → Int → Catalog → Except Fault (Int × Catalog))
    (hrec : ∀ d a s c c1, c.noLog = c1.noLog →
      dropLog (recurse d a s c) = dropLog (recurse d a s c1))
    (attrs1 : PageAttrs) :
    ∀ (kids : List Obj) (start : Int) (c : Catalog),
      dropLog (readKids env xref recurse attrs1 kids start c) =
        dropLog (readKids env xref recurse attrs1
          (kids.filter fun k => (k.fetch xref).isDict) start c) := by
  intro kids
  induction kids with
  | nil => intro start c; rfl
  | cons kidRef rest ih =>
    intro start c
    by_cases hdict : (kidRef.fetch xref).isDict = true
    · rw [List.filter_cons_of_pos (by simpa using hdict)]
      simp only [readKids]
      by_cases hpage : (kidRef.fetch xref).isDictOf "Page" = true
      · rw [if_pos hpage, if_pos hpage]
        split
        · cases Catalog.storePage env c start
              { num := start + 1, pageDict := (kidRef.fetch xref).getDict,
                attrs := PageAttrs.merge xref (some attrs1) (kidRef.fetch xref).getDict }
              kidRef with
          | error f => rfl
          | ok c2 => exact ih _ _
        · rfl
      · rw [if_neg hpage, if_neg hpage, if_pos hdict, if_pos hdict]
        cases recurse (kidRef.fetch xref).getDict attrs1 start c with
        | error f => rfl
        | ok p =>
          obtain ⟨s1, c2⟩ := p
          simp only
          split
          · rfl
          · exact ih _ _
    · rw [List.filter_cons_of_neg (by simpa using hdict)]
      have hpage : ¬ (kidRef.fetch xref).isDictOf "Page" = true :=
        fun hp => hdict (isDict_of_isDictOf hp)
      simp only [readKids]
      rw [if_neg hpage, if_neg hdict]
      rw [← ih start c]
      exact readKids_congr env xref recurse hrec attrs1 rest start _ _ rfl

/-- C15: for every Kids array, the loop of `readPageTree` over the array and
the loop over the array without the kids that are not dictionaries end the
same way: when one returns so does the other, with the same next index (or
the same jump to the error labels), the same page array, reference array,
capacity and `ok`; when one ends in a fault so does the other.  A kid that is
not a dictionary only adds one message to the log. -/
theorem C15_non_dict_kids_skipped (env : Env) (xref : XRef) (fuel : Nat) (attrs1 : PageAttrs)
    (kids : List Obj) (start : Int) (c : Catalog) :
    (∀ res c1,
      readKids env xref (fun d a s c1 => readPageTree env xref fuel d (some a) s c1) attrs1
        kids start c = .ok (res, c1) →
      ∃ c2, readKids env xref (fun d a s c1 => readPageTree env xref fuel d (some a) s c1)
          attrs1 (kids.filter fun k => (k.fetch xref).isDict) start c = .ok (res, c2) ∧
        c2.pages = c1.pages ∧ c2.pageRefs = c1.pageRefs ∧ c2.pagesSize = c1.pagesSize ∧
        c2.ok = c1.ok) ∧
    (∀ res c2,
      readKids env xref (fun d a s c1 => readPageTree env xref fuel d (some a) s c1) attrs1
        (kids.filter fun k => (k.fetch xref).isDict) start c = .ok (res, c2) →
      ∃ c1, readKids env xref (fun d a s c1 => readPageTree env xref fuel d (some a) s c1)
          attrs1 kids start c = .ok (res, c1) ∧
        c2.pages = c1.pages ∧ c2.pageRefs = c1.pageRefs ∧ c2.pagesSize = c1.pagesSize ∧
        c2.ok = c1.ok) ∧
    (∀ f,
      readKids env xref (fun d a s c1 => readPageTree env xref fuel d (some a) s c1) attrs1
        kids start c = .error f ↔
      readKids env xref (fun d a s c1 => readPageTree env xref fuel d (some a) s c1) attrs1
        (kids.filter fun k => (k.fetch xref).isDict) start c = .error f) ∧
    (∀ k rest, (k.fetch xref).isDict = false →
      readKids env xref (fun d a s c1 => readPageTree env xref fuel d (some a) s c1) attrs1
        (k :: rest) start c =
      readKids env xref (fun d a s c1 => readPageTree env xref fuel d (some a) s c1) attrs1
        rest start
        { c with log := c.log ++ [.kidWrongType (start + 1) (k.fetch xref).getType] }) := by
  have key := readKids_filter env xref
    (fun d a s c1 => readPageTree env xref fuel d (some a) s c1)
    (fun d a s c c1 hc => readPageTree_congr env xref fuel d (some a) s c c1 hc)
    attrs1 kids start c
  have fields : ∀ {x y : Catalog}, x.noLog = y.noLog →
      y.pages = x.pages ∧ y.pageRefs = x.pageRefs ∧ y.pagesSize = x.pagesSize ∧ y.ok = x.ok := by
    intro x y h
    exact ⟨(congrArg Catalog.pages h).symm, (congrArg Catalog.pageRefs h).symm,
      (congrArg Catalog.pagesSize h).symm, (congrArg Catalog.ok h).symm⟩
  refine ⟨?_, ?_, ?_, ?_⟩
  · intro res c1 h1
    rw [h1] at key
    cases h2 : readKids env xref (fun d a s c1 => readPageTree env xref fuel d (some a) s c1)
        attrs1 (kids.filter fun k => (k.fetch xref).isDict) start c with
    | error f =>
      rw [h2] at key
      simp [dropLog] at key
    | ok p =>
      obtain ⟨res2, c2⟩ := p
      rw [h2] at key
      obtain ⟨hr, hc⟩ := dropLog_ok_inj key
      subst hr
      exact ⟨c2, rfl, fields hc⟩
  · intro res c2 h2
    rw [h2] at key
    cases h1 : readKids env xref (fun d a s c1 => readPageTree env xref fuel d (some a) s c1)
        attrs1 kids start c with
    | error f =>
      rw [h1] at key
      simp [dropLog] at key
    | ok p =>
      obtain ⟨res1, c1⟩ := p
      rw [h1] at key
      obtain ⟨hr, hc⟩ := dropLog_ok_inj key
      subst hr
      exact ⟨c1, rfl, fields hc⟩
  · intro f
    constructor
    · intro h1
      rw [h1] at key
      cases h2 : readKids env xref (fun d a s c1 => readPageTree env xref fuel d (some a) s c1)
          attrs1 (kids.filter fun k => (k.fetch xref).isDict) start c with
      | error f1 =>
        rw [h2] at key
        simp only [dropLog, Except.error.injEq] at key
        rw [key]
      | ok p =>
        rw [h2] at key
        simp [dropLog] at key
    · intro h2
      rw [h2] at key
      cases h1 : readKids env xref (fun d a s c1 => readPageTree env xref fuel d (some a) s c1)
          attrs1 kids start c with
      | error f1 =>
        rw [h1] at key
        simp only [dropLog, Except.error.injEq] at key
        rw [key]
      | ok p =>
        rw [h1] at key
        simp [dropLog] at key
  · intro k rest hk
    have hpage : ¬ (k.fetch xref).isDictOf "Page" = true := by
      intro hp
      have := isDict_of_isDictOf hp
      rw [hk] at this
      cases this
    simp only [readKids]
    rw [if_neg hpage]
    simp [hk]

/-! ## Inherited attributes -/

theorem overlayChain_append (xref : XRef) : ∀ (ds : List Dict) (base : Option PageAttrs)
    (d : Dict),
    overlayChain xref base (ds ++ [d]) = some (PageAttrs.merge xref (overlayChain xref base ds) d) := by
  intro ds
  induction ds with
  | nil => intro base d; rfl
  | cons d0 ds ih =>
    intro base d
    simp only [List.cons_append, overlayChain]
    exact ih _ d

theorem pathKids_leaves (xref : XRef) (recL : Dict → PageAttrs → Option (List Leaf))
    (recP : Dict → Option (List PathLeaf)) (chain : List Dict) (attrs1 : PageAttrs)
    (hchain : overlayChain xref none chain = some attrs1)
    (hrec : ∀ d, recL d attrs1 = (recP d).map (List.map (PathLeaf.toLeaf xref))) :
    ∀ kids : List Obj,
      kidsLeaves xref recL attrs1 kids =
        (pathKids xref recP chain kids).map (List.map (PathLeaf.toLeaf xref)) := by
  intro kids
  induction kids with
  | nil => rfl
  | cons kidRef rest ih =>
    simp only [kidsLeaves, pathKids]
    by_cases hpage : (kidRef.fetch xref).isDictOf "Page" = true
    · rw [if_pos hpage, if_pos hpage, ih]
      cases pathKids xref recP chain rest with
      | none => rfl
      | some ls =>
        simp only [Option.map_some', List.map_cons, PathLeaf.toLeaf, hchain]
    · rw [if_neg hpage, if_neg hpage]
      by_cases hdict : (kidRef.fetch xref).isDict = true
      · rw [if_pos hdict, if_pos hdict, ih, hrec]
        cases recP (kidRef.fetch xref).getDict with
        | none => rfl
        | some below =>
          cases pathKids xref recP chain rest with
          | none => rfl
          | some ls => simp
      · rw [if_neg hdict, if_neg hdict, ih]

/-- The leaves of the page tree are the leaves with chains, each given the
attributes of its chain. -/
theorem pathLeaves_leaves (xref : XRef) : ∀ (fuel : Nat) (above : List Dict) (d : Dict),
    pageLeaves xref fuel d (overlayChain xref none above) =
      (pathLeaves xref fuel above d).map (List.map (PathLeaf.toLeaf xref)) := by
  intro fuel
  induction fuel with
  | zero => intro above d; rfl
  | succ fuel ih =>
    intro above d
    simp only [pageLeaves, pathLeaves]
    by_cases hk : (Dict.lookup xref d "Kids").isArray = true
    · rw [if_pos hk, if_pos hk]
      refine pathKids_leaves xref _ _ (above ++ [d]) _ (overlayChain_append xref above none d) ?_ _
      intro d1
      have := ih (above ++ [d]) d1
      rw [overlayChain_append] at this
      exact this
    · rw [if_neg hk, if_neg hk]
      rfl

theorem pathKids_chain (xref : XRef) (recP : Dict → Option (List PathLeaf)) (chain : List Dict)
    (hrec : ∀ d ls, recP d = some ls → ∀ pl ∈ ls, ∃ more, pl.chain = chain ++ more) :
    ∀ (kids : List Obj) (ls : List PathLeaf), pathKids xref recP chain kids = some ls →
      ∀ pl ∈ ls, ∃ more, pl.chain = chain ++ more := by
  intro kids
  induction kids with
  | nil =>
    intro ls h pl hpl
    simp only [pathKids, Option.some.injEq] at h
    subst h
    cases hpl
  | cons kidRef rest ih =>
    intro ls h pl hpl
    simp only [pathKids] at h
    split at h
    · split at h
      · rename_i ls1 hls1
        simp only [Option.some.injEq] at h
        subst h
        rcases List.mem_cons.1 hpl with hpl | hpl
        · subst hpl
          exact ⟨[], by simp⟩
        · exact ih ls1 hls1 pl hpl
      · cases h
    · split at h
      · split at h
        · rename_i below ls1 hb hls1
          simp only [Option.some.injEq] at h
          subst h
          rcases List.mem_append.1 hpl with hpl | hpl
          · exact hrec _ _ hb pl hpl
          · exact ih ls1 hls1 pl hpl
        · cases h
      · exact ih ls h pl hpl

/-- The chain of every leaf below a node starts with the chain above the node
and the node itself. -/
theorem pathLeaves_chain (xref : XRef) : ∀ (fuel : Nat) (above : List Dict) (d : Dict)
    (ls : List PathLeaf), pathLeaves xref fuel above d = some ls →
    ∀ pl ∈ ls, ∃ more, pl.chain = above ++ d :: more := by
  intro fuel
  induction fuel with
  | zero => intro above d ls h; simp [pathLeaves] at h
  | succ fuel ih =>
    intro above d ls h pl hpl
    simp only [pathLeaves] at h
    split at h
    · obtain ⟨more, hm⟩ := pathKids_chain xref _ (above ++ [d])
        (fun d1 ls1 h1 pl1 hpl1 => by
          obtain ⟨more, hm⟩ := ih (above ++ [d]) d1 ls1 h1 pl1 hpl1
          exact ⟨d1 :: more, hm⟩) _ ls h pl hpl
      exact ⟨more, by rw [hm]; simp⟩
    · cases h

theorem nearestDef_skip (xref : XRef) (key : String) (dflt : Obj) : ∀ (ds rest : List Dict),
    (∀ d ∈ ds, (Dict.lookup xref d key).isNull = true) →
    nearestDef xref key (ds ++ rest) dflt = nearestDef xref key rest dflt := by
  intro ds
  induction ds with
  | nil => intro rest _; rfl
  | cons d ds ih =>
    intro rest h
    simp only [List.cons_append, nearestDef, h d (List.mem_cons_self _ _), if_true]
    exact ih rest (fun d1 hd1 => h d1 (List.mem_cons_of_mem _ hd1))

/-- Nearest definition wins: each of the four attributes handed down after a
chain is the value of the nearest dictionary of the chain that has the key,
else the default. -/
theorem overlayChain_nearest (xref : XRef) (chain : List Dict) :
    ((overlayChain xref none chain).getD PageAttrs.defaults).mediaBox =
      nearestDef xref "MediaBox" chain.reverse PageAttrs.defaults.mediaBox ∧
    ((overlayChain xref none chain).getD PageAttrs.defaults).cropBox =
      nearestDef xref "CropBox" chain.reverse PageAttrs.defaults.cropBox ∧
    ((overlayChain xref none chain).getD PageAttrs.defaults).resources =
      nearestDef xref "Resources" chain.reverse PageAttrs.defaults.resources ∧
    ((overlayChain xref none chain).getD PageAttrs.defaults).rotate =
      nearestDef xref "Rotate" chain.reverse PageAttrs.defaults.rotate := by
  induction chain using List.reverseRecOn with
  | nil => exact ⟨rfl, rfl, rfl, rfl⟩
  | append_singleton ds d ih =>
    obtain ⟨h1, h2, h3, h4⟩ := ih
    rw [overlayChain_append, List.reverse_append]
    simp only [Option.getD_some, PageAttrs.merge, PageAttrs.pick, List.reverse_cons,
      List.reverse_nil, List.nil_append, List.singleton_append, nearestDef, h1, h2, h3, h4]
    exact ⟨rfl, rfl, rfl, rfl⟩

theorem merge_nearest (xref : XRef) (chain : List Dict) (d : Dict) :
    (PageAttrs.merge xref (overlayChain xref none chain) d).mediaBox =
      nearestDef xref "MediaBox" (d :: chain.reverse) PageAttrs.defaults.mediaBox ∧
    (PageAttrs.merge xref (overlayChain xref none chain) d).cropBox =
      nearestDef xref "CropBox" (d :: chain.reverse) PageAttrs.defaults.cropBox ∧
    (PageAttrs.merge xref (overlayChain xref none chain) d).resources =
      nearestDef xref "Resources" (d :: chain.reverse) PageAttrs.defaults.resources ∧
    (PageAttrs.merge xref (overlayChain xref none chain) d).rotate =
      nearestDef xref "Rotate" (d :: chain.reverse) PageAttrs.defaults.rotate := by
  obtain ⟨h1, h2, h3, h4⟩ := overlayChain_nearest xref chain
  simp only [PageAttrs.merge, PageAttrs.pick, nearestDef, h1, h2, h3, h4]
  refine ⟨?_, ?_, ?_, ?_⟩ <;> trivial

/-- C11: after a build that succeeded, the page tree has its leaves `pls` in
reading order, each with the chain of Pages dictionaries from the top node to
its parent.  The page in slot `i` was constructed from the dictionary of leaf
`i` with the attributes obtained by merging, in this order, the dictionaries of
its chain and then its own dictionary over the defaults; so each of the four
inheritable attributes is the value of the nearest dictionary, from the page
upward, that has the key, else the default, and it depends on the own chain
of the page only, not on any sibling.  In particular a MediaBox that only the
top node sets is the MediaBox of every page whose other ancestors and own
dictionary have none. -/
theorem C11_attributes_inherited_along_chain (env : Env) (fuel : Nat) (xref : XRef)
    (c : Catalog) (h : Catalog.new env fuel xref = .ok c) (hok : c.isOk = true) :
    ∃ pls, pathLeaves xref fuel [] xref.pagesDict.getDict = some pls ∧
      c.getNumPages = pls.length ∧
      ∀ (i : Nat) (pl : PathLeaf), pls[i]? = some pl →
        ∃ page more, c.pages[i]? = some (some page) ∧ page.pageDict = pl.pageDict ∧
          pl.chain = xref.pagesDict.getDict :: more ∧
          page.attrs = PageAttrs.merge xref (overlayChain xref none pl.chain) pl.pageDict ∧
          page.attrs.mediaBox = nearestDef xref "MediaBox" (pl.pageDict :: pl.chain.reverse)
            PageAttrs.defaults.mediaBox ∧
          page.attrs.cropBox = nearestDef xref "CropBox" (pl.pageDict :: pl.chain.reverse)
            PageAttrs.defaults.cropBox ∧
          page.attrs.resources = nearestDef xref "Resources" (pl.pageDict :: pl.chain.reverse)
            PageAttrs.defaults.resources ∧
          page.attrs.rotate = nearestDef xref "Rotate" (pl.pageDict :: pl.chain.reverse)
            PageAttrs.defaults.rotate ∧
          ((∀ d ∈ pl.pageDict :: more.reverse, (Dict.lookup xref d "MediaBox").isNull = true) →
            (Dict.lookup xref xref.pagesDict.getDict "MediaBox").isNull = false →
            page.attrs.mediaBox = Dict.lookup xref xref.pagesDict.getDict "MediaBox") := by
  obtain ⟨h1, h2, h3, ls, hl, hv⟩ := new_ok_leaves h hok
  obtain ⟨_, hnp, hs, _⟩ := new_wellFormed_eq env fuel xref ls c h1 h2 h3 hl hv h
  have hpath := pathLeaves_leaves xref fuel [] xref.pagesDict.getDict
  simp only [overlayChain] at hpath
  rw [hl] at hpath
  cases hp : pathLeaves xref fuel [] xref.pagesDict.getDict with
  | none =>
    rw [hp] at hpath
    cases hpath
  | some pls =>
    rw [hp] at hpath
    simp only [Option.map_some', Option.some.injEq] at hpath
    subst hpath
    refine ⟨pls, rfl, by simp [Catalog.getNumPages, hnp], ?_⟩
    intro i pl hi
    have hli : (List.map (PathLeaf.toLeaf xref) pls)[i]? = some (pl.toLeaf xref) := by
      rw [List.getElem?_map, hi]
      rfl
    have hpage := (hs i _ hli).1
    simp only [zero_add, Int.toNat_ofNat] at hpage
    obtain ⟨more, hmore⟩ := pathLeaves_chain xref fuel [] _ pls hp pl (List.getElem?_mem hi)
    simp only [List.nil_append] at hmore
    obtain ⟨m1, m2, m3, m4⟩ := merge_nearest xref pl.chain pl.pageDict
    refine ⟨(pl.toLeaf xref).toPage i, more, hpage, rfl, hmore, rfl, m1, m2, m3, m4, ?_⟩
    intro hnull hroot
    have e : (PathLeaf.toLeaf xref pl).toPage (i : Int) =
        { num := (i : Int) + 1, pageDict := pl.pageDict,
          attrs := PageAttrs.merge xref (overlayChain xref none pl.chain) pl.pageDict } := rfl
    rw [e]
    simp only
    rw [m1, hmore, List.reverse_cons, ← List.cons_append,
      nearestDef_skip xref "MediaBox" _ _ _ hnull]
    simp only [nearestDef, hroot, Bool.false_eq_true, if_false]

/-- C11, witness: in the example document the top node sets the MediaBox 100
and one nested node sets 200, in which one page sets 300: the four pages have
the boxes 100, 200, 300 and, after the nested node, 100 again. -/
theorem C11_attributes_inherited_along_chain_witness :
    (∃ pls, pathLeaves docInherit 2 [] docInherit.pagesDict.getDict = some pls ∧
      (Catalog.built exampleEnv 2 docInherit).getNumPages = pls.length) ∧
    (Catalog.built exampleEnv 2 docInherit).pages.map
        (fun p => p.map fun q => q.attrs.mediaBox) =
      [some (exampleBox 100), some (exampleBox 200), some (exampleBox 300),
        some (exampleBox 100)] := by
  obtain ⟨pls, hp, hn, _⟩ := C11_attributes_inherited_along_chain exampleEnv 2 docInherit
    (Catalog.built exampleEnv 2 docInherit) (by rfl) (by rfl)
  exact ⟨⟨pls, hp, hn⟩, by rfl⟩

/-- C15, witness: in the example document a Kids array that starts with the
integer 5 is read as the array without it, on a catalog whose log has one more
message. -/
theorem C15_non_dict_kids_skipped_witness :
    ((Obj.objInt 5).fetch docTwice).isDict = false ∧
    readKids exampleEnv docTwice
        (fun d a s c1 => readPageTree exampleEnv docTwice 1 d (some a) s c1)
        PageAttrs.defaults (.objInt 5 :: [.objRef 3 0]) 0 (Catalog.built exampleEnv 2 docTwice) =
      readKids exampleEnv docTwice
        (fun d a s c1 => readPageTree exampleEnv docTwice 1 d (some a) s c1)
        PageAttrs.defaults [.objRef 3 0] 0
        { Catalog.built exampleEnv 2 docTwice with
          log := (Catalog.built exampleEnv 2 docTwice).log ++
            [.kidWrongType (0 + 1) ((Obj.objInt 5).fetch docTwice).getType] } :=
  ⟨rfl, (C15_non_dict_kids_skipped exampleEnv docTwice 1 PageAttrs.defaults
    [.objInt 5, .objRef 3 0] 0 (Catalog.built exampleEnv 2 docTwice)).2.2.2
    (.objInt 5) [.objRef 3 0] rfl⟩

/-! ## The walk until the first failure -/

/-- A walk that did not visit every kid gives the value -1. -/
theorem WalkEnd.value_fail {e : WalkEnd} (h : e ≠ .done) (s : Int) (n : Nat) :
    e.value s n = -1 := by
  cases e
  · exact absurd rfl h
  · rfl
  · rfl

/-- The loop of `readPageTree` does what the walk over the kids describes, when
the recursive call does what the walk below a node describes. -/
theorem readKids_walk (env : Env) (xref : XRef)
    (recurse : Dict → PageAttrs → Int → Catalog → Except Fault (Int × Catalog))
    (recW : Dict → PageAttrs → Int → Option (List Leaf × WalkEnd))
    (hrec : ∀ d a s c, Catalog.MemInv c s →
      (∀ ls e, recW d a s = some (ls, e) →
        ∃ c1, recurse d a s c = .ok (e.value s ls.length, c1) ∧
          TreeMem c s c1 (s + ls.length) ∧ LeavesStored c1 s ls) ∧
      (recW d a s = none → recurse d a s c = .error .outOfFuel))
    (attrs1 : PageAttrs) :
    ∀ (kids : List Obj) (start : Int) (c : Catalog), Catalog.MemInv c start →
      (∀ ls e, kidsWalk env xref recW attrs1 kids start = some (ls, e) →
        ∃ c1, readKids env xref recurse attrs1 kids start c =
            .ok ((if e = .done then some (start + ls.length) else none), c1) ∧
          TreeMem c start c1 (start + ls.length) ∧ LeavesStored c1 start ls) ∧
      (kidsWalk env xref recW attrs1 kids start = none →
        readKids env xref recurse attrs1 kids start c = .error .outOfFuel) := by
  intro kids
  induction kids with
  | nil =>
    intro start c hinv
    refine ⟨?_, ?_⟩
    · intro ls e hw
      simp only [kidsWalk, Option.some.injEq, Prod.mk.injEq] at hw
      obtain ⟨rfl, rfl⟩ := hw
      exact ⟨c, by simp [readKids], by simpa using TreeMem.treeMem_refl hinv,
        fun i l hi => by simp at hi⟩
    · intro hw
      simp [kidsWalk] at hw
  | cons kidRef rest ih =>
    intro start c hinv
    by_cases hpage : (kidRef.fetch xref).isDictOf "Page" = true
    · by_cases hvalid : env.pageIsOk
          { num := start + 1, pageDict := (kidRef.fetch xref).getDict,
            attrs := PageAttrs.merge xref (some attrs1) (kidRef.fetch xref).getDict } = true
      · obtain ⟨c2, hc2, hinv2, _, _, hpg, hrf⟩ := storePage_spec env c start
          { num := start + 1, pageDict := (kidRef.fetch xref).getDict,
            attrs := PageAttrs.merge xref (some attrs1) (kidRef.fetch xref).getDict } kidRef hinv
        have hm2 : TreeMem c start c2 (start + 1) := by
          obtain ⟨c3, h3, hm3⟩ := storePage_mem env c start
            { num := start + 1, pageDict := (kidRef.fetch xref).getDict,
              attrs := PageAttrs.merge xref (some attrs1) (kidRef.fetch xref).getDict } kidRef hinv
          rw [hc2] at h3
          cases h3
          exact hm3
        obtain ⟨ihs, ihn⟩ := ih (start + 1) c2 hinv2
        refine ⟨?_, ?_⟩
        · intro ls e hw
          simp only [kidsWalk, hpage, hvalid, if_true] at hw
          cases hk : kidsWalk env xref recW attrs1 rest (start + 1) with
          | none =>
            rw [hk] at hw
            cases hw
          | some p =>
            obtain ⟨ls1, e1⟩ := p
            rw [hk] at hw
            simp only [Option.some.injEq, Prod.mk.injEq] at hw
            obtain ⟨rfl, rfl⟩ := hw
            obtain ⟨c1, hc1, hm1, hs1⟩ := ihs ls1 e1 hk
            have e : start + 1 + (ls1.length : Int) = start + ((ls1.length + 1 : Nat) : Int) := by
              push_cast; ring
            rw [e] at hc1 hm1
            refine ⟨c1, ?_, hm2.treeMem_trans hm1, ?_⟩
            · simp only [readKids, hpage, hvalid, if_true, hc2, List.length_cons]
              exact hc1
            · intro i l hi
              cases i with
              | zero =>
                simp only [List.getElem?_cons_zero, Option.some.injEq] at hi
                subst hi
                have hf := hm1.frame start.toNat (by have := hinv.start_nonneg; omega)
                simp only [Nat.cast_zero, add_zero, Leaf.toPage]
                rw [hf.1, hf.2]
                exact ⟨hpg, hrf⟩
              | succ i =>
                simp only [List.getElem?_cons_succ] at hi
                have := hs1 i l hi
                have e2 : start + ((i + 1 : Nat) : Int) = start + 1 + (i : Int) := by
                  push_cast; ring
                rw [e2]
                exact this
        · intro hw
          simp only [kidsWalk, hpage, hvalid, if_true] at hw
          cases hk : kidsWalk env xref recW attrs1 rest (start + 1) with
          | none =>
            simp only [readKids, hpage, hvalid, if_true, hc2]
            exact ihn hk
          | some p =>
            rw [hk] at hw
            cases hw
      · refine ⟨?_, ?_⟩
        · intro ls e hw
          simp only [kidsWalk, hpage, hvalid, if_true, if_false, Bool.false_eq_true,
            Option.some.injEq, Prod.mk.injEq] at hw
          obtain ⟨rfl, rfl⟩ := hw
          refine ⟨c, ?_, by simpa using TreeMem.treeMem_refl hinv, fun i l hi => by simp at hi⟩
          simp only [readKids, hpage, hvalid, if_true, if_false, Bool.false_eq_true]
          rfl
        · intro hw
          simp [kidsWalk, hpage, hvalid] at hw
    · by_cases hdict : (kidRef.fetch xref).isDict = true
      · obtain ⟨hrs, hrn⟩ := hrec (kidRef.fetch xref).getDict attrs1 start c hinv
        cases hr : recW (kidRef.fetch xref).getDict attrs1 start with
        | none =>
          refine ⟨?_, ?_⟩
          · intro ls e hw
            simp [kidsWalk, hpage, hdict, hr] at hw
          · intro _
            simp only [readKids, hpage, hdict, if_true, if_false, Bool.false_eq_true, hrn hr]
        | some p =>
          obtain ⟨below, e0⟩ := p
          obtain ⟨c2, hc2, hm2, hs2⟩ := hrs below e0 hr
          by_cases he0 : e0 = .done
          · subst he0
            have hval : WalkEnd.value .done start below.length = start + below.length := rfl
            rw [hval] at hc2
            have hnn : ¬ (start + (below.length : Int) < 0) := by
              have := hinv.start_nonneg; omega
            obtain ⟨ihs, ihn⟩ := ih (start + below.length) c2 hm2.inv
            refine ⟨?_, ?_⟩
            · intro ls e hw
              simp only [kidsWalk, hpage, hdict, if_true, if_false, Bool.false_eq_true, hr] at hw
              cases hk : kidsWalk env xref recW attrs1 rest (start + below.length) with
              | none =>
                rw [hk] at hw
                cases hw
              | some p =>
                obtain ⟨ls1, e1⟩ := p
                rw [hk] at hw
                simp only [Option.some.injEq, Prod.mk.injEq] at hw
                obtain ⟨rfl, rfl⟩ := hw
                obtain ⟨c1, hc1, hm1, hs1⟩ := ihs ls1 e1 hk
                have e : start + (below.length : Int) + (ls1.length : Int) =
                    start + ((below ++ ls1).length : Int) := by
                  simp only [List.length_append]; push_cast; ring
                rw [e] at hc1 hm1
                refine ⟨c1, ?_, hm2.treeMem_trans hm1,
                  (hs2.keep_ hinv.start_nonneg (le_refl _) hm1).append_ hs1⟩
                simp only [readKids, hpage, hdict, if_true, if_false, Bool.false_eq_true, hc2, hnn]
                exact hc1
            · intro hw
              simp only [kidsWalk, hpage, hdict, if_true, if_false, Bool.false_eq_true, hr] at hw
              cases hk : kidsWalk env xref recW attrs1 rest (start + below.length) with
              | none =>
                simp only [readKids, hpage, hdict, if_true, if_false, Bool.false_eq_true, hc2, hnn]
                exact ihn hk
              | some p =>
                rw [hk] at hw
                cases hw
          · rw [WalkEnd.value_fail he0] at hc2
            refine ⟨?_, ?_⟩
            · intro ls e hw
              simp only [kidsWalk, hpage, hdict, if_true, if_false, Bool.false_eq_true, hr, he0,
                Option.some.injEq, Prod.mk.injEq] at hw
              obtain ⟨rfl, rfl⟩ := hw
              refine ⟨c2, ?_, hm2, hs2⟩
              simp only [readKids, hpage, hdict, if_true, if_false, Bool.false_eq_true, hc2, he0]
              rfl
            · intro hw
              simp [kidsWalk, hpage, hdict, hr, he0] at hw
      · have hinv1 : Catalog.MemInv
            { c with log := c.log ++ [.kidWrongType (start + 1) (kidRef.fetch xref).getType] }
            start := hinv.congr_ rfl rfl rfl
        obtain ⟨ihs, ihn⟩ := ih start _ hinv1
        refine ⟨?_, ?_⟩
        · intro ls e hw
          simp only [kidsWalk, hpage, hdict, if_false, Bool.false_eq_true] at hw
          obtain ⟨c1, hc1, hm1, hs1⟩ := ihs ls e hw
          refine ⟨c1, ?_, hm1.congr_left rfl rfl rfl, hs1⟩
          simp only [readKids, hpage, hdict, if_false, Bool.false_eq_true]
          exact hc1
        · intro hw
          simp only [kidsWalk, hpage, hdict, if_false, Bool.false_eq_true] at hw
          simp only [readKids, hpage, hdict, if_false, Bool.false_eq_true]
          exact ihn hw

/-- The function `readPageTree` refines the walk: from a state in which the
slots from `start` on are unset it returns what the walk says, with the leaves
visited in the slots from `start` on and the slots below as before; when the
walk has no result it runs out of fuel. -/
theorem readPageTree_walk (env : Env) (xref : XRef) :
    ∀ (fuel : Nat) (d : Dict) (attrs : Option PageAttrs) (start : Int) (c : Catalog),
      Catalog.MemInv c start →
      (∀ ls e, pageWalk env xref fuel d attrs start = some (ls, e) →
        ∃ c1, readPageTree env xref fuel d attrs start c = .ok (e.value start ls.length, c1) ∧
          TreeMem c start c1 (start + ls.length) ∧ LeavesStored c1 start ls) ∧
      (pageWalk env xref fuel d attrs start = none →
        readPageTree env xref fuel d attrs start c = .error .outOfFuel) := by
  intro fuel
  induction fuel with
  | zero =>
    intro d attrs start c _
    exact ⟨fun ls e h => by simp [pageWalk] at h, fun _ => rfl⟩
  | succ fuel ih =>
    intro d attrs start c hinv
    by_cases hk : (Dict.lookup xref d "Kids").isArray = true
    · obtain ⟨hs, hn⟩ := readKids_walk env xref
        (fun d a s c1 => readPageTree env xref fuel d (some a) s c1)
        (fun d a s => pageWalk env xref fuel d (some a) s)
        (fun d a s c h => ih d (some a) s c h)
        (PageAttrs.merge xref attrs d) (Dict.lookup xref d "Kids").getArray start c hinv
      refine ⟨?_, ?_⟩
      · intro ls e hw
        simp only [pageWalk, hk, if_true] at hw
        obtain ⟨c1, hc1, hm1, hs1⟩ := hs ls e hw
        by_cases he : e = .done
        · subst he
          refine ⟨c1, ?_, hm1, hs1⟩
          simp only [readPageTree, hk, if_true, hc1]
          rfl
        · refine ⟨{ c1 with ok := false }, ?_, hm1.congr_right rfl rfl rfl, ?_⟩
          · simp only [readPageTree, hk, if_true, hc1, he, if_false, WalkEnd.value_fail he]
          · intro i l hi
            exact hs1 i l hi
      · intro hw
        simp only [pageWalk, hk, if_true] at hw
        simp only [readPageTree, hk, if_true, hn hw]
    · refine ⟨?_, ?_⟩
      · intro ls e hw
        simp only [pageWalk, hk, if_false, Bool.false_eq_true, Option.some.injEq,
          Prod.mk.injEq] at hw
        obtain ⟨rfl, rfl⟩ := hw
        refine ⟨{ c with
            log := c.log ++ [.kidsWrongType (start + 1) (Dict.lookup xref d "Kids").getType]
            ok := false }, ?_, ?_, fun i l hi => by simp at hi⟩
        · simp only [readPageTree, hk, if_false, Bool.false_eq_true]
          rfl
        · have hm : TreeMem c start
              { c with
                log := c.log ++ [.kidsWrongType (start + 1) (Dict.lookup xref d "Kids").getType]
                ok := false } start :=
            (TreeMem.treeMem_refl hinv).congr_right rfl rfl rfl
          simpa using hm
      · intro hw
        simp [pageWalk, hk] at hw


/-- One more page takes a new chunk exactly when its slot is the capacity. -/
theorem capFor_step (hint s : Int) (hle : s ≤ capFor hint s) :
    (if s ≥ capFor hint s then capFor hint s + 32 else capFor hint s) = capFor hint (s + 1) := by
  unfold capFor at *
  split_ifs at * <;> omega

theorem readKids_cap (env : Env) (xref : XRef)
    (recurse : Dict → PageAttrs → Int → Catalog → Except Fault (Int × Catalog))
    (hrec : ∀ d a s c r c1, Catalog.MemInv c s → recurse d a s c = .ok (r, c1) →
      (∃ s1, TreeMem c s c1 s1 ∧ (0 ≤ r → s1 = r)) ∧
      (0 ≤ r → ∀ hint, 0 ≤ hint → c.pagesSize = capFor hint s → c1.pagesSize = capFor hint r))
    (attrs1 : PageAttrs) :
    ∀ (kids : List Obj) (start : Int) (c : Catalog) (r : Int) (c1 : Catalog),
      Catalog.MemInv c start → readKids env xref recurse attrs1 kids start c = .ok (some r, c1) →
      ∀ hint, 0 ≤ hint → c.pagesSize = capFor hint start → c1.pagesSize = capFor hint r := by
  intro kids
  induction kids with
  | nil =>
    intro start c r c1 _ h hint _ hc
    simp only [readKids, Except.ok.injEq, Prod.mk.injEq, Option.some.injEq] at h
    rw [← h.1, ← h.2]
    exact hc
  | cons kidRef rest ih =>
    intro start c r c1 hinv h hint h0 hc
    simp only [readKids] at h
    split at h
    · split at h
      · obtain ⟨c2, hc2, hinv2, hsz2, _⟩ := storePage_spec env c start
          { num := start + 1, pageDict := (kidRef.fetch xref).getDict,
            attrs := PageAttrs.merge xref (some attrs1) (kidRef.fetch xref).getDict } kidRef hinv
        rw [hc2] at h
        simp only at h
        refine ih _ _ _ _ hinv2 h hint h0 ?_
        rw [hsz2, hc]
        exact capFor_step hint start (by rw [← hc]; exact hinv.start_le)
      · simp at h
    · split at h
      · split at h
        · cases h
        · rename_i s1 c2 hc2
          split at h
          · simp at h
          · rename_i hs1
            obtain ⟨⟨s2, hm2, hs2⟩, hcap2⟩ := hrec _ _ _ _ _ _ hinv hc2
            have hs : s2 = s1 := hs2 (by omega)
            subst hs
            exact ih _ _ _ _ hm2.inv h hint h0 (hcap2 (by omega) hint h0 hc)
      · have hinv1 : Catalog.MemInv
            { c with log := c.log ++ [.kidWrongType (start + 1) (kidRef.fetch xref).getType] }
            start := hinv.congr_ rfl rfl rfl
        have key := ih start
          { c with log := c.log ++ [.kidWrongType (start + 1) (kidRef.fetch xref).getType] }
          r c1 hinv1 h hint h0 hc
        exact key

/-- The capacity after a call of `readPageTree` that did not fail is the one
the next index needs. -/
theorem readPageTree_cap (env : Env) (xref : XRef) :
    ∀ (fuel : Nat) (d : Dict) (attrs : Option PageAttrs) (start : Int) (c : Catalog)
      (r : Int) (c1 : Catalog),
      Catalog.MemInv c start → readPageTree env xref fuel d attrs start c = .ok (r, c1) →
      0 ≤ r → ∀ hint, 0 ≤ hint → c.pagesSize = capFor hint start →
      c1.pagesSize = capFor hint r := by
  intro fuel
  induction fuel with
  | zero => intro d attrs start c r c1 _ h; simp [readPageTree] at h
  | succ fuel ih =>
    intro d attrs start c r c1 hinv h hr hint h0 hc
    simp only [readPageTree] at h
    split at h
    · split at h
      · cases h
      · rename_i s1 c2 hkids
        simp only [Except.ok.injEq, Prod.mk.injEq] at h
        obtain ⟨rfl, rfl⟩ := h
        exact readKids_cap env xref _
          (fun d a s c r c1 h1 h2 =>
            ⟨readPageTree_mem env xref fuel d (some a) s c r c1 h1 h2,
              ih d (some a) s c r c1 h1 h2⟩) _ _ _ _ _ _ hinv hkids hint h0 hc
      · simp only [Except.ok.injEq, Prod.mk.injEq] at h
        omega
    · simp only [Except.ok.injEq, Prod.mk.injEq] at h
      omega

theorem kidsWalk_valid (env : Env) (xref : XRef)
    (recW : Dict → PageAttrs → Int → Option (List Leaf × WalkEnd))
    (hrec : ∀ d a s ls e, 0 ≤ s → recW d a s = some (ls, e) → LeavesValid env s ls)
    (attrs1 : PageAttrs) :
    ∀ (kids : List Obj) (start : Int) (ls : List Leaf) (e : WalkEnd), 0 ≤ start →
      kidsWalk env xref recW attrs1 kids start = some (ls, e) → LeavesValid env start ls := by
  intro kids
  induction kids with
  | nil =>
    intro start ls e _ hw
    simp only [kidsWalk, Option.some.injEq, Prod.mk.injEq] at hw
    obtain ⟨rfl, rfl⟩ := hw
    intro i l hi
    simp at hi
  | cons kidRef rest ih =>
    intro start ls e h0 hw
    simp only [kidsWalk] at hw
    split at hw
    · split at hw
      · rename_i hvalid
        split at hw
        · rename_i ls1 e1 hk
          simp only [Option.some.injEq, Prod.mk.injEq] at hw
          obtain ⟨rfl, rfl⟩ := hw
          exact LeavesValid.valid_cons hvalid (ih _ _ _ (by omega) hk)
        · cases hw
      · simp only [Option.some.injEq, Prod.mk.injEq] at hw
        obtain ⟨rfl, rfl⟩ := hw
        intro i l hi
        simp at hi
    · split at hw
      · split at hw
        · cases hw
        · rename_i below e0 hr
          split at hw
          · split at hw
            · rename_i ls1 e1 hk
              simp only [Option.some.injEq, Prod.mk.injEq] at hw
              obtain ⟨rfl, rfl⟩ := hw
              exact LeavesValid.valid_append (hrec _ _ _ _ _ h0 hr) (ih _ _ _ (by omega) hk)
            · cases hw
          · simp only [Option.some.injEq, Prod.mk.injEq] at hw
            obtain ⟨rfl, rfl⟩ := hw
            exact hrec _ _ _ _ _ h0 hr
      · exact ih _ _ _ h0 hw

/-- Every leaf a walk visited is a valid page at its number. -/
theorem pageWalk_valid (env : Env) (xref : XRef) :
    ∀ (fuel : Nat) (d : Dict) (attrs : Option PageAttrs) (start : Int) (ls : List Leaf)
      (e : WalkEnd), 0 ≤ start →
      pageWalk env xref fuel d attrs start = some (ls, e) → LeavesValid env start ls := by
  intro fuel
  induction fuel with
  | zero => intro d attrs start ls e _ h; simp [pageWalk] at h
  | succ fuel ih =>
    intro d attrs start ls e h0 hw
    simp only [pageWalk] at hw
    split at hw
    · exact kidsWalk_valid env xref _ (fun d a s ls e hs h => ih d (some a) s ls e hs h)
        _ _ _ _ _ h0 hw
    · simp only [Option.some.injEq, Prod.mk.injEq] at hw
      obtain ⟨rfl, rfl⟩ := hw
      intro i l hi
      simp at hi

theorem parseKids_fault (xref : XRef)
    (recurse : Obj → NameTree × List ErrMsg → Except Fault (NameTree × List ErrMsg))
    (hrec : ∀ o s f, recurse o s = .error f → f = .outOfFuel) :
    ∀ (kids : List Obj) (s : NameTree × List ErrMsg) (f : Fault),
      NameTree.parseKids xref recurse kids s = .error f → f = .outOfFuel := by
  intro kids
  induction kids with
  | nil => intro s f h; simp [NameTree.parseKids] at h
  | cons kid rest ih =>
    intro s f h
    simp only [NameTree.parseKids] at h
    split at h
    · split at h
      · rename_i f1 hf
        simp only [Except.error.injEq] at h
        subst h
        exact hrec _ _ _ hf
      · exact ih _ _ h
    · exact ih _ _ h

/-- Reading a name tree ends without a result only when it runs out of fuel. -/
theorem parse_fault (env : Env) (xref : XRef) :
    ∀ (fuel : Nat) (tree : Obj) (s : NameTree × List ErrMsg) (f : Fault),
      NameTree.parse env xref fuel tree s = .error f → f = .outOfFuel := by
  intro fuel
  induction fuel with
  | zero =>
    intro tree s f h
    simp only [NameTree.parse, Except.error.injEq] at h
    exact h.symm
  | succ fuel ih =>
    intro tree s f h
    simp only [NameTree.parse] at h
    split at h
    · split at h
      · exact parseKids_fault xref _ (fun o s f hf => ih o s f hf) _ _ _ h
      · cases h
    · cases h

theorem readAux_fault {env : Env} {fuel : Nat} {catDict : Obj} {c : Catalog} {f : Fault}
    (h : Catalog.readAux env fuel catDict c = .error f) : f = .outOfFuel := by
  unfold Catalog.readAux at h
  split at h
  · rename_i f1 hp
    simp only [Except.error.injEq] at h
    subst h
    split at hp
    · exact parse_fault _ _ _ _ _ _ hp
    · cases hp
  · cases h

/-- Construction on a document that passes the three checks, declares a count
that is not negative and has a name tree that can be read, when the walk over
its page tree visits the leaves `ls` and ends with `e`: it returns, the page
count is the index after the leaves or -1, `ok` tells whether the walk
visited every kid, the leaves are in the slots from 0 on and the slots after
them are unset. -/
theorem new_walk (env : Env) (fuel : Nat) (xref : XRef) (ls : List Leaf) (e : WalkEnd)
    (h1 : xref.getCatalog.isDict = true) (h2 : xref.pagesDict.isDict = true)
    (h3 : xref.countObj.isNum = true) (h4 : 0 ≤ xref.countObj.getNumAsInt)
    (hn : NameTree.Readable env xref fuel)
    (hw : pageWalk env xref fuel xref.pagesDict.getDict none 0 = some (ls, e)) :
    ∃ c, Catalog.new env fuel xref = .ok c ∧ c.numPages = e.value 0 ls.length ∧
      c.ok = decide (e = .done) ∧ Catalog.MemInv c ls.length ∧ LeavesStored c 0 ls := by
  obtain ⟨c1, hc1⟩ := allocPages_ok env xref _ h4
  obtain ⟨_, hok1, _, haux1, _, _, hinv⟩ := allocPages_eq_ok hc1
  obtain ⟨c2, hc2, hm2, hs2⟩ :=
    (readPageTree_walk env xref fuel _ none 0 c1 (hinv h4)).1 ls e hw
  obtain ⟨extra, hf⟩ := readPageTree_flow env xref _ _ _ _ _ _ _ (le_refl _) hc2
  obtain ⟨c, hc⟩ := readAux_ok_of_xref env fuel xref
    { c2 with
      numPages := e.value 0 ls.length
      log := if e.value 0 ls.length ≠ xref.countObj.getNumAsInt
             then c2.log ++ [.pageCountIncorrect] else c2.log }
    (by simp only; rw [hf.aux.xref, haux1.xref]; rfl) hn
  obtain ⟨_, hp, hr, hnp, hsz, hok, _⟩ := readAux_eq_ok hc
  simp only at hp hr hnp hsz hok
  refine ⟨c, ?_, hnp, ?_, ?_, ?_⟩
  · unfold Catalog.new
    simp only [h1, h2, h3, Bool.true_eq_false, if_false, hc1, hc2]
    exact hc
  · rw [hok]
    by_cases he : e = .done
    · subst he
      rcases hf.result with ⟨h, _⟩ | ⟨_, h, _⟩
      · have : WalkEnd.value .done 0 ls.length = 0 + (ls.length : Int) := rfl
        omega
      · rw [h, hok1]; rfl
    · rcases hf.result with ⟨_, h⟩ | ⟨h, _⟩
      · rw [h]; simp [he]
      · rw [WalkEnd.value_fail he] at h
        omega
  · have := hm2.inv
    simp only [zero_add] at this
    exact this.congr_ hp hr hsz
  · intro i l hi
    rw [hp, hr]
    exact hs2 i l hi

/-! ## Claims about a page tree that fails -/

/-- C21: in a construction that passed the three checks of the root, the value
the top call of `readPageTree` returns is stored as the page count and the
`ok` it leaves is the `ok` of the catalog; so when that call fails the page
count is -1 and `isOk` is false, and `isOk` is false exactly when the page
count is -1.  When the walk over the page tree ends at a `Kids` entry of the
wrong type or at a page that is not valid, after the leaves `ls`, construction
(for a declared count that is not negative and a name tree that can be read)
returns a catalog with page count -1 and `isOk` false in which the pages of
`ls`, however many, are in their slots. -/
theorem C21_failure_value_is_page_count (env : Env) (fuel : Nat) (xref : XRef)
    (h1 : xref.getCatalog.isDict = true) (h2 : xref.pagesDict.isDict = true)
    (h3 : xref.countObj.isNum = true) :
    (∀ c, Catalog.new env fuel xref = .ok c →
      ∃ c1 n c2, Catalog.allocPages env xref xref.countObj.getNumAsInt = .ok c1 ∧
        readPageTree env xref fuel xref.pagesDict.getDict none 0 c1 = .ok (n, c2) ∧
        c.getNumPages = n ∧ c.isOk = c2.ok ∧
        (n < 0 → c.getNumPages = -1 ∧ c.isOk = false) ∧
        (c.isOk = false ↔ c.getNumPages = -1)) ∧
    (∀ ls e, pageWalk env xref fuel xref.pagesDict.getDict none 0 = some (ls, e) →
      e ≠ .done → 0 ≤ xref.countObj.getNumAsInt → NameTree.Readable env xref fuel →
      ∃ c, Catalog.new env fuel xref = .ok c ∧ c.getNumPages = -1 ∧ c.isOk = false ∧
        ∀ (i : Nat) (l : Leaf), ls[i]? = some l → c.pages[i]? = some (some (l.toPage i))) := by
  refine ⟨?_, ?_⟩
  · intro c hc
    obtain ⟨c1, n, c2, hc1, hc2, hc3⟩ := new_eq_ok_of_valid h1 h2 h3 hc
    obtain ⟨_, hok1, _⟩ := allocPages_eq_ok hc1
    obtain ⟨extra, hf⟩ := readPageTree_flow env xref _ _ _ _ _ _ _ (le_refl _) hc2
    obtain ⟨_, _, _, hnp, _, hok, _⟩ := readAux_eq_ok hc3
    simp only at hnp hok
    refine ⟨c1, n, c2, hc1, hc2, hnp, hok, ?_, ?_⟩
    · intro hneg
      rcases hf.result with ⟨hr, ho⟩ | ⟨hr, _⟩
      · exact ⟨by rw [Catalog.getNumPages, hnp, hr], by rw [Catalog.isOk, hok, ho]⟩
      · omega
    · rw [Catalog.isOk, Catalog.getNumPages, hok, hnp]
      rcases hf.result with ⟨hr, ho⟩ | ⟨hr, ho, _⟩
      · exact ⟨fun _ => hr, fun _ => ho⟩
      · rw [ho, hok1]
        constructor
        · intro h; cases h
        · intro h; omega
  · intro ls e hw he h4 hn
    obtain ⟨c, hc, hnp, hok, _, hs⟩ := new_walk env fuel xref ls e h1 h2 h3 h4 hn hw
    refine ⟨c, hc, ?_, ?_, ?_⟩
    · rw [Catalog.getNumPages, hnp, WalkEnd.value_fail he]
    · rw [Catalog.isOk, hok]
      simp [he]
    · intro i l hi
      have := (hs i l hi).1
      simpa using this

/-- C21, witness: in the example document whose second kid is a Pages node
without `Kids`, after one page, the walk visits one leaf and ends at that
node; construction returns with page count -1, `isOk` false and the page of
the first kid in slot 0. -/
theorem C21_failure_value_is_page_count_witness :
    (exampleWalk exampleEnv docBadKids 2).1.length = 1 ∧
    (exampleWalk exampleEnv docBadKids 2).2 = .badKids ∧
    ∃ c, Catalog.new exampleEnv 2 docBadKids = .ok c ∧ c.getNumPages = -1 ∧ c.isOk = false ∧
      ∀ (i : Nat) (l : Leaf), (exampleWalk exampleEnv docBadKids 2).1[i]? = some l →
        c.pages[i]? = some (some (l.toPage i)) :=
  ⟨by rfl, by rfl,
    (C21_failure_value_is_page_count exampleEnv 2 docBadKids (by rfl) (by rfl) (by rfl)).2
      (exampleWalk exampleEnv docBadKids 2).1 (exampleWalk exampleEnv docBadKids 2).2
      (by rfl) (by decide) (by decide) (fun hd => absurd hd (by decide))⟩

/-! ## Claims about the capacity -/

/-- C22: the block that stores a page adds 32 slots exactly when the index of
the page has reached the capacity, and keeps the capacity otherwise.  For a
declared count `c` that is not negative and a well-formed tree with `N` valid
leaves, every catalog that construction returns has the capacity `c` when
`N ≤ c` and else `c + 32 * k` for the least `k` with `N - c ≤ 32 * k`, which
is `(N - c + 31) / 32`; both arrays have that many slots, and every slot from
`N` on holds no page and the reference (-1, -1).  Construction returns when
the name tree can be read. -/
theorem C22_capacity_grows_in_chunks (env : Env) (fuel : Nat) (xref : XRef) (ls : List Leaf)
    (h1 : xref.getCatalog.isDict = true) (h2 : xref.pagesDict.isDict = true)
    (h3 : xref.countObj.isNum = true) (h4 : 0 ≤ xref.countObj.getNumAsInt)
    (hl : pageLeaves xref fuel xref.pagesDict.getDict none = some ls)
    (hv : LeavesValid env 0 ls) :
    (∀ c, Catalog.new env fuel xref = .ok c →
      c.pagesSize =
        (if (ls.length : Int) ≤ xref.countObj.getNumAsInt then xref.countObj.getNumAsInt
         else xref.countObj.getNumAsInt +
           32 * (((ls.length : Int) - xref.countObj.getNumAsInt + 31) / 32)) ∧
      (∃ k : Int, 0 ≤ k ∧ c.pagesSize = xref.countObj.getNumAsInt + 32 * k ∧
        (ls.length : Int) - xref.countObj.getNumAsInt ≤ 32 * k ∧
        (0 < k → 32 * (k - 1) < (ls.length : Int) - xref.countObj.getNumAsInt)) ∧
      (c.pages.length : Int) = c.pagesSize ∧ (c.pageRefs.length : Int) = c.pagesSize ∧
      ∀ i : Nat, (ls.length : Int) ≤ i → (i : Int) < c.pagesSize →
        c.pages[i]? = some none ∧ c.pageRefs[i]? = some Ref.unset) ∧
    (NameTree.Readable env xref fuel → ∃ c, Catalog.new env fuel xref = .ok c) ∧
    (∀ (c : Catalog) (start : Int) (page : Page) (kidRef : Obj), Catalog.MemInv c start →
      ∃ c1, Catalog.storePage env c start page kidRef = .ok c1 ∧
        c1.pagesSize = (if start ≥ c.pagesSize then c.pagesSize + 32 else c.pagesSize)) := by
  refine ⟨?_, fun hn => new_wellFormed_ok env fuel xref ls h1 h2 h3 h4 hn hl hv, ?_⟩
  · intro c hc
    obtain ⟨c1, n, c2, hc1, hc2, hc3⟩ := new_eq_ok_of_valid h1 h2 h3 hc
    obtain ⟨hsz1, _, _, _, _, _, hinv⟩ := allocPages_eq_ok hc1
    obtain ⟨c2', hc2', hm2, _⟩ := readPageTree_leaves env xref fuel _ none 0 c1 ls hl (hinv h4) hv
    rw [hc2] at hc2'
    simp only [Except.ok.injEq, Prod.mk.injEq] at hc2'
    obtain ⟨hn, rfl⟩ := hc2'
    have hcap := readPageTree_cap env xref fuel _ none 0 c1 n c2 (hinv h4) hc2 (by omega)
      xref.countObj.getNumAsInt h4 (by rw [hsz1]; simp [capFor, h4])
    obtain ⟨_, hp, hr, _, hsz, _⟩ := readAux_eq_ok hc3
    simp only at hp hr hsz
    have hinv2 := hm2.inv
    simp only [zero_add] at hinv2 hn
    have hform : c.pagesSize =
        (if (ls.length : Int) ≤ xref.countObj.getNumAsInt then xref.countObj.getNumAsInt
         else xref.countObj.getNumAsInt +
           32 * (((ls.length : Int) - xref.countObj.getNumAsInt + 31) / 32)) := by
      rw [hsz, hcap, hn]
      rfl
    refine ⟨hform, ?_, ?_, ?_, ?_⟩
    · by_cases hfit : (ls.length : Int) ≤ xref.countObj.getNumAsInt
      · rw [if_pos hfit] at hform
        exact ⟨0, le_refl _, by omega, by omega, by omega⟩
      · rw [if_neg hfit] at hform
        refine ⟨((ls.length : Int) - xref.countObj.getNumAsInt + 31) / 32, by omega, hform,
          by omega, by omega⟩
    · rw [hp, hsz]; exact hinv2.pages_len
    · rw [hr, hsz]; exact hinv2.refs_len
    · intro i hi1 hi2
      rw [hp, hr]
      exact hinv2.clean i hi1 (by rw [← hsz]; exact hi2)
  · intro c start page kidRef hinv
    obtain ⟨c1, hc1, _, hsz, _⟩ := storePage_spec env c start page kidRef hinv
    exact ⟨c1, hc1, hsz⟩

/-- C22, witness: the nested example document with declared count 1 has three
leaves; its catalog has 1 + 32 slots, and slot 3 is unset.  With declared
count 5 the capacity stays 5. -/
theorem C22_capacity_grows_in_chunks_witness :
    (Catalog.built exampleEnv 2 (docNested (.objInt 1))).pagesSize = 33 ∧
    ((Catalog.built exampleEnv 2 (docNested (.objInt 1))).pages[3]? = some none ∧
      (Catalog.built exampleEnv 2 (docNested (.objInt 1))).pageRefs[3]? = some Ref.unset) ∧
    (Catalog.built exampleEnv 2 (docNested (.objInt 5))).pagesSize = 5 := by
  have h := (C22_capacity_grows_in_chunks exampleEnv 2 (docNested (.objInt 1))
    (exampleLeaves (docNested (.objInt 1)) 2) (by rfl) (by rfl) (by rfl) (by decide) (by rfl)
    (leavesValid_of_check _ _ _ (by rfl))).1 (Catalog.built exampleEnv 2 (docNested (.objInt 1)))
    (by rfl)
  refine ⟨?_, ?_, by rfl⟩
  · rw [h.1]; rfl
  · exact h.2.2.2.2 3 (by decide) (by rw [h.1]; decide)

/-! ## Claims about the numbering -/

/-- The loop over an array of kids is the loop over a first part followed,
when that ran to its end, by the loop over the rest from the index and state
reached. -/
theorem readKids_append (env : Env) (xref : XRef)
    (recurse : Dict → PageAttrs → Int → Catalog → Except Fault (Int × Catalog))
    (attrs1 : PageAttrs) :
    ∀ (pre post : List Obj) (start : Int) (c : Catalog),
      readKids env xref recurse attrs1 (pre ++ post) start c =
        match readKids env xref recurse attrs1 pre start c with
        | .error f => .error f
        | .ok (some s1, c1) => readKids env xref recurse attrs1 post s1 c1
        | .ok (none, c1) => .ok (none, c1) := by
  intro pre
  induction pre with
  | nil => intro post start c; rfl
  | cons kidRef rest ih =>
    intro post start c
    simp only [List.cons_append, readKids]
    split
    · split
      · cases Catalog.storePage env c start
            { num := start + 1, pageDict := (kidRef.fetch xref).getDict,
              attrs := PageAttrs.merge xref (some attrs1) (kidRef.fetch xref).getDict }
            kidRef with
        | error f => rfl
        | ok c2 => exact ih post _ _
      · rfl
    · split
      · cases recurse (kidRef.fetch xref).getDict attrs1 start c with
        | error f => rfl
        | ok p =>
          obtain ⟨s1, c2⟩ := p
          simp only
          split
          · rfl
          · exact ih post _ _
      · exact ih post _ _

/-- The function `readPageTree` on a node with a `Kids` array is the loop over
the array followed by the exit. -/
theorem readPageTree_exit (env : Env) (xref : XRef) (fuel : Nat) (d : Dict)
    (attrs : Option PageAttrs) (start : Int) (c : Catalog) (kids : List Obj)
    (hk : Dict.lookup xref d "Kids" = .objArray kids) :
    readPageTree env xref (fuel + 1) d attrs start c =
      treeExit (readKids env xref (fun d a s c1 => readPageTree env xref fuel d (some a) s c1)
        (PageAttrs.merge xref attrs d) kids start c) := by
  simp only [readPageTree, hk, Obj.isArray, if_true, Obj.getArray]
  cases readKids env xref (fun d a s c1 => readPageTree env xref fuel d (some a) s c1)
      (PageAttrs.merge xref attrs d) kids start c with
  | error f => rfl
  | ok p =>
    obtain ⟨r, c1⟩ := p
    cases r <;> rfl

/-- A dictionary counts as a page exactly when its `Type` entry is, as it
stands in the dictionary, the name Page. -/
theorem isDictOf_page (d : Dict) :
    (Obj.objDict d).isDictOf "Page" = true ↔ Dict.find d "Type" = some (.objName "Page") := by
  simp only [Obj.isDictOf, Dict.is]
  cases h : Dict.find d "Type" with
  | none => simp
  | some v =>
    cases v <;> simp [Obj.isNameOf]

/-- C24: in a call of `readPageTree` on a node whose `Kids` array has the kid
`kid`, a dictionary `d`, after the kids `pre`, when the loop over `pre` ran to
its end at index `s1`: the kid counts as a page exactly when the `Type` entry
of `d` is the name Page, and then a page with the number `s1 + 1` is built
from `d` and, when valid, stored at `s1`.  Every other dictionary (no `Type`,
`Type` Pages, any other `Type`) is handed to a nested call of `readPageTree`
from the index `s1`; when that call returns a negative value the outer call
returns -1 with `ok` false, when it ends without a result so does the outer
call, and else the loop goes on with the rest from the index returned. -/
theorem C24_kid_dispatch_by_shape (env : Env) (xref : XRef) (fuel : Nat) (pagesDict : Dict)
    (attrs : Option PageAttrs) (start : Int) (c : Catalog) (pre rest : List Obj) (kid : Obj)
    (d : Dict) (s1 : Int) (c1 : Catalog)
    (hk : Dict.lookup xref pagesDict "Kids" = .objArray (pre ++ kid :: rest))
    (hd : kid.fetch xref = .objDict d)
    (hpre : readKids env xref (fun d a s c1 => readPageTree env xref fuel d (some a) s c1)
      (PageAttrs.merge xref attrs pagesDict) pre start c = .ok (some s1, c1)) :
    ((kid.fetch xref).isDictOf "Page" = true ↔ Dict.find d "Type" = some (.objName "Page")) ∧
    (Dict.find d "Type" = some (.objName "Page") →
      readPageTree env xref (fuel + 1) pagesDict attrs start c =
        treeExit
          (if env.pageIsOk
              { num := s1 + 1, pageDict := d,
                attrs := PageAttrs.merge xref (some (PageAttrs.merge xref attrs pagesDict)) d } then
            match Catalog.storePage env c1 s1
                { num := s1 + 1, pageDict := d,
                  attrs := PageAttrs.merge xref (some (PageAttrs.merge xref attrs pagesDict)) d }
                kid with
            | .error f => .error f
            | .ok c2 =>
              readKids env xref (fun d a s c1 => readPageTree env xref fuel d (some a) s c1)
                (PageAttrs.merge xref attrs pagesDict) rest (s1 + 1) c2
          else .ok (none, c1))) ∧
    (Dict.find d "Type" ≠ some (.objName "Page") →
      (∀ f, readPageTree env xref fuel d (some (PageAttrs.merge xref attrs pagesDict)) s1 c1 =
          .error f →
        readPageTree env xref (fuel + 1) pagesDict attrs start c = .error f) ∧
      (∀ r c2, readPageTree env xref fuel d (some (PageAttrs.merge xref attrs pagesDict)) s1 c1 =
          .ok (r, c2) → r < 0 →
        readPageTree env xref (fuel + 1) pagesDict attrs start c =
          .ok (-1, { c2 with ok := false })) ∧
      (∀ r c2, readPageTree env xref fuel d (some (PageAttrs.merge xref attrs pagesDict)) s1 c1 =
          .ok (r, c2) → 0 ≤ r →
        readPageTree env xref (fuel + 1) pagesDict attrs start c =
          treeExit
            (readKids env xref (fun d a s c1 => readPageTree env xref fuel d (some a) s c1)
              (PageAttrs.merge xref attrs pagesDict) rest r c2))) := by
  have hpg : (kid.fetch xref).isDictOf "Page" = true ↔
      Dict.find d "Type" = some (.objName "Page") := by
    rw [hd]; exact isDictOf_page d
  have hout := readPageTree_exit env xref fuel pagesDict attrs start c _ hk
  rw [readKids_append, hpre] at hout
  simp only at hout
  refine ⟨hpg, ?_, ?_⟩
  · intro ht
    rw [hout]
    have hp : (Obj.objDict d).isDictOf "Page" = true := (isDictOf_page d).2 ht
    simp only [readKids, hd, hp, if_true, Obj.getDict]
  · intro ht
    have hnp : ¬ (Obj.objDict d).isDictOf "Page" = true := fun h => ht ((isDictOf_page d).1 h)
    have hdict : (Obj.objDict d).isDict = true := rfl
    refine ⟨?_, ?_, ?_⟩
    · intro f hf
      rw [hout]
      simp only [readKids, hd, hnp, hdict, if_true, if_false, Obj.getDict, hf]
      rfl
    · intro r c2 hr hneg
      rw [hout]
      simp only [readKids, hd, hnp, hdict, if_true, if_false, Obj.getDict, hr, hneg]
      rfl
    · intro r c2 hr hnn
      rw [hout]
      have : ¬ r < 0 := by omega
      simp only [readKids, hd, hnp, hdict, if_true, if_false, Obj.getDict, hr, this,
        Bool.false_eq_true]

/-- C24, witness: in the example document whose top node has as kids a
dictionary without `Type` and a dictionary with the `Type` Foo, each with one
page below, the first kid is not a page and the nested call on it returns 1,
so the top call goes on with the second kid from index 1; the catalog has the
two pages, in this order. -/
theorem C24_kid_dispatch_by_shape_witness :
    (readPageTree exampleEnv docUntyped 2 docUntyped.pagesDict.getDict none 0
        (Catalog.initial docUntyped) =
      treeExit
        (readKids exampleEnv docUntyped
          (fun d a s c1 => readPageTree exampleEnv docUntyped 1 d (some a) s c1)
          (PageAttrs.merge docUntyped none docUntyped.pagesDict.getDict) [.objRef 5 0] 1
          (exampleTree docUntyped 1 (.objRef 3 0)).2)) ∧
    (Catalog.built exampleEnv 2 docUntyped).getNumPages = 2 ∧
    (Catalog.built exampleEnv 2 docUntyped).pageRefs.take 2 =
      [{ num := 4, gen := 0 }, { num := 6, gen := 0 }] := by
  refine ⟨?_, by rfl, by decide⟩
  exact (C24_kid_dispatch_by_shape exampleEnv docUntyped 1 docUntyped.pagesDict.getDict none 0
    (Catalog.initial docUntyped) [] [.objRef 5 0] (.objRef 3 0)
    (docUntyped.fetchObj 3 0).getDict 0 (Catalog.initial docUntyped)
    (by rfl) (by rfl) (by rfl)).2.2
      (fun h => by cases (show (none : Option Obj) = some (.objName "Page") from h)) |>.2.2 1
      (exampleTree docUntyped 1 (.objRef 3 0)).2 (by rfl) (by decide)

/-! ## Claims about a page that is not valid -/

/-- C25: at a kid that is a page and is not valid, the loop of `readPageTree`
leaves through the error labels with the catalog as it was, so the page is
put into no slot.  In every call of `readPageTree` whose walk ends at such a
page after the leaves `ls`, from a state in which the slots from `start` on are
unset, the call returns -1 with `ok` false, the pages of `ls` are in the slots
from `start` on, the slots below `start` are as before and every slot from
`start + ls.length` on holds no page; this holds for the call on the node of
the page and for every call that encloses it.  A construction (declared count
not negative, name tree readable) whose walk ends that way returns a catalog
with `isOk` false in which the pages built before the failure are in their
slots, all other slots hold no page, and every page in a slot is valid. -/
theorem C25_invalid_page_fails_build (env : Env) (xref : XRef) (fuel : Nat) (ls : List Leaf) :
    (∀ (recurse : Dict → PageAttrs → Int → Catalog → Except Fault (Int × Catalog))
        (attrs1 : PageAttrs) (kid : Obj) (rest : List Obj) (start : Int) (c : Catalog),
      (kid.fetch xref).isDictOf "Page" = true →
      env.pageIsOk { num := start + 1, pageDict := (kid.fetch xref).getDict,
                     attrs := PageAttrs.merge xref (some attrs1) (kid.fetch xref).getDict }
        = false →
      readKids env xref recurse attrs1 (kid :: rest) start c = .ok (none, c)) ∧
    (∀ (d : Dict) (attrs : Option PageAttrs) (start : Int) (c : Catalog),
      Catalog.MemInv c start →
      pageWalk env xref fuel d attrs start = some (ls, .badPage) →
      ∃ c1, readPageTree env xref fuel d attrs start c = .ok (-1, c1) ∧ c1.ok = false ∧
        (∀ (i : Nat) (l : Leaf), ls[i]? = some l →
          env.pageIsOk (l.toPage (start + i)) = true ∧
          c1.pages[(start + i).toNat]? = some (some (l.toPage (start + i)))) ∧
        (∀ i : Nat, (i : Int) < start →
          c1.pages[i]? = c.pages[i]? ∧ c1.pageRefs[i]? = c.pageRefs[i]?) ∧
        (∀ i : Nat, start + ls.length ≤ (i : Int) → (i : Int) < c1.pagesSize →
          c1.pages[i]? = some none)) ∧
    (xref.getCatalog.isDict = true → xref.pagesDict.isDict = true →
      xref.countObj.isNum = true → 0 ≤ xref.countObj.getNumAsInt →
      NameTree.Readable env xref fuel →
      pageWalk env xref fuel xref.pagesDict.getDict none 0 = some (ls, .badPage) →
      ∃ c, Catalog.new env fuel xref = .ok c ∧ c.isOk = false ∧ c.getNumPages = -1 ∧
        (∀ (i : Nat) (l : Leaf), ls[i]? = some l → c.pages[i]? = some (some (l.toPage i))) ∧
        (∀ i : Nat, ls.length ≤ i → i < c.pages.length → c.pages[i]? = some none) ∧
        (∀ (i : Nat) (p : Page), c.pages[i]? = some (some p) → env.pageIsOk p = true)) := by
  refine ⟨?_, ?_, ?_⟩
  · intro recurse attrs1 kid rest start c hpage hbad
    simp only [readKids, hpage, hbad, if_true, Bool.false_eq_true, if_false]
  · intro d attrs start c hinv hw
    obtain ⟨c1, hc1, hm1, hs1⟩ := (readPageTree_walk env xref fuel d attrs start c hinv).1 _ _ hw
    have hval := pageWalk_valid env xref fuel d attrs start ls _ hinv.start_nonneg hw
    obtain ⟨extra, hf⟩ := readPageTree_flow env xref _ _ _ _ _ _ _ hinv.start_nonneg hc1
    refine ⟨c1, hc1, ?_, fun i l hi => ⟨hval i l hi, (hs1 i l hi).1⟩, hm1.frame,
      fun i h1 h2 => (hm1.inv.clean i h1 h2).1⟩
    rcases hf.result with ⟨_, h⟩ | ⟨h, _⟩
    · exact h
    · have := hinv.start_nonneg
      have hv : WalkEnd.value .badPage start ls.length = -1 := rfl
      omega
  · intro h1 h2 h3 h4 hn hw
    obtain ⟨c, hc, hnp, hok, hinv, hs⟩ := new_walk env fuel xref ls _ h1 h2 h3 h4 hn hw
    have hval := pageWalk_valid env xref fuel _ none 0 ls _ (le_refl _) hw
    have hstored : ∀ (i : Nat) (l : Leaf), ls[i]? = some l →
        c.pages[i]? = some (some (l.toPage i)) := by
      intro i l hi
      have := (hs i l hi).1
      simpa using this
    have hclean : ∀ i : Nat, ls.length ≤ i → i < c.pages.length → c.pages[i]? = some none := by
      intro i h5 h6
      have hl := hinv.pages_len
      exact (hinv.clean i (by omega) (by omega)).1
    refine ⟨c, hc, ?_, ?_, hstored, hclean, ?_⟩
    · rw [Catalog.isOk, hok]; rfl
    · rw [Catalog.getNumPages, hnp]; rfl
    · intro i p hp
      by_cases hi : i < ls.length
      · have h5 := hstored i ls[i] (List.getElem?_eq_getElem hi)
        rw [hp] at h5
        simp only [Option.some.injEq] at h5
        rw [h5]
        have := hval i ls[i] (List.getElem?_eq_getElem hi)
        simpa using this
      · have hlen : i < c.pages.length := by
          by_contra hc2
          rw [List.getElem?_eq_none (by omega)] at hp
          cases hp
        rw [hclean i (by omega) hlen] at hp
        cases hp

/-- C25, witness: in the example document the walk visits two pages and ends
at the page that is not valid, the second kid of a nested node; construction
returns with `isOk` false, the two pages in slots 0 and 1 and no page in slot
2. -/
theorem C25_invalid_page_fails_build_witness :
    (exampleWalk exampleEnv docBadPage 2).2 = .badPage ∧
    (exampleWalk exampleEnv docBadPage 2).1.length = 2 ∧
    ∃ c, Catalog.new exampleEnv 2 docBadPage = .ok c ∧ c.isOk = false ∧ c.getNumPages = -1 ∧
      (∀ (i : Nat) (l : Leaf), (exampleWalk exampleEnv docBadPage 2).1[i]? = some l →
        c.pages[i]? = some (some (l.toPage i))) ∧
      c.pages[2]? = some none := by
  obtain ⟨c, hc, hok, hnp, hs, hcl, _⟩ :=
    (C25_invalid_page_fails_build exampleEnv docBadPage 2
      (exampleWalk exampleEnv docBadPage 2).1).2.2 (by rfl) (by rfl) (by rfl) (by decide)
      (fun hd => absurd hd (by decide)) (by rfl)
  refine ⟨by rfl, by rfl, c, hc, hok, hnp, hs, hcl 2 (by decide) ?_⟩
  have hb : Catalog.new exampleEnv 2 docBadPage = .ok (Catalog.built exampleEnv 2 docBadPage) := by
    rfl
  rw [hb] at hc
  cases hc
  decide

/-! ## Claims about the destination returned -/

/-- An object that is an array is the array of its elements. -/
theorem Obj.eq_array_of_isArray {o : Obj} (h : o.isArray = true) : o = .objArray o.getArray := by
  cases o <;> first | rfl | cases h

/-- An object that is a dictionary is the dictionary of its entries. -/
theorem Obj.eq_dict_of_isDict {o : Obj} (h : o.isDict = true) : o = .objDict o.getDict := by
  cases o <;> first | rfl | cases h

/-- A destination passes the validity check only when it is valid. -/
theorem checkDest_some {env : Env} {x : Option LinkDest} {dest : LinkDest}
    (h : Catalog.checkDest env x = some dest) : x = some dest ∧ env.linkDestIsOk dest.a = true := by
  unfold Catalog.checkDest at h
  split at h
  · split at h
    · rename_i hvalid
      simp only [Option.some.injEq] at h
      subst h
      exact ⟨rfl, hvalid⟩
    · cases h
  · cases h

/-- A destination is built only from an array, or from the array `D` of a
dictionary. -/
theorem buildDest_some {xref : XRef} {obj1 : Obj} {dest : LinkDest}
    (h : (Catalog.buildDest xref obj1).1 = some dest) :
    obj1 = .objArray dest.a ∨
      ∃ d, obj1 = .objDict d ∧ Dict.lookup xref d "D" = .objArray dest.a := by
  unfold Catalog.buildDest at h
  split at h
  · rename_i harr
    simp only [Option.some.injEq] at h
    subst h
    exact Or.inl (Obj.eq_array_of_isArray harr)
  · split at h
    · rename_i hdict
      split at h
      · rename_i hD
        simp only [Option.some.injEq] at h
        subst h
        refine Or.inr ⟨obj1.getDict, Obj.eq_dict_of_isDict hdict, ?_⟩
        exact Obj.eq_array_of_isArray hD
      · cases h
    · cases h

/-- C26: a destination that `findDest` returns is valid (`LinkDest::isOk`), and
it was built from the array found for the name or from the array `D` of the
dictionary found for it.  When the object found is such an array, or a
dictionary with such an array `D`, and the destination built from the array
is not valid, `findDest` returns none and logs nothing more. -/
theorem C26_findDest_exposes_valid_only (env : Env) (c : Catalog) (name : String) :
    (∀ dest, (Catalog.findDest env c name).1 = some dest →
      env.linkDestIsOk dest.a = true ∧
      ∃ obj1 msgs, Catalog.findDestObj c name = (some obj1, msgs) ∧
        (obj1 = .objArray dest.a ∨
          ∃ d, obj1 = .objDict d ∧ Dict.lookup c.xref d "D" = .objArray dest.a)) ∧
    (∀ obj1 msgs a, Catalog.findDestObj c name = (some obj1, msgs) →
      (obj1 = .objArray a ∨ ∃ d, obj1 = .objDict d ∧ Dict.lookup c.xref d "D" = .objArray a) →
      env.linkDestIsOk a = false → Catalog.findDest env c name = (none, msgs)) := by
  refine ⟨?_, ?_⟩
  · intro dest h
    unfold Catalog.findDest at h
    rcases ho : Catalog.findDestObj c name with ⟨_ | obj1, msgs⟩
    · rw [ho] at h
      cases h
    · rw [ho] at h
      simp only at h
      obtain ⟨hb, hvalid⟩ := checkDest_some h
      exact ⟨hvalid, obj1, msgs, rfl, buildDest_some hb⟩
  · intro obj1 msgs a ho hshape hbad
    have hb : Catalog.buildDest c.xref obj1 = (some { a := a }, []) := by
      rcases hshape with rfl | ⟨d, rfl, hD⟩
      · simp [Catalog.buildDest, Obj.isArray, Obj.getArray]
      · simp [Catalog.buildDest, Obj.isArray, Obj.isDict, Obj.dictLookup, Obj.getDict, hD,
          Obj.getArray]
    simp only [Catalog.findDest, ho, hb, Catalog.checkDest, hbad, List.append_nil,
      Bool.false_eq_true, if_false]

/-- C26, witness: in the example document the destination `empty` is an empty
array, which is not valid, and `findDest` returns none for it; the
destination returned for `chap1` is valid. -/
theorem C26_findDest_exposes_valid_only_witness :
    Catalog.findDest exampleEnv (Catalog.built exampleEnv 2 docDests) "empty" = (none, []) ∧
    exampleEnv.linkDestIsOk [.objRef 3 0, .objName "Fit"] = true := by
  have h := C26_findDest_exposes_valid_only exampleEnv (Catalog.built exampleEnv 2 docDests)
  refine ⟨(h "empty").2 (.objArray []) [] [] (by rfl) (Or.inl rfl) (by rfl), ?_⟩
  exact ((h "chap1").1 { a := [.objRef 3 0, .objName "Fit"] } (by rfl)).1

/-- C29: when the destination dictionary is a dictionary whose entry for the
name is not null and is neither an array nor a dictionary with an array `D`,
`findDest` returns none and logs the bad destination message only, and it
does so whatever the name tree holds: the name tree is not looked at. -/
theorem C29_malformed_flat_hit_is_final (env : Env) (c : Catalog) (name : String)
    (hd : c.dests.isDict = true) (hn : (c.dests.dictLookup c.xref name).isNull = false)
    (ha : (c.dests.dictLookup c.xref name).isArray = false)
    (hD : (c.dests.dictLookup c.xref name).isDict = false ∨
      ((c.dests.dictLookup c.xref name).dictLookup c.xref "D").isArray = false) :
    Catalog.findDest env c name = (none, [.badNamedDest]) ∧
    ∀ t : NameTree,
      Catalog.findDest env { c with destNameTree := t } name = (none, [.badNamedDest]) := by
  have hb : Catalog.buildDest c.xref (c.dests.dictLookup c.xref name) =
      (none, [.badNamedDest]) := by
    unfold Catalog.buildDest
    rw [ha]
    rcases hD with hD | hD
    · simp [hD]
    · by_cases hdd : (c.dests.dictLookup c.xref name).isDict = true
      · simp [hdd, hD]
      · simp [hdd]
  have key : ∀ t : NameTree,
      Catalog.findDest env { c with destNameTree := t } name = (none, [.badNamedDest]) := by
    intro t
    have ho : Catalog.findDestObj { c with destNameTree := t } name =
        (some (c.dests.dictLookup c.xref name), []) := by
      simp only [Catalog.findDestObj, hd, hn, and_self, if_true]
    simp only [Catalog.findDest, ho, hb, Catalog.checkDest, List.nil_append]
  exact ⟨key c.destNameTree, key⟩

/-- C29, witness: in the example document the destination dictionary has the
number 5 for the name x while the name tree has a valid destination array for
x; `findDest` returns none for x. -/
theorem C29_malformed_flat_hit_is_final_witness :
    Catalog.findDest exampleEnv (Catalog.built exampleEnv 2 docShadow) "x" =
      (none, [.badNamedDest]) ∧
    (NameTree.lookup docShadow (Catalog.built exampleEnv 2 docShadow).destNameTree "x").1 = true ∧
    exampleEnv.linkDestIsOk
      (NameTree.lookup docShadow (Catalog.built exampleEnv 2 docShadow).destNameTree "x").2.1.getArray
      = true :=
  ⟨(C29_malformed_flat_hit_is_final exampleEnv (Catalog.built exampleEnv 2 docShadow) "x"
    (by rfl) (by rfl) (by rfl) (Or.inl (by rfl))).1, by rfl, by rfl⟩

/-! ## Claims about the scan of the reference array -/

/-- The scan of `findPage` over the slots `i .. i + k - 1`, all of which
exist: it returns 0 when none of them holds the reference, else the number
after the lowest of them that holds it. -/
theorem findPageFrom_spec (c : Catalog) (num gen : Int) (k i : Nat)
    (hlen : i + k ≤ c.pageRefs.length) :
    (Catalog.findPageFrom c num gen k i = some 0 ∧
      ∀ j, i ≤ j → j < i + k → c.pageRefs[j]? ≠ some { num := num, gen := gen }) ∨
    (∃ j, i ≤ j ∧ j < i + k ∧ Catalog.findPageFrom c num gen k i = some ((j : Int) + 1) ∧
      c.pageRefs[j]? = some { num := num, gen := gen } ∧
      ∀ m, i ≤ m → m < j → c.pageRefs[m]? ≠ some { num := num, gen := gen }) := by
  classical
  by_cases hex : ∃ j, i ≤ j ∧ j < i + k ∧ c.pageRefs[j]? = some { num := num, gen := gen }
  · right
    have hmin : ∀ m, i ≤ m → m < Nat.find hex →
        c.pageRefs[m]? ≠ some { num := num, gen := gen } := by
      intro m h1 h2 h3
      exact Nat.find_min hex h2 ⟨h1, by have := (Nat.find_spec hex).2.1; omega, h3⟩
    obtain ⟨h1, h2, h3⟩ := Nat.find_spec hex
    exact ⟨Nat.find hex, h1, h2, findPageFrom_first c num gen k i _ h1 h2 h3 hmin, h3, hmin⟩
  · left
    have habs : ∀ j, i ≤ j → j < i + k → c.pageRefs[j]? ≠ some { num := num, gen := gen } :=
      fun j h1 h2 h3 => hex ⟨j, h1, h2, h3⟩
    exact ⟨findPageFrom_absent c num gen k i hlen habs, habs⟩

/-- C27: after a construction that returned, `findPage` returns for every pair
a number `r` with `0 ≤ r ≤ max(numPages, 0)`.  When `r > 0`, slot `r - 1`
holds the pair and no slot below it does; when `r = 0`, no slot below the
page count holds the pair.  So when the pair is in slot `i` below the page
count, `r` is positive and at most `i + 1`: of several slots with the pair
the lowest gives the result. -/
theorem C27_findPage_first_match (env : Env) (fuel : Nat) (xref : XRef) (c : Catalog)
    (h : Catalog.new env fuel xref = .ok c) (num gen : Int) :
    ∃ r, c.findPage num gen = some r ∧ 0 ≤ r ∧ r ≤ max c.numPages 0 ∧
      (0 < r → c.pageRefs[(r - 1).toNat]? = some { num := num, gen := gen } ∧
        ∀ j : Nat, (j : Int) < r - 1 → c.pageRefs[j]? ≠ some { num := num, gen := gen }) ∧
      (r = 0 → ∀ j : Nat, (j : Int) < c.numPages →
        c.pageRefs[j]? ≠ some { num := num, gen := gen }) ∧
      (∀ i : Nat, (i : Int) < c.numPages → c.pageRefs[i]? = some { num := num, gen := gen } →
        0 < r ∧ r ≤ (i : Int) + 1) := by
  obtain ⟨hrl, _, hle, _⟩ := new_arrays h
  rcases findPageFrom_spec c num gen c.numPages.toNat 0 (by omega) with
    ⟨hr, habs⟩ | ⟨j, _, hj, hr, hhit, hmin⟩
  · refine ⟨0, hr, le_refl _, le_max_right _ _, fun h0 => absurd h0 (lt_irrefl _),
      fun _ j hj => habs j (Nat.zero_le _) (by omega), ?_⟩
    intro i hi hhit
    exact absurd hhit (habs i (Nat.zero_le _) (by omega))
  · refine ⟨(j : Int) + 1, hr, by omega, ?_, ?_, ?_, ?_⟩
    · have : (j : Int) + 1 ≤ c.numPages := by omega
      exact le_trans this (le_max_left _ _)
    · intro _
      have e : ((j : Int) + 1 - 1).toNat = j := by omega
      rw [e]
      exact ⟨hhit, fun m hm => hmin m (Nat.zero_le _) (by omega)⟩
    · intro h0
      omega
    · intro i hi hi2
      refine ⟨by omega, ?_⟩
      by_contra hc
      exact hmin i (Nat.zero_le _) (by omega) hi2

/-- C27, witness: in the document that lists page object 3 twice, `findPage`
on (3, 0) returns 1, the number of the lower of the two slots. -/
theorem C27_findPage_first_match_witness :
    (Catalog.built exampleEnv 2 docTwice).pageRefs[1]? = some { num := 3, gen := 0 } ∧
    ∃ r, (Catalog.built exampleEnv 2 docTwice).findPage 3 0 = some r ∧ 0 < r ∧ r ≤ 1 := by
  obtain ⟨r, hr, _, _, _, _, hlow⟩ := C27_findPage_first_match exampleEnv 2 docTwice
    (Catalog.built exampleEnv 2 docTwice) (by rfl) 3 0
  have h0 := hlow 0 (by decide) (by rfl)
  exact ⟨by rfl, r, hr, h0.1, by simpa using h0.2⟩

/-! ## Claims about the bounds of the arrays -/

/-- C28: when the declared count is not negative, construction never stores
outside the slots of the two arrays, neither in the loops that initialise
slots nor in `readPageTree`, and never asks the allocator for a negative
number of slots: it ends without a catalog only when it runs out of fuel.
Each store of a page and its reference goes to a slot `start` with
`0 ≤ start < pagesSize` at the time of the store, both arrays having
`pagesSize` slots.  After a construction that returned, every read of
`findPage` is within the reference array: the scan reads the slots below the
page count only, and these exist. -/
theorem C28_accesses_in_bounds (env : Env) (fuel : Nat) (xref : XRef)
    (h4 : 0 ≤ xref.countObj.getNumAsInt) :
    (∀ f, Catalog.new env fuel xref = .error f → f = .outOfFuel) ∧
    (∀ (c : Catalog) (start : Int) (page : Page) (kidRef : Obj), Catalog.MemInv c start →
      ∃ c1, Catalog.storePage env c start page kidRef = .ok c1 ∧
        0 ≤ start ∧ start < c1.pagesSize ∧ (c1.pages.length : Int) = c1.pagesSize ∧
        (c1.pageRefs.length : Int) = c1.pagesSize) ∧
    (∀ c, Catalog.new env fuel xref = .ok c →
      c.numPages ≤ c.pageRefs.length ∧
      ∀ num gen, ∃ r, c.findPage num gen = some r) := by
  refine ⟨?_, ?_, ?_⟩
  · intro f hf
    unfold Catalog.new at hf
    split at hf
    · cases hf
    · split at hf
      · cases hf
      · split at hf
        · cases hf
        · obtain ⟨c1, hc1⟩ := allocPages_ok env xref _ h4
          obtain ⟨_, _, _, _, _, _, hinv⟩ := allocPages_eq_ok hc1
          rw [hc1] at hf
          simp only at hf
          obtain ⟨hs, hn⟩ := readPageTree_walk env xref fuel xref.pagesDict.getDict none 0 c1
            (hinv h4)
          cases hw : pageWalk env xref fuel xref.pagesDict.getDict none 0 with
          | none =>
            rw [hn hw] at hf
            simp only [Except.error.injEq] at hf
            exact hf.symm
          | some p =>
            obtain ⟨ls, e⟩ := p
            obtain ⟨c2, hc2, _⟩ := hs ls e hw
            rw [hc2] at hf
            exact readAux_fault hf
  · intro c start page kidRef hinv
    obtain ⟨c1, hc1, hinv1, _⟩ := storePage_spec env c start page kidRef hinv
    have := hinv1.start_le
    exact ⟨c1, hc1, hinv.start_nonneg, by omega, hinv1.pages_len, hinv1.refs_len⟩
  · intro c hc
    obtain ⟨hrl, _, hle, _⟩ := new_arrays hc
    refine ⟨by omega, ?_⟩
    intro num gen
    rcases findPageFrom_spec c num gen c.numPages.toNat 0 (by omega) with
      ⟨hr, _⟩ | ⟨j, _, _, hr, _⟩
    · exact ⟨_, hr⟩
    · exact ⟨_, hr⟩

/-- C28, witness: the nested example document with declared count 1 has three
pages, so the arrays grow; construction returns, and `findPage` gives a
result. -/
theorem C28_accesses_in_bounds_witness :
    (∃ c, Catalog.new exampleEnv 2 (docNested (.objInt 1)) = .ok c) ∧
    ∃ r, (Catalog.built exampleEnv 2 (docNested (.objInt 1))).findPage 5 0 = some r :=
  ⟨⟨_, by rfl⟩,
    ((C28_accesses_in_bounds exampleEnv 2 (docNested (.objInt 1)) (by decide)).2.2
      (Catalog.built exampleEnv 2 (docNested (.objInt 1))) (by rfl)).2 5 0⟩

/-! ## Claims about the entries of one `Names` array -/

/-- An array of length `L` has `(L + 1) / 2` pairs. -/
theorem pairsOf_length : ∀ names : List Obj, (pairsOf names).length = (names.length + 1) / 2 := by
  intro names
  induction names using pairsOf.induct with
  | case1 => rfl
  | case2 n => simp [pairsOf]
  | case3 n v rest ih =>
    simp only [pairsOf, List.length_cons, ih]
    omega

/-- Pair `j` is the element at index `2 * j` with the element after it. -/
theorem pairsOf_get : ∀ (names : List Obj) (j : Nat) (n : Obj), names[2 * j]? = some n →
    (pairsOf names)[j]? = some (n, names[2 * j + 1]?) := by
  intro names
  induction names using pairsOf.induct with
  | case1 => intro j n h; simp at h
  | case2 n0 =>
    intro j n h
    cases j with
    | zero =>
      simp only [Nat.mul_zero, List.getElem?_cons_zero, Option.some.injEq] at h
      subst h
      rfl
    | succ j =>
      have : 2 * (j + 1) = (2 * j + 1) + 1 := by ring
      rw [this] at h
      simp at h
  | case3 n0 v rest ih =>
    intro j n h
    cases j with
    | zero =>
      simp only [Nat.mul_zero, List.getElem?_cons_zero, Option.some.injEq] at h
      subst h
      simp [pairsOf]
    | succ j =>
      have e1 : 2 * (j + 1) = (2 * j) + 1 + 1 := by ring
      have e2 : 2 * (j + 1) + 1 = (2 * j + 1) + 1 + 1 := by ring
      rw [e1] at h
      simp only [List.getElem?_cons_succ] at h
      simp only [pairsOf, List.getElem?_cons_succ, e2]
      exact ih j n h

/-- The message of one entry: logged exactly for a pair that counts as
malformed. -/
theorem entryNew_msgs (env : Env) (p : Obj × Option Obj) :
    (NameTree.Entry.new env p.1 p.2).2 =
      if pairLogged env p = true then [.invalidPageTree] else [] := by
  obtain ⟨n, v⟩ := p
  cases n <;> cases v <;> simp [NameTree.Entry.new, pairLogged, Obj.isString]
  cases env.getNFPastEnd.2 <;> rfl

/-- The loop over a `Names` array adds one entry for each pair and logs one
message for each pair that counts as malformed. -/
theorem parseNames_pairs (env : Env) : ∀ (names : List Obj) (s : NameTree × List ErrMsg),
    (NameTree.parseNames env names s).1.entries =
      s.1.entries ++ (pairsOf names).map (fun p => (NameTree.Entry.new env p.1 p.2).1) ∧
    (NameTree.parseNames env names s).2 =
      s.2 ++ List.replicate ((pairsOf names).filter (pairLogged env)).length
        ErrMsg.invalidPageTree := by
  intro names s
  induction names, s using NameTree.parseNames.induct env with
  | case1 s => simp [NameTree.parseNames, pairsOf]
  | case2 n s =>
    refine ⟨by simp [NameTree.parseNames, pairsOf, addEntry_entries], ?_⟩
    have := entryNew_msgs env (n, none)
    simp only at this
    simp only [NameTree.parseNames, pairsOf, this, List.filter]
    cases pairLogged env (n, none) <;> simp
  | case3 n v rest s ih =>
    obtain ⟨ih1, ih2⟩ := ih
    refine ⟨?_, ?_⟩
    · rw [NameTree.parseNames, ih1]
      simp [pairsOf, addEntry_entries]
    · rw [NameTree.parseNames, ih2]
      have := entryNew_msgs env (n, some v)
      simp only at this
      simp only [pairsOf, this, List.filter]
      cases pairLogged env (n, some v) <;> simp [List.replicate_succ]

/-- C30, counterexample: with a `getNF` that leaves a null object past the end
of an array and reports success, the `Names` array that holds the one string
a gives one entry and no message is logged. -/
theorem C30_counterexample :
    ∃ t, NameTree.parse exampleEnv docTwice 1 (.objDict [("Names", .objArray [.objString "a"])])
        (NameTree.empty, []) = .ok (t, []) ∧
      t.entries.length = 1 :=
  ⟨_, by rfl, by rfl⟩

/-- C30, amended: the loop of `NameTree::parse` over a `Names` array of length
`L` adds exactly `(L + 1) / 2` entries, after the entries there were: entry
`j` is built from the element at index `2 * j` and the element after it, if
any, also when the pair is malformed.  When the name element is not a string
the entry has an empty name and no value and the message is logged; when the
name is a string and has a value the entry holds both and nothing is logged;
when the name is the last element of an array of odd length the entry holds
the name and the object `getNF` leaves, and the message is logged only if
`getNF` reports the failure.  One message is logged for each pair that is
malformed in this sense and nothing else happens.  On a node whose `Names`
entry is the array these are the entries added before the kids are read. -/
theorem C30_one_entry_per_pair (env : Env) (names : List Obj) (s : NameTree × List ErrMsg) :
    ((NameTree.parseNames env names s).1.entries =
        s.1.entries ++ (pairsOf names).map (fun p => (NameTree.Entry.new env p.1 p.2).1) ∧
      (NameTree.parseNames env names s).1.entries.length =
        s.1.entries.length + (names.length + 1) / 2 ∧
      ∀ (j : Nat) (n : Obj), names[2 * j]? = some n →
        (pairsOf names)[j]? = some (n, names[2 * j + 1]?)) ∧
    (NameTree.parseNames env names s).2 =
      s.2 ++ List.replicate ((pairsOf names).filter (pairLogged env)).length
        ErrMsg.invalidPageTree ∧
    ((∀ (n : Obj) (v : Option Obj), n.isString = false →
        NameTree.Entry.new env n v = ({ name := "", value := .objNone }, [.invalidPageTree])) ∧
      (∀ (nm : String) (v : Obj),
        NameTree.Entry.new env (.objString nm) (some v) = ({ name := nm, value := v }, [])) ∧
      (∀ nm : String,
        NameTree.Entry.new env (.objString nm) none =
          ({ name := nm, value := env.getNFPastEnd.1 },
            if env.getNFPastEnd.2 = true then [] else [.invalidPageTree]))) ∧
    (∀ (xref : XRef) (fuel : Nat) (tree : Obj), tree.isDict = true →
      tree.dictLookup xref "Names" = .objArray names →
      NameTree.parse env xref (fuel + 1) tree s =
        if (tree.dictLookup xref "Kids").isArray then
          NameTree.parseKids xref (NameTree.parse env xref fuel)
            (tree.dictLookup xref "Kids").getArray (NameTree.parseNames env names s)
        else .ok (NameTree.parseNames env names s)) := by
  obtain ⟨h1, h2⟩ := parseNames_pairs env names s
  refine ⟨⟨h1, ?_, pairsOf_get names⟩, h2, ⟨?_, ?_, ?_⟩, ?_⟩
  · rw [h1, List.length_append, List.length_map, pairsOf_length]
  · intro n v hn
    cases n <;> first | rfl | cases hn
  · intro nm v
    rfl
  · intro nm
    rfl
  · intro xref fuel tree hd hn
    simp only [NameTree.parse, hd, if_true, hn, Obj.isArray, Obj.getArray]

/-- C30, witness: the array that holds a number, a value, and then the string
b without a value has three elements and gives two entries; with a `getNF`
that reports the failure two messages are logged, with one that reports
success only the message for the number. -/
theorem C30_one_entry_per_pair_witness :
    (NameTree.parseNames strictEnv [.objInt 1, .objNull, .objString "b"]
      (NameTree.empty, [])).1.entries.length = 2 ∧
    (NameTree.parseNames strictEnv [.objInt 1, .objNull, .objString "b"]
      (NameTree.empty, [])).2 = [.invalidPageTree, .invalidPageTree] ∧
    (NameTree.parseNames exampleEnv [.objInt 1, .objNull, .objString "b"]
      (NameTree.empty, [])).2 = [.invalidPageTree] := by
  have h := C30_one_entry_per_pair strictEnv [.objInt 1, .objNull, .objString "b"]
    (NameTree.empty, [])
  have h2 := C30_one_entry_per_pair exampleEnv [.objInt 1, .objNull, .objString "b"]
    (NameTree.empty, [])
  exact ⟨h.1.2.1, h.2.1.trans (by rfl), h2.2.1.trans (by rfl)⟩

/-! ## The walk in a state without the slots it needs -/

/-- A store ends without a result only by going outside the slots. -/
theorem store_fault {α : Type} {xs : List α} {i : Int} {v : α} {f : Fault}
    (h : store xs i v = .error f) : f ≠ .outOfFuel := by
  unfold store at h
  split at h
  · cases h
  · cases h
    decide

/-- An allocation ends without a result only by being refused. -/
theorem greallocn_fault {α : Type} {aborts : Bool} {junk : Nat → α} {old : List α} {n : Int}
    {f : Fault} (h : greallocn aborts junk old n = .error f) : f ≠ .outOfFuel := by
  unfold greallocn at h
  split at h
  · cases h
    decide
  · cases h

/-- The loop that initialises slots ends without a result only by a store
outside the slots. -/
theorem clearSlots_fault : ∀ (k : Nat) (c : Catalog) (j : Int) (f : Fault),
    Catalog.clearSlots c j k = .error f → f ≠ .outOfFuel := by
  intro k
  induction k with
  | zero => intro c j f h; simp [Catalog.clearSlots] at h
  | succ k ih =>
    intro c j f h
    simp only [Catalog.clearSlots] at h
    split at h
    · rename_i f1 hs
      cases h
      exact store_fault hs
    · split at h
      · rename_i f1 hs
        cases h
        exact store_fault hs
      · exact ih _ _ _ h

/-- Growing the arrays ends without a result only by a refused allocation or a
store outside the slots. -/
theorem grow_fault {env : Env} {c : Catalog} {f : Fault} (h : Catalog.grow env c = .error f) :
    f ≠ .outOfFuel := by
  unfold Catalog.grow at h
  split at h
  · rename_i f1 hs
    cases h
    exact greallocn_fault hs
  · split at h
    · rename_i f1 hs
      cases h
      exact greallocn_fault hs
    · exact clearSlots_fault _ _ _ _ h

/-- Storing a page ends without a result only by a store outside the slots or
a refused allocation, never by lack of fuel. -/
theorem storePage_fault {env : Env} {c : Catalog} {start : Int} {page : Page} {kidRef : Obj}
    {f : Fault} (h : Catalog.storePage env c start page kidRef = .error f) :
    f ≠ .outOfFuel := by
  unfold Catalog.storePage at h
  split at h
  · rename_i f1 hs
    cases h
    split at hs
    · exact grow_fault hs
    · cases hs
  · split at h
    · rename_i f1 hs
      cases h
      exact store_fault hs
    · split at h
      · split at h
        · rename_i f1 hs
          cases h
          exact store_fault hs
        · cases h
      · cases h

/-- In any state the loop of `readPageTree` ends as the walk over the kids
says, unless a store or an allocation fails. -/
theorem readKids_walk_any (env : Env) (xref : XRef)
    (recurse : Dict → PageAttrs → Int → Catalog → Except Fault (Int × Catalog))
    (recW : Dict → PageAttrs → Int → Option (List Leaf × WalkEnd))
    (hrec : ∀ d a s c ls e, 0 ≤ s → recW d a s = some (ls, e) →
      (∃ c1, recurse d a s c = .ok (e.value s ls.length, c1)) ∨
      (∃ f, recurse d a s c = .error f ∧ f ≠ .outOfFuel))
    (attrs1 : PageAttrs) :
    ∀ (kids : List Obj) (start : Int) (c : Catalog) (ls : List Leaf) (e : WalkEnd),
      0 ≤ start → kidsWalk env xref recW attrs1 kids start = some (ls, e) →
      (∃ c1, readKids env xref recurse attrs1 kids start c =
          .ok ((if e = .done then some (start + ls.length) else none), c1)) ∨
      (∃ f, readKids env xref recurse attrs1 kids start c = .error f ∧ f ≠ .outOfFuel) := by
  intro kids
  induction kids with
  | nil =>
    intro start c ls e _ hw
    simp only [kidsWalk, Option.some.injEq, Prod.mk.injEq] at hw
    obtain ⟨rfl, rfl⟩ := hw
    exact Or.inl ⟨c, by simp [readKids]⟩
  | cons kidRef rest ih =>
    intro start c ls e h0 hw
    simp only [kidsWalk] at hw
    simp only [readKids]
    split at hw
    · rename_i hpage
      rw [if_pos hpage]
      split at hw
      · rename_i hvalid
        rw [if_pos hvalid]
        split at hw
        · rename_i ls1 e1 hk
          simp only [Option.some.injEq, Prod.mk.injEq] at hw
          obtain ⟨rfl, rfl⟩ := hw
          cases hs : Catalog.storePage env c start
              { num := start + 1, pageDict := (kidRef.fetch xref).getDict,
                attrs := PageAttrs.merge xref (some attrs1) (kidRef.fetch xref).getDict }
              kidRef with
          | error f => exact Or.inr ⟨f, rfl, storePage_fault hs⟩
          | ok c2 =>
            simp only
            have key := ih (start + 1) c2 ls1 e1 (by omega) hk
            have e2 : start + 1 + (ls1.length : Int) =
                start + ((ls1.length + 1 : Nat) : Int) := by
              push_cast; ring
            rw [e2] at key
            simpa only [List.length_cons] using key
        · cases hw
      · rename_i hvalid
        rw [if_neg hvalid]
        simp only [Option.some.injEq, Prod.mk.injEq] at hw
        obtain ⟨rfl, rfl⟩ := hw
        exact Or.inl ⟨c, rfl⟩
    · rename_i hpage
      rw [if_neg hpage]
      split at hw
      · rename_i hdict
        rw [if_pos hdict]
        split at hw
        · cases hw
        · rename_i below e0 hr
          rcases hrec _ _ _ c _ _ h0 hr with ⟨c2, hc2⟩ | ⟨f, hf, hne⟩
          · rw [hc2]
            simp only
            split at hw
            · rename_i he0
              subst he0
              have hval : WalkEnd.value .done start below.length = start + below.length := rfl
              have hnn : ¬ (WalkEnd.value .done start below.length < 0) := by
                rw [hval]; omega
              rw [if_neg hnn, hval]
              split at hw
              · rename_i ls1 e1 hk
                simp only [Option.some.injEq, Prod.mk.injEq] at hw
                obtain ⟨rfl, rfl⟩ := hw
                have key := ih (start + below.length) c2 ls1 e1 (by omega) hk
                have e2 : start + (below.length : Int) + (ls1.length : Int) =
                    start + ((below ++ ls1).length : Int) := by
                  simp only [List.length_append]; push_cast; ring
                rw [e2] at key
                exact key
              · cases hw
            · rename_i he0
              simp only [Option.some.injEq, Prod.mk.injEq] at hw
              obtain ⟨rfl, rfl⟩ := hw
              have hneg : WalkEnd.value e0 start below.length < 0 := by
                rw [WalkEnd.value_fail he0]; decide
              rw [if_pos hneg]
              exact Or.inl ⟨c2, by simp [he0]⟩
          · rw [hf]
            exact Or.inr ⟨f, rfl, hne⟩
      · rename_i hdict
        rw [if_neg hdict]
        exact ih start _ ls e h0 hw

/-- In any state, a call of `readPageTree` from an index that is not negative
on a tree whose walk ends either returns what the walk says, or it ends by a
store outside the slots or a refused allocation; it does not run out of
fuel. -/
theorem readPageTree_walk_any (env : Env) (xref : XRef) :
    ∀ (fuel : Nat) (d : Dict) (attrs : Option PageAttrs) (start : Int) (c : Catalog)
      (ls : List Leaf) (e : WalkEnd), 0 ≤ start →
      pageWalk env xref fuel d attrs start = some (ls, e) →
      (∃ c1, readPageTree env xref fuel d attrs start c = .ok (e.value start ls.length, c1)) ∨
      (∃ f, readPageTree env xref fuel d attrs start c = .error f ∧ f ≠ .outOfFuel) := by
  intro fuel
  induction fuel with
  | zero => intro d attrs start c ls e _ h; simp [pageWalk] at h
  | succ fuel ih =>
    intro d attrs start c ls e h0 hw
    simp only [pageWalk] at hw
    simp only [readPageTree]
    split at hw
    · rename_i hk
      rw [if_pos hk]
      rcases readKids_walk_any env xref
        (fun d a s c1 => readPageTree env xref fuel d (some a) s c1)
        (fun d a s => pageWalk env xref fuel d (some a) s)
        (fun d a s c ls e hs h => ih d (some a) s c ls e hs h)
        _ _ start c ls e h0 hw with ⟨c1, hc1⟩ | ⟨f, hf, hne⟩
      · rw [hc1]
        by_cases he : e = .done
        · subst he
          exact Or.inl ⟨c1, rfl⟩
        · simp only [he, if_false, WalkEnd.value_fail he]
          exact Or.inl ⟨_, rfl⟩
      · rw [hf]
        exact Or.inr ⟨f, rfl, hne⟩
    · rename_i hk
      rw [if_neg hk]
      simp only [Option.some.injEq, Prod.mk.injEq] at hw
      obtain ⟨rfl, rfl⟩ := hw
      exact Or.inl ⟨_, rfl⟩

/-! ## Claims about the `ok` flag -/

/-- Construction on a document that fails one of the three checks of the root
returns, with `ok` false. -/
theorem new_early (env : Env) (fuel : Nat) (xref : XRef)
    (h : xref.getCatalog.isDict = false ∨ xref.pagesDict.isDict = false ∨
      xref.countObj.isNum = false) :
    ∃ c, Catalog.new env fuel xref = .ok c ∧ c.ok = false := by
  unfold Catalog.new
  by_cases h1 : xref.getCatalog.isDict = false
  · rw [if_pos h1]
    exact ⟨_, rfl, rfl⟩
  · rw [if_neg h1]
    by_cases h2 : xref.pagesDict.isDict = false
    · rw [if_pos h2]
      exact ⟨_, rfl, rfl⟩
    · rw [if_neg h2]
      have h3 : xref.countObj.isNum = false := by
        rcases h with h | h | h
        · exact absurd h h1
        · exact absurd h h2
        · exact h
      rw [if_pos h3]
      exact ⟨_, rfl, rfl⟩

/-- C31: every call of `readPageTree` from an index `start ≥ 0` that returns
either returns -1 and leaves `ok` false, or returns a value not below `start`
and leaves `ok` as it was; so it never turns `ok` from false to true.  On a
finite page tree, whose walk from `start` visits the leaves `ls` and ends with
`e`, the call does not run out of fuel: in any state it returns
`start + ls.length` with `ok` unchanged if the walk visited every kid, and -1
with `ok` false if not, unless it stores outside the slots of the arrays or an
allocation is refused; and it does return in a state in which both arrays have
`pagesSize` slots, `start ≤ pagesSize` and the slots from `start` on are
unset, the state at every call of a construction with a declared count that
is not negative.  After a construction that returned, `isOk` is
false exactly when one of the three checks of the root failed or the top call
of `readPageTree` returned -1; construction returns when a check fails, and
when the checks pass, the declared count is not negative, the walk over the
tree ends and the name tree can be read. -/
theorem C31_ok_flag_only_cleared (env : Env) (xref : XRef) (fuel : Nat) :
    (∀ (d : Dict) (attrs : Option PageAttrs) (start : Int) (c : Catalog) (r : Int)
        (c1 : Catalog), 0 ≤ start →
      readPageTree env xref fuel d attrs start c = .ok (r, c1) →
      ((r = -1 ∧ c1.ok = false) ∨ (start ≤ r ∧ c1.ok = c.ok)) ∧ (c1.ok = true → c.ok = true)) ∧
    (∀ (d : Dict) (attrs : Option PageAttrs) (start : Int) (c : Catalog) (ls : List Leaf)
        (e : WalkEnd), 0 ≤ start →
      pageWalk env xref fuel d attrs start = some (ls, e) →
      ((∃ r c1, readPageTree env xref fuel d attrs start c = .ok (r, c1) ∧
          ((e ≠ .done ∧ r = -1 ∧ c1.ok = false) ∨
            (e = .done ∧ r = start + ls.length ∧ c1.ok = c.ok))) ∨
        (∃ f, readPageTree env xref fuel d attrs start c = .error f ∧ f ≠ .outOfFuel)) ∧
      (Catalog.MemInv c start →
        ∃ r c1, readPageTree env xref fuel d attrs start c = .ok (r, c1))) ∧
    (∀ c, Catalog.new env fuel xref = .ok c →
      (c.isOk = false ↔
        ((xref.getCatalog.isDict = false ∨ xref.pagesDict.isDict = false ∨
            xref.countObj.isNum = false) ∨
          ∃ c1 c2, Catalog.allocPages env xref xref.countObj.getNumAsInt = .ok c1 ∧
            readPageTree env xref fuel xref.pagesDict.getDict none 0 c1 = .ok (-1, c2)))) ∧
    ((xref.getCatalog.isDict = false ∨ xref.pagesDict.isDict = false ∨
        xref.countObj.isNum = false) →
      ∃ c, Catalog.new env fuel xref = .ok c ∧ c.isOk = false) ∧
    (xref.getCatalog.isDict = true → xref.pagesDict.isDict = true →
      xref.countObj.isNum = true → 0 ≤ xref.countObj.getNumAsInt →
      NameTree.Readable env xref fuel →
      ∀ ls e, pageWalk env xref fuel xref.pagesDict.getDict none 0 = some (ls, e) →
        ∃ c, Catalog.new env fuel xref = .ok c ∧ (c.isOk = false ↔ e ≠ .done)) := by
  have hflow : ∀ (d : Dict) (attrs : Option PageAttrs) (start : Int) (c : Catalog) (r : Int)
      (c1 : Catalog), 0 ≤ start →
      readPageTree env xref fuel d attrs start c = .ok (r, c1) →
      ((r = -1 ∧ c1.ok = false) ∨ (start ≤ r ∧ c1.ok = c.ok)) := by
    intro d attrs start c r c1 h0 h
    obtain ⟨extra, hf⟩ := readPageTree_flow env xref fuel d attrs start c r c1 h0 h
    rcases hf.result with hr | ⟨h1, h2, _⟩
    · exact Or.inl hr
    · exact Or.inr ⟨h1, h2⟩
  refine ⟨?_, ?_, ?_, ?_, ?_⟩
  · intro d attrs start c r c1 h0 h
    have hr := hflow d attrs start c r c1 h0 h
    refine ⟨hr, ?_⟩
    intro hok
    rcases hr with ⟨_, h1⟩ | ⟨_, h1⟩
    · rw [h1] at hok
      cases hok
    · rw [← h1]
      exact hok
  · intro d attrs start c ls e h0 hw
    refine ⟨?_, fun hinv => ?_⟩
    swap
    · obtain ⟨c1, hc1, _, _⟩ := (readPageTree_walk env xref fuel d attrs start c hinv).1 ls e hw
      exact ⟨_, c1, hc1⟩
    rcases readPageTree_walk_any env xref fuel d attrs start c ls e h0 hw with
      ⟨c1, hc1⟩ | hfault
    swap
    · exact Or.inr hfault
    left
    refine ⟨_, c1, hc1, ?_⟩
    by_cases he : e = .done
    · subst he
      right
      have hv : WalkEnd.value .done start ls.length = start + ls.length := rfl
      refine ⟨rfl, hv, ?_⟩
      rcases hflow d attrs start c _ c1 h0 hc1 with ⟨h1, _⟩ | ⟨_, h1⟩
      · rw [hv] at h1
        omega
      · exact h1
    · left
      have hv := WalkEnd.value_fail he start ls.length
      refine ⟨he, hv, ?_⟩
      rcases hflow d attrs start c _ c1 h0 hc1 with ⟨_, h1⟩ | ⟨h1, _⟩
      · exact h1
      · rw [hv] at h1
        omega
  · intro c hc
    rcases new_eq_ok hc with ⟨hearly, msg, rfl, _⟩ | ⟨h1, h2, h3, c1, n, c2, hc1, hc2, hc3⟩
    · exact ⟨fun _ => Or.inl hearly, fun _ => rfl⟩
    · obtain ⟨_, hok1, _⟩ := allocPages_eq_ok hc1
      obtain ⟨_, _, _, _, _, hok, _⟩ := readAux_eq_ok hc3
      simp only at hok
      have hr := hflow _ _ _ _ _ _ (le_refl _) hc2
      rw [Catalog.isOk, hok]
      constructor
      · intro hfalse
        right
        rcases hr with ⟨hn, _⟩ | ⟨_, h4⟩
        · subst hn
          exact ⟨c1, c2, hc1, hc2⟩
        · rw [h4, hok1] at hfalse
          cases hfalse
      · rintro (hearly | ⟨c1', c2', hc1', hc2'⟩)
        · rcases hearly with h | h | h
          · rw [h1] at h; cases h
          · rw [h2] at h; cases h
          · rw [h3] at h; cases h
        · rw [hc1] at hc1'
          cases hc1'
          rw [hc2] at hc2'
          simp only [Except.ok.injEq, Prod.mk.injEq] at hc2'
          obtain ⟨hn, rfl⟩ := hc2'
          rcases hr with ⟨_, h4⟩ | ⟨h4, _⟩
          · exact h4
          · omega
  · intro hearly
    obtain ⟨c, hc, hok⟩ := new_early env fuel xref hearly
    exact ⟨c, hc, hok⟩
  · intro h1 h2 h3 h4 hn ls e hw
    obtain ⟨c, hc, _, hok, _⟩ := new_walk env fuel xref ls e h1 h2 h3 h4 hn hw
    refine ⟨c, hc, ?_⟩
    rw [Catalog.isOk, hok]
    by_cases he : e = .done
    · simp [he]
    · simp [he]

/-- C31, witness: in the example document whose second kid is a Pages node
without `Kids`, the call of `readPageTree` on that node from index 1 returns
-1 with `ok` false, the call on the page tree of the nested example document
from index 0 returns 3 with `ok` unchanged, and construction on the first
document returns with `isOk` false. -/
theorem C31_ok_flag_only_cleared_witness :
    (∃ c1, readPageTree exampleEnv docBadKids 1 (docBadKids.fetchObj 4 0).getDict none 1
        (Catalog.initial docBadKids) = .ok (-1, c1) ∧ c1.ok = false) ∧
    (∃ r c1, readPageTree exampleEnv (docNested (.objInt 5)) 2
        (docNested (.objInt 5)).pagesDict.getDict none 0 (Catalog.initial (docNested (.objInt 5)))
          = .ok (r, c1) ∧ r = 3 ∧ c1.ok = true) ∧
    ∃ c, Catalog.new exampleEnv 2 docBadKids = .ok c ∧ c.isOk = false := by
  have h := C31_ok_flag_only_cleared exampleEnv docBadKids 1
  have hn := C31_ok_flag_only_cleared exampleEnv (docNested (.objInt 5)) 2
  have hb := C31_ok_flag_only_cleared exampleEnv docBadKids 2
  refine ⟨?_, ?_, ?_⟩
  · have h1 := (h.1 (docBadKids.fetchObj 4 0).getDict none 1 (Catalog.initial docBadKids) (-1)
      (exampleTreeAt docBadKids 1 (docBadKids.fetchObj 4 0).getDict 1).2 (by decide) (by rfl)).1
    refine ⟨_, by rfl, ?_⟩
    rcases h1 with ⟨_, h2⟩ | ⟨h2, _⟩
    · exact h2
    · omega
  · have hw := hn.2.1 (docNested (.objInt 5)).pagesDict.getDict none 0
      (Catalog.initial (docNested (.objInt 5)))
      (exampleWalk exampleEnv (docNested (.objInt 5)) 2).1
      (exampleWalk exampleEnv (docNested (.objInt 5)) 2).2 (by decide) (by rfl)
    obtain ⟨r0, c0, hc0⟩ := hw.2
      ⟨by decide, by decide, by rfl, by rfl, fun i h1 h2 => by
        have : (Catalog.initial (docNested (.objInt 5))).pagesSize = 0 := rfl
        omega⟩
    rcases hw.1 with ⟨r, c1, hc1, hr⟩ | ⟨f, hf, _⟩
    · refine ⟨r, c1, hc1, ?_⟩
      rcases hr with ⟨he, _⟩ | ⟨_, h2, h3⟩
      · exact absurd (by rfl) he
      · exact ⟨h2.trans (by rfl), h3.trans (by rfl)⟩
    · rw [hc0] at hf
      cases hf
  · obtain ⟨c, hc, hok⟩ := hb.2.2.2.2 (by rfl) (by rfl) (by rfl) (by decide)
      (fun hd => absurd hd (by decide)) (exampleWalk exampleEnv docBadKids 2).1
      (exampleWalk exampleEnv docBadKids 2).2 (by rfl)
    exact ⟨c, hc, hok.2 (by decide)⟩

/-- What `findDest` returns depends on the catalog only through the document,
the destination dictionary and the entries of the name tree. -/
theorem findDest_congr (env : Env) (c c1 : Catalog) (name : String)
    (hx : c.xref = c1.xref) (hd : c.dests = c1.dests)
    (he : c.destNameTree.entries = c1.destNameTree.entries) :
    Catalog.findDest env c name = Catalog.findDest env c1 name := by
  simp only [Catalog.findDest, Catalog.findDestObj, NameTree.lookup, hx, hd, he]

/-- The name tree of a catalog whose construction passed the three early
checks: it is what `NameTree::parse` makes of the `Dests` entry of the `Names`
dictionary, from the empty tree, and it is empty without such a dictionary. -/
theorem new_nameTree {env : Env} {fuel : Nat} {xref : XRef} {c : Catalog}
    (h1 : xref.getCatalog.isDict = true) (h2 : xref.pagesDict.isDict = true)
    (h3 : xref.countObj.isNum = true) (h : Catalog.new env fuel xref = .ok c) :
    ((xref.getCatalog.dictLookup xref "Names").isDict = true →
      ∃ log0 log, NameTree.parse env xref fuel
        ((xref.getCatalog.dictLookup xref "Names").dictLookup xref "Dests")
        (NameTree.empty, log0) = .ok (c.destNameTree, log)) ∧
    ((xref.getCatalog.dictLookup xref "Names").isDict = false →
      c.destNameTree = NameTree.empty) := by
  obtain ⟨c1, n, c2, hc1, hc2, hc3⟩ := new_eq_ok_of_valid h1 h2 h3 h
  obtain ⟨_, _, _, haux1, _⟩ := allocPages_eq_ok hc1
  obtain ⟨extra, hf⟩ := readPageTree_flow env xref _ _ _ _ _ _ _ (le_refl _) hc2
  obtain ⟨_, _, _, _, _, _, _, hparse, hno⟩ := readAux_fields hc3
  simp only at hparse hno
  have hxr : c2.xref = xref := by rw [hf.aux.xref, haux1.xref]; rfl
  have hnt : c2.destNameTree = NameTree.empty := by
    rw [hf.aux.destNameTree, haux1.destNameTree]; rfl
  rw [hxr, hnt] at hparse
  rw [hxr, hnt] at hno
  refine ⟨?_, hno⟩
  intro hn
  obtain ⟨log, hp⟩ := hparse hn
  exact ⟨_, log, hp⟩

/-- C18, counterexample: the top Pages node of the example document has no
Kids entry, so the descent fails and `isOk` is false; all the same the page
mode is FullScreen, the base URI is set and `findDest` finds the destination
of the destination dictionary. -/
theorem C18_counterexample :
    ∃ c, Catalog.new exampleEnv 1 docFailAux = .ok c ∧ c.isOk = false ∧
      ErrMsg.kidsWrongType 1 .objNull ∈ c.log ∧
      c.getPageMode = .FullScreen ∧ c.getPageMode ≠ .UseNone ∧
      c.getBaseURI = some "http://example.org/" ∧
      Catalog.findDest exampleEnv c "a" =
        (some { a := [.objRef 3 0, .objName "Fit"] }, []) :=
  ⟨Catalog.built exampleEnv 1 docFailAux, by rfl, by rfl, by decide, by rfl, by decide, by rfl,
    by rfl⟩

/-- C18, amended: when the descent into the page tree fails on a Kids entry
that is missing or not an array, `ok` becomes false and the page count is -1,
but the later statements of the constructor still run: the auxiliary entries
are read from the catalog dictionary exactly as after a descent that
succeeded.  Whatever the outcome of the descent, the destination dictionary,
the base URI, the page mode and the four other entries are what the catalog
dictionary defines; the name tree is what `NameTree::parse` makes of the
`Dests` entry of the `Names` dictionary from the empty tree, its entries are
the entries of that tree in pre-order, and it is empty without a `Names`
dictionary; and `findDest` returns for every name what it returns on the
destination dictionary and the name tree entries the document defines.
Construction does return, with `isOk` false and page count -1, when the
declared count is not negative, the name tree can be read and the walk over the
page tree stops at a Kids entry that is not an array. -/
theorem C18_failed_tree_still_reads_aux (env : Env) (fuel : Nat) (xref : XRef) (c : Catalog)
    (h1 : xref.getCatalog.isDict = true) (h2 : xref.pagesDict.isDict = true)
    (h3 : xref.countObj.isNum = true) (h : Catalog.new env fuel xref = .ok c) :
    ((∃ p t, ErrMsg.kidsWrongType p t ∈ c.log) → c.isOk = false ∧ c.getNumPages = -1) ∧
    c.dests = xref.getCatalog.dictLookup xref "Dests" ∧
    c.getBaseURI = Catalog.readBaseURI xref none xref.getCatalog ∧
    c.getPageMode =
      Catalog.readPageMode .UseNone (xref.getCatalog.dictLookup xref "PageMode") ∧
    c.metadata = xref.getCatalog.dictLookup xref "Metadata" ∧
    c.structTreeRoot = xref.getCatalog.dictLookup xref "StructTreeRoot" ∧
    c.outline = xref.getCatalog.dictLookup xref "Outlines" ∧
    c.acroForm = xref.getCatalog.dictLookup xref "AcroForm" ∧
    ((xref.getCatalog.dictLookup xref "Dests").isDict = true →
      ∀ name, ((xref.getCatalog.dictLookup xref "Dests").dictLookup xref name).isNull = false →
        Catalog.findDestObj c name =
          (some ((xref.getCatalog.dictLookup xref "Dests").dictLookup xref name), [])) ∧
    ((xref.getCatalog.dictLookup xref "Names").isDict = true →
      (∃ log0 log, NameTree.parse env xref fuel
        ((xref.getCatalog.dictLookup xref "Names").dictLookup xref "Dests")
        (NameTree.empty, log0) = .ok (c.destNameTree, log)) ∧
      nameEntries env xref fuel
        ((xref.getCatalog.dictLookup xref "Names").dictLookup xref "Dests") =
          some c.destNameTree.entries) ∧
    ((xref.getCatalog.dictLookup xref "Names").isDict = false →
      c.destNameTree = NameTree.empty) ∧
    (∀ name, Catalog.findDest env c name =
      Catalog.findDest env
        { Catalog.initial xref with
          dests := xref.getCatalog.dictLookup xref "Dests"
          destNameTree :=
            { size := 0
              entries :=
                if (xref.getCatalog.dictLookup xref "Names").isDict = true then
                  (nameEntries env xref fuel
                    ((xref.getCatalog.dictLookup xref "Names").dictLookup xref "Dests")).getD []
                else [] } } name) ∧
    (0 ≤ xref.countObj.getNumAsInt → NameTree.Readable env xref fuel →
      ∀ ls, pageWalk env xref fuel xref.pagesDict.getDict none 0 = some (ls, .badKids) →
        ∃ c1, Catalog.new env fuel xref = .ok c1 ∧ c1.isOk = false ∧ c1.getNumPages = -1) := by
  obtain ⟨hd, hb, hm, hmd, hst, ho, ha, hx⟩ := new_aux_fields h1 h2 h3 h
  obtain ⟨hparse, hempty⟩ := new_nameTree h1 h2 h3 h
  refine ⟨?_, hd, hb, hm, hmd, hst, ho, ha, ?_, ?_, hempty, ?_, ?_⟩
  · rintro ⟨p, t, hmem⟩
    obtain ⟨c1, n, c2, hc1, hc2, hc3⟩ := new_eq_ok_of_valid h1 h2 h3 h
    obtain ⟨_, _, hlog1, _⟩ := allocPages_eq_ok hc1
    obtain ⟨extra, hf⟩ := readPageTree_flow env xref _ _ _ _ _ _ _ (le_refl _) hc2
    obtain ⟨_, _, _, hnp, _, hok, _, extra2, hlog, hmsgs⟩ := readAux_eq_ok hc3
    simp only at hnp hok hlog
    have hin : ErrMsg.kidsWrongType p t ∈ extra := by
      rw [hlog, hf.log, hlog1] at hmem
      rcases List.mem_append.1 hmem with hm | hm
      · split at hm
        · rcases List.mem_append.1 hm with hm | hm
          · simpa using hm
          · simp at hm
        · simpa using hm
      · have := hmsgs _ hm
        cases this
    rcases hf.result with ⟨hr, hfalse⟩ | ⟨_, _, hall⟩
    · exact ⟨by simp only [Catalog.isOk]; rw [hok, hfalse],
        by simp only [Catalog.getNumPages]; rw [hnp, hr]⟩
    · obtain ⟨_, _, hm⟩ := hall _ hin
      cases hm
  · intro hdict name hnn
    simp only [Catalog.findDestObj, hd, hx, hdict, hnn, and_self, if_true]
  · intro hn
    exact ⟨hparse hn, new_nameTree_entries h1 h2 h3 h hn⟩
  · intro name
    apply findDest_congr env _ _ name hx hd
    by_cases hn : (xref.getCatalog.dictLookup xref "Names").isDict = true
    · simp only [hn, if_true, new_nameTree_entries h1 h2 h3 h hn, Option.getD_some]
    · have hn2 : (xref.getCatalog.dictLookup xref "Names").isDict = false := by
        simpa using hn
      simp only [hn2, Bool.false_eq_true, if_false, hempty hn2, NameTree.empty]
  · intro h4 hr ls hw
    obtain ⟨c1, hc1, hnp, hok, _⟩ := new_walk env fuel xref ls .badKids h1 h2 h3 h4 hr hw
    refine ⟨c1, hc1, ?_, ?_⟩
    · simp only [Catalog.isOk, hok]
      decide
    · simp only [Catalog.getNumPages, hnp]
      rfl

/-- C18, witness: the example document whose top Pages node has a number as
its Kids entry: `isOk` is false, the page count is -1, the destination
dictionary is the one of the catalog, the name tree holds the names alpha and
beta, and `findDest` finds a destination of the dictionary and one of the name
tree. -/
theorem C18_failed_tree_still_reads_aux_witness :
    (Catalog.built exampleEnv 2 docFailNames).isOk = false ∧
    (Catalog.built exampleEnv 2 docFailNames).getNumPages = -1 ∧
    (Catalog.built exampleEnv 2 docFailNames).dests.isDict = true ∧
    (Catalog.built exampleEnv 2 docFailNames).destNameTree.entries.map (fun e => e.name) =
      ["alpha", "beta"] ∧
    Catalog.findDest exampleEnv (Catalog.built exampleEnv 2 docFailNames) "a" =
      (some { a := [.objRef 3 0, .objName "Fit"] }, []) ∧
    Catalog.findDest exampleEnv (Catalog.built exampleEnv 2 docFailNames) "beta" =
      (some { a := [.objRef 3 0, .objName "FitV"] }, []) := by
  have h := C18_failed_tree_still_reads_aux exampleEnv 2 docFailNames
    (Catalog.built exampleEnv 2 docFailNames) (by rfl) (by rfl) (by rfl) (by rfl)
  obtain ⟨hok, hnp⟩ := h.1 ⟨1, .objInt, by decide⟩
  have hes := (h.2.2.2.2.2.2.2.2.2.1 (by rfl)).2
  have hfd := h.2.2.2.2.2.2.2.2.2.2.2.1
  refine ⟨hok, hnp, by rw [h.2.1]; rfl, ?_, ?_, ?_⟩
  · have : (nameEntries exampleEnv docFailNames 2
        ((docFailNames.getCatalog.dictLookup docFailNames "Names").dictLookup
          docFailNames "Dests")).map (fun es => es.map (fun e => e.name)) =
        some ["alpha", "beta"] := by decide
    rw [hes] at this
    simpa using this
  · rw [hfd "a"]; rfl
  · rw [hfd "beta"]; rfl

end Xpdf
